import Mathlib

/-!
# RcSeq: RC pulse decoding and servo sequencing

A shallow embedding of `RcSeq.cpp` (DigisparkRcSeq, library version 2.1) and a
verification of its documented behaviour.

The embedding follows the build in which every optional feature is compiled in
(`RC_SEQ_WITH_SOFT_RC_PULSE_IN_SUPPORT`, `RC_SEQ_WITH_SOFT_RC_PULSE_OUT_SUPPORT`,
`RC_SEQ_WITH_SHORT_ACTION_SUPPORT`, `RC_SEQ_CONTROL_SUPPORT`) with static
allocation (`RC_SEQ_WITH_STATIC_MEM_ALLOC_SUPPORT`), for the AVR targets the
library names (16-bit `int`, 32-bit `long`).

Conventions.
* Machine integers are `Nat`/`Int` with an explicit reduction where the C code
  stores a value into a narrower or unsigned object (`u8`, `u16`, `u32`, `i8`,
  `i32`).  Storing an out-of-range value into a signed object wraps, as avr-gcc
  does.
* Pointers are addresses (`Nat`), `0` is `NULL`.
* A function returns `none` when the C code has no defined result: an array is
  read or written out of bounds, a division by zero is evaluated, or (for
  `GetPos`, whose loop counter can wrap) the iteration budget is used up.
* External collaborators (servo output, user callbacks) are observed through a
  trace of events; the clock, the pulse inputs and the value returned by the
  gating callback are inputs of the embedding.
-/

namespace RcSeq

/-! ## Machine integers -/

/-- Value stored into a `uint8_t`. -/
def u8 (x : Int) : Nat := (x % 256).toNat

/-- Value stored into a `uint16_t`. -/
def u16 (x : Int) : Nat := (x % 65536).toNat

/-- Value stored into a `uint32_t`. -/
def u32 (x : Int) : Nat := (x % 4294967296).toNat

/-- Value stored into an `int8_t` (two's complement wrap). -/
def i8 (x : Int) : Int := (x + 128) % 256 - 128

/-- Value stored into an `int32_t` (two's complement wrap). -/
def i32 (x : Int) : Int := (x + 2147483648) % 4294967296 - 2147483648

/-! ## Macros -/

/-- `#define REFRESH_INTERVAL_MS 20L` -/
def REFRESH_INTERVAL_MS : Nat := 20

/-- `#define STICK_PULSE_CHECK_MS 150L` -/
def STICK_PULSE_CHECK_MS : Nat := 150

/-- `#define KBD_PULSE_CHECK_MS 50L` -/
def KBD_PULSE_CHECK_MS : Nat := 50

/-- `#define NO_SEQ_LINE 255` -/
def NO_SEQ_LINE : Nat := 255

/-- `#define NO_POS 255` -/
def NO_POS : Nat := 255

/-- `#define ACTIVE_AREA_STEP_NBR 3` -/
def ACTIVE_AREA_STEP_NBR : Nat := 3

/-- `#define INACTIVE_AREA_STEP_NBR 1` -/
def INACTIVE_AREA_STEP_NBR : Nat := 1

/-- Modelled from the spec: the channel topology kinds that the absent header
`RcSeq.h` names `RC_CMD_STICK`, `RC_CMD_MULTI_POS_SW` and `RC_CMD_CUSTOM`
(Stick, MultiPositionSwitch, CustomKeymap). -/
inductive RcCmdType where
  | RC_CMD_STICK
  | RC_CMD_MULTI_POS_SW
  | RC_CMD_CUSTOM
  deriving DecidableEq, Repr

open RcCmdType

/-- `TOTAL_STEP_NBR(KeyNb, Type)`, an `int`. -/
def TOTAL_STEP_NBR (KeyNb : Nat) (Type_ : RcCmdType) : Int :=
  if Type_ = RC_CMD_STICK then
    (KeyNb : Int) * ((ACTIVE_AREA_STEP_NBR : Int) + INACTIVE_AREA_STEP_NBR)
  else
    (KeyNb : Int) * ((ACTIVE_AREA_STEP_NBR : Int) + INACTIVE_AREA_STEP_NBR) - 1

/-- `STEP(MinUs, MaxUs, KeyNb, Type)`: the operands are `uint16_t`, so both the
difference and the divisor are taken as 16-bit unsigned values; `none` is the
division by zero. -/
def STEP (MinUs MaxUs KeyNb : Nat) (Type_ : RcCmdType) : Option Nat :=
  if u16 (TOTAL_STEP_NBR KeyNb Type_) = 0 then none
  else some (u16 ((MaxUs : Int) - MinUs) / u16 (TOTAL_STEP_NBR KeyNb Type_))

/-- `KEY_MIN_VAL(Idx, Step)` before it is stored into a `uint16_t`. -/
def KEY_MIN_VAL (Idx : Int) (Step : Nat) : Int :=
  ((ACTIVE_AREA_STEP_NBR : Int) + INACTIVE_AREA_STEP_NBR) * Step * Idx

/-- `KEY_MAX_VAL(Idx, Step)` before it is stored into a `uint16_t`. -/
def KEY_MAX_VAL (Idx : Int) (Step : Nat) : Int :=
  KEY_MIN_VAL Idx Step + (ACTIVE_AREA_STEP_NBR : Int) * Step

/-- `TST_BIT(Value, BitIdx)` on a `uint8_t` value. -/
def TST_BIT (Value BitIdx : Nat) : Nat := Value &&& (1 <<< BitIdx)

/-- `SET_BIT(Value, BitIdx)` stored back into a `uint8_t`. -/
def SET_BIT (Value BitIdx : Nat) : Nat := (Value ||| (1 <<< BitIdx)) % 256

/-- `REFRESH_NB(DurationMs)` on a `uint32_t` duration. -/
def REFRESH_NB (DurationMs : Nat) : Nat := DurationMs / REFRESH_INTERVAL_MS

/-! ## Data model -/

/-- Modelled from the spec: one entry of a custom key map (`KeyMap_t` of the
absent header), a pair of `uint16_t` bounds. -/
structure KeyMap_t where
  Min : Nat
  Max : Nat
  deriving DecidableEq, Repr

/-- Modelled from the spec: one line of a sequence table (`SequenceSt_t` of the
absent header): actuator index or 255 for a short action, start offset and
duration in ms (32 bits), start and end angle (8 bits), short action callback. -/
structure SequenceSt_t where
  ServoIndex : Nat
  StartMotionOffsetMs : Nat
  MotionDurationMs : Nat
  StartInDegrees : Nat
  EndInDegrees : Nat
  ShortAction : Nat
  deriving DecidableEq, Repr

/-- `CmdSequenceSt_t`: one command/sequence binding. -/
structure CmdSequenceSt_t where
  InProgress : Int
  CmdIdx : Int
  Pos : Int
  StartChronoMs : Nat
  TableOrShortAction : Nat
  SequenceLength : Nat
  ShortActionMap : Nat
  Control : Nat
  deriving DecidableEq, Repr

/-- `PosST_t`: the held position of a channel and when it began to hold. -/
structure PosST_t where
  Idx : Int
  StartChronoMs : Nat
  deriving DecidableEq, Repr

/-- `RcCmdSt_t` without the pulse reader object; `KeyMap` is the table the
`KeyMap` pointer designates, `Type_` is the field `Type`. -/
structure RcCmdSt_t where
  Pos : PosST_t
  Type_ : RcCmdType
  PosNb : Nat
  PulseMinUs : Nat
  PulseMaxUs : Nat
  StepUs : Nat
  KeyMap : List KeyMap_t
  deriving DecidableEq, Repr

/-- `ServoSt_t` without the pulse generator object. -/
structure ServoSt_t where
  RefreshNb : Nat
  SeqLineInProgress : Nat
  deriving DecidableEq, Repr

/-- Calls made to the external collaborators, in program order.
`shortAction` is the call of the callback of a short action binding by
`ExecuteSequence`; `lineAction` is the call of the callback of the short action
line `SeqLine` of the sequence of binding `Idx` by `RcSeq_Refresh`; `trigger`
marks the call of `ExecuteSequence` made by the debounce step of
`RcSeq_Refresh`, with the clock reading of its hold check. -/
inductive Event where
  | shortAction (fn : Nat)
  | lineAction (Idx : Nat) (SeqLine : Nat) (fn : Nat)
  | control (fn : Nat) (Action : Nat) (SeqIdx : Nat)
  | servoWrite (Idx : Nat) (Angle : Nat)
  | servoAttach (Idx : Nat) (DigitalPin : Nat)
  | pulseAttach (Idx : Nat) (DigitalPin : Nat)
  | pinChangeInit
  | servoRefresh
  | trigger (ChIdx : Nat) (CmdPos : Nat) (atMs : Nat)
  deriving DecidableEq, Repr

/-- The global and function-static variables of `RcSeq.cpp`, the number of
`millis()` calls made so far, and the trace of external calls. -/
structure State where
  SeqNb : Nat
  ServoNb : Nat
  CmdSignalNb : Nat
  RcChannel : List RcCmdSt_t
  Servo : List ServoSt_t
  CmdSequence : List CmdSequenceSt_t
  staticsReady : Bool
  NowMs : Nat
  StartChronoInterPulseMs : Nat
  clock : Nat
  trace : List Event
  deriving DecidableEq, Repr

/-- Build constants of the absent header and the inputs of the embedding.
`millis k` is the time in ms at the `k`-th call of `millis()`; `Control` gives
what the gating callback at an address returns, given the calls made so far;
`Flash` gives the sequence table stored at an address. -/
structure Env where
  SEQUENCE_MAX_NB : Nat
  SERVO_MAX_NB : Nat
  RC_CMD_MAX_NB : Nat
  RC_SEQ_START_CONDITION : Nat
  RC_SEQ_END_OF_SEQ : Nat
  millis : Nat → Nat
  Control : List Event → Nat → Nat → Nat → Nat
  Flash : Nat → List SequenceSt_t

/-- One call of `millis()`: a 32-bit reading, and the call is counted. -/
def millis (env : Env) (s : State) : Nat × State :=
  (u32 (env.millis s.clock), { s with clock := s.clock + 1 })

/-- Append one external call to the trace. -/
def emit (s : State) (e : Event) : State :=
  { s with trace := s.trace ++ [e] }

/-! ## Channel decoder -/

/-- The window `(PulseMinUs, PulseMaxUs)` that `GetPos` computes for the loop
index `Idx`; `none` when the key map is read out of bounds. -/
def keyWindow (ch : RcCmdSt_t) (Idx : Int) : Option (Nat × Nat) :=
  match ch.Type_ with
  | RC_CMD_CUSTOM =>
    if 0 ≤ Idx then
      match ch.KeyMap[Idx.toNat]? with
      | some k => some (u16 k.Min, u16 k.Max)
      | none => none
    else none
  | _ =>
    if ch.Type_ = RC_CMD_MULTI_POS_SW ∨
        (ch.Type_ = RC_CMD_STICK ∧ Idx < ((ch.PosNb / 2 : Nat) : Int)) then
      some (u16 ((ch.PulseMinUs : Int) + KEY_MIN_VAL Idx ch.StepUs),
            u16 ((ch.PulseMinUs : Int) + KEY_MAX_VAL Idx ch.StepUs))
    else
      some (u16 ((ch.PulseMaxUs : Int) - KEY_MAX_VAL ((ch.PosNb : Int) - 1 - Idx) ch.StepUs),
            u16 ((ch.PulseMaxUs : Int) - KEY_MIN_VAL ((ch.PosNb : Int) - 1 - Idx) ch.StepUs))

/-- The `for` loop of `GetPos` from loop index `Idx` (an `int8_t`), with an
iteration budget. -/
def GetPosFrom (ch : RcCmdSt_t) (PulseWidthUs : Nat) : Nat → Int → Option Int
  | 0, _ => none
  | fuel + 1, Idx =>
    if Idx < (ch.PosNb : Int) then
      match keyWindow ch Idx with
      | none => none
      | some (PulseMinUs, PulseMaxUs) =>
        if PulseWidthUs ≥ PulseMinUs ∧ PulseWidthUs ≤ PulseMaxUs then some Idx
        else GetPosFrom ch PulseWidthUs fuel (i8 (Idx + 1))
    else some (-1)

/-- `GetPos(ChIdx, PulseWidthUs)`: the position index, or `-1`. -/
def GetPos (fuel : Nat) (s : State) (ChIdx PulseWidthUs : Nat) : Option Int :=
  match s.RcChannel[ChIdx]? with
  | none => none
  | some ch => GetPosFrom ch PulseWidthUs fuel 0

/-! ## Registration API -/

/-- `RcSeq_DeclareKeyboardOrStickOrCustom`. -/
def RcSeq_DeclareKeyboardOrStickOrCustom (s : State) (ChIdx : Nat) (Type_ : RcCmdType)
    (PulseMinUs PulseMaxUs : Nat) (KeyMap : List KeyMap_t) (PosNb : Nat) : Option State :=
  match s.RcChannel[ChIdx]? with
  | none => none
  | some ch =>
    match STEP PulseMinUs PulseMaxUs PosNb Type_ with
    | none => none
    | some Step =>
      let ch1 : RcCmdSt_t :=
        { ch with Type_ := Type_, PosNb := PosNb, PulseMinUs := PulseMinUs,
                  PulseMaxUs := PulseMaxUs, StepUs := u16 Step, KeyMap := KeyMap }
      some { s with RcChannel := s.RcChannel.set ChIdx ch1 }

/-- `RcSeq_DeclareCustomKeyboard`. -/
def RcSeq_DeclareCustomKeyboard (s : State) (ChIdx : Nat) (KeyMapTbl : List KeyMap_t)
    (KeyNb : Nat) : Option State :=
  RcSeq_DeclareKeyboardOrStickOrCustom s ChIdx RC_CMD_CUSTOM 0 0 KeyMapTbl KeyNb

/-- `RcSeq_Init`. -/
def RcSeq_Init (_env : Env) (s : State) : State :=
  emit
    { s with
      SeqNb := 0
      ServoNb := 0
      RcChannel := s.RcChannel.map
        (fun ch => { ch with Pos := { ch.Pos with Idx := i8 NO_POS } })
      CmdSequence := s.CmdSequence.map
        (fun b => { b with InProgress := 0, TableOrShortAction := 0,
                           SequenceLength := 0, ShortActionMap := 0 }) }
    Event.pinChangeInit

/-- `RcSeq_DeclareServo` (static allocation). -/
def RcSeq_DeclareServo (env : Env) (s : State) (Idx DigitalPin : Nat) : Option State :=
  if Idx < env.SERVO_MAX_NB then
    match s.Servo[Idx]? with
    | none => none
    | some sv =>
      let s1 := emit s (Event.servoAttach Idx DigitalPin)
      let s2 := { s1 with Servo := s1.Servo.set Idx { sv with SeqLineInProgress := NO_SEQ_LINE } }
      some (if s2.ServoNb < Idx + 1 then { s2 with ServoNb := u8 (Idx + 1) } else s2)
  else some s

/-- `RcSeq_ServoWrite`. -/
def RcSeq_ServoWrite (env : Env) (s : State) (Idx Angle : Nat) : Option State :=
  if Idx < env.SERVO_MAX_NB then
    match s.Servo[Idx]? with
    | none => none
    | some _ => some (emit s (Event.servoWrite Idx Angle))
  else some s

/-- `RcSeq_DeclareSignal`. -/
def RcSeq_DeclareSignal (env : Env) (s : State) (Idx DigitalPin : Nat) : Option State :=
  if Idx < env.RC_CMD_MAX_NB then
    match s.RcChannel[Idx]? with
    | none => none
    | some _ =>
      some { emit s (Event.pulseAttach Idx DigitalPin) with
             CmdSignalNb := u8 ((s.CmdSignalNb : Int) + 1) }
  else some s

/-- The slot search of the registration functions: the first `Idx` from `Idx`
up to `SEQUENCE_MAX_NB` (`n` slots left) whose `TableOrShortAction` is `NULL`
is filled by `fill` and `SeqNb` is incremented; with no free slot nothing
changes. -/
def declareFrom (fill : CmdSequenceSt_t → CmdSequenceSt_t) (s : State) :
    Nat → Nat → Option State
  | 0, _ => some s
  | n + 1, Idx =>
    match s.CmdSequence[Idx]? with
    | none => none
    | some b =>
      if b.TableOrShortAction = 0 then
        some { s with CmdSequence := s.CmdSequence.set Idx (fill b)
                      SeqNb := u8 ((s.SeqNb : Int) + 1) }
      else declareFrom fill s n (Idx + 1)

/-- The second loop of `RcSeq_DeclareCommandAndSequence`: each servo is sent the
start angle of its earliest line.  `StartMinMs` is the local array. -/
def declareInitialWrites (Table : List SequenceSt_t) (s : State) (StartMinMs : List Nat) :
    Nat → Nat → Option State
  | 0, _ => some s
  | n + 1, Idx =>
    match Table[Idx]? with
    | none => none
    | some line =>
      if u8 line.ServoIndex ≠ 255 then
        match StartMinMs[u8 line.ServoIndex]?, s.Servo[u8 line.ServoIndex]? with
        | some m, some _ =>
          if u32 line.StartMotionOffsetMs ≤ m then
            declareInitialWrites Table
              (emit s (Event.servoWrite (u8 line.ServoIndex) (u8 line.StartInDegrees)))
              (StartMinMs.set (u8 line.ServoIndex) (u32 line.StartMotionOffsetMs)) n (Idx + 1)
          else declareInitialWrites Table s StartMinMs n (Idx + 1)
        | _, _ => none
      else declareInitialWrites Table s StartMinMs n (Idx + 1)

/-- `RcSeq_DeclareCommandAndSequence` (static allocation, with `Control`). -/
def RcSeq_DeclareCommandAndSequence (env : Env) (s : State) (CmdIdx Pos Table SequenceLength
    Control : Nat) : Option State :=
  match declareFrom
      (fun b => { b with CmdIdx := i8 CmdIdx, Pos := i8 Pos, TableOrShortAction := Table,
                         SequenceLength := SequenceLength, Control := Control })
      s env.SEQUENCE_MAX_NB 0 with
  | none => none
  | some s1 =>
    declareInitialWrites (env.Flash Table) s1 (List.replicate env.SERVO_MAX_NB 4294967295)
      SequenceLength 0

/-- `RcSeq_DeclareCommandAndShortAction` (static allocation). -/
def RcSeq_DeclareCommandAndShortAction (env : Env) (s : State) (CmdIdx Pos ShortAction : Nat) :
    Option State :=
  declareFrom
    (fun b => { b with CmdIdx := i8 CmdIdx, Pos := i8 Pos, TableOrShortAction := ShortAction,
                       SequenceLength := 0 })
    s env.SEQUENCE_MAX_NB 0

/-! ## Trigger -/

/-- The body of the `if` of `ExecuteSequence` for the matching binding `Idx`;
the result is the new state and `Ret`. -/
def executeBinding (env : Env) (s : State) (Idx : Nat) (b : CmdSequenceSt_t) : State × Nat :=
  if b.TableOrShortAction ≠ 0 ∧ b.SequenceLength = 0 then
    (emit s (Event.shortAction b.TableOrShortAction), 1)
  else if b.InProgress = 0 then
    let Go : Nat :=
      if b.Control ≠ 0 then u8 (env.Control s.trace b.Control env.RC_SEQ_START_CONDITION Idx)
      else 1
    let s1 : State :=
      if b.Control ≠ 0 then emit s (Event.control b.Control env.RC_SEQ_START_CONDITION Idx)
      else s
    if Go ≠ 0 then
      let t := millis env s1
      ({ t.2 with CmdSequence :=
            (t.2.CmdSequence.set Idx { b with InProgress := 1, StartChronoMs := t.1 }) }, 1)
    else (s1, 0)
  else (s, 0)

/-- The `for` loop of `ExecuteSequence` from `Idx`, with `n` bindings left
below `SeqNb`. -/
def ExecuteSequenceFrom (env : Env) (s : State) (CmdIdx Pos : Nat) :
    Nat → Nat → Option (State × Nat)
  | 0, _ => some (s, 0)
  | n + 1, Idx =>
    match s.CmdSequence[Idx]? with
    | none => none
    | some b =>
      if b.CmdIdx = (CmdIdx : Int) ∧ b.Pos = (Pos : Int) then
        some (executeBinding env s Idx b)
      else ExecuteSequenceFrom env s CmdIdx Pos n (Idx + 1)

/-- `ExecuteSequence(CmdIdx, Pos)`: the new state and the returned `Ret`. -/
def ExecuteSequence (env : Env) (s : State) (CmdIdx Pos : Nat) : Option (State × Nat) :=
  ExecuteSequenceFrom env s CmdIdx Pos s.SeqNb 0

/-- The `for` loop of `RcSeq_LaunchSequence` from `Idx`, with `n` slots left
below `SEQUENCE_MAX_NB`. -/
def LaunchSequenceFrom (env : Env) (s : State) (Table : Nat) :
    Nat → Nat → Option (State × Nat)
  | 0, _ => some (s, 0)
  | n + 1, Idx =>
    match s.CmdSequence[Idx]? with
    | none => none
    | some b =>
      if b.TableOrShortAction = Table then ExecuteSequence env s (u8 b.CmdIdx) (u8 b.Pos)
      else LaunchSequenceFrom env s Table n (Idx + 1)

/-- `RcSeq_LaunchSequence(Table)`. -/
def RcSeq_LaunchSequence (env : Env) (s : State) (Table : Nat) : Option (State × Nat) :=
  LaunchSequenceFrom env s Table env.SEQUENCE_MAX_NB 0

/-! ## Tick driver -/

/-- The hold threshold of the debounce step: `STICK_PULSE_CHECK_MS` for a
stick, `KBD_PULSE_CHECK_MS` otherwise. -/
def pulseCheckMs (ch : RcCmdSt_t) : Nat :=
  if ch.Type_ = RC_CMD_STICK then STICK_PULSE_CHECK_MS else KBD_PULSE_CHECK_MS

/-- The channel `ch` with its held position set to `NO_POS` (the `int8_t`
field then holds `-1`). -/
def clearPos (ch : RcCmdSt_t) : RcCmdSt_t :=
  { ch with Pos := { ch.Pos with Idx := i8 NO_POS } }

/-- The debounce step of `RcSeq_Refresh` for channel `ChIdx`, whose record is
`ch`, once its fresh pulse has been decoded to `CmdPos`. -/
def debounce (env : Env) (s : State) (ChIdx : Nat) (ch : RcCmdSt_t) (CmdPos : Int) :
    Option State :=
  if CmdPos ≥ 0 then
    if ch.Pos.Idx ≠ CmdPos then
      let t := millis env s
      some { t.2 with RcChannel :=
        (t.2.RcChannel.set ChIdx { ch with Pos := { Idx := CmdPos, StartChronoMs := t.1 } }) }
    else
      let t := millis env s
      if u32 ((t.1 : Int) - ch.Pos.StartChronoMs) ≥ pulseCheckMs ch then
        match ExecuteSequence env (emit t.2 (Event.trigger ChIdx (u8 CmdPos) t.1))
            ChIdx (u8 CmdPos) with
        | none => none
        | some r =>
          match r.1.RcChannel[ChIdx]? with
          | none => none
          | some ch1 => some { r.1 with RcChannel := r.1.RcChannel.set ChIdx (clearPos ch1) }
      else some t.2
  else
    some { s with RcChannel := s.RcChannel.set ChIdx (clearPos ch) }

/-- The body of the command acquisition loop of `RcSeq_Refresh` for channel
`ChIdx`.  `pulse` is `none` when `Pulse.available()` is false, and the value of
`Pulse.width_us()` otherwise. -/
def acquireChannel (env : Env) (fuel : Nat) (s : State) (ChIdx : Nat) (pulse : Option Nat) :
    Option State :=
  match s.RcChannel[ChIdx]? with
  | none => none
  | some ch =>
    match pulse with
    | none => some s
    | some RcPulseWidthUs =>
      match GetPos fuel s ChIdx (u16 RcPulseWidthUs) with
      | none => none
      | some CmdPos => debounce env s ChIdx ch CmdPos

/-- The command acquisition loop of `RcSeq_Refresh` from `ChIdx`, with `n`
channels left below `CmdSignalNb`; `pulses ChIdx` is the pulse input of channel
`ChIdx` during this call. -/
def acquireFrom (env : Env) (fuel : Nat) (pulses : Nat → Option Nat) :
    Nat → Nat → State → Option State
  | 0, _, s => some s
  | n + 1, ChIdx, s =>
    match acquireChannel env fuel s ChIdx (pulses ChIdx) with
    | none => none
    | some s1 => acquireFrom env fuel pulses n (ChIdx + 1) s1

/-- The time test of a servo motion line of the binding `b`:
`(NowMs >= StartOfSeqMs) && (NowMs <= EndOfSeqMs)`, where
`StartOfSeqMs = StartChronoMs + StartMotionOffsetMs` and
`EndOfSeqMs = StartOfSeqMs + MotionDurationMs` are `uint32_t` sums. -/
def motionDue (s : State) (b : CmdSequenceSt_t) (line : SequenceSt_t) : Bool :=
  decide (s.NowMs ≥ u32 ((b.StartChronoMs : Int) + line.StartMotionOffsetMs) ∧
    s.NowMs ≤ u32 ((u32 ((b.StartChronoMs : Int) + line.StartMotionOffsetMs) : Int)
                + u32 line.MotionDurationMs))

/-- The time test of a short action line of the binding `b`:
`NowMs >= StartOfSeqMs`, where `StartOfSeqMs = StartChronoMs + StartMotionOffsetMs`
is a `uint32_t` sum. -/
def shortActionDue (s : State) (b : CmdSequenceSt_t) (line : SequenceSt_t) : Bool :=
  decide (s.NowMs ≥ u32 ((b.StartChronoMs : Int) + line.StartMotionOffsetMs))

/-- The short action line `line` of binding `Idx`, whose record is `b`, is due
and not yet performed: its callback is called and its bit is set; on the last
line the run ends. -/
def shortActionFire (s : State) (Idx SeqLine : Nat) (b : CmdSequenceSt_t) (line : SequenceSt_t)
    (ShortActionCnt : Nat) : State :=
  { emit s (Event.lineAction Idx SeqLine line.ShortAction) with
    CmdSequence := s.CmdSequence.set Idx
      (if SeqLine + 1 = b.SequenceLength then
        { b with InProgress := 0, ShortActionMap := 0 }
       else { b with ShortActionMap := SET_BIT b.ShortActionMap ShortActionCnt }) }

/-- A short action line of the sequence of binding `Idx`; `ShortActionCnt` is
the counter after its increment. -/
def shortActionLine (s : State) (Idx SeqLine : Nat) (line : SequenceSt_t)
    (ShortActionCnt : Nat) : Option State :=
  match s.CmdSequence[Idx]? with
  | none => none
  | some b =>
    if shortActionDue s b line = true ∧ TST_BIT b.ShortActionMap ShortActionCnt = 0 then
      some (shortActionFire s Idx SeqLine b line ShortActionCnt)
    else some s

/-- The position expression of the servo motion update,
`Pos = (int32_t)End - ((int32_t)RefreshNb * STEP_IN_DEGREES_PER_REFRESH(...))`,
which after macro expansion is `End - (RefreshNb * (End - Start)) / (Duration / 20L)`
in 32-bit signed arithmetic, stored into the `uint32_t Pos`; `none` is the
division by zero. -/
def motionPos (RefreshNb StartInDegrees EndInDegrees MotionDurationMs : Nat) : Option Nat :=
  if Int.tdiv (i32 MotionDurationMs) REFRESH_INTERVAL_MS = 0 then none
  else some (u32 ((EndInDegrees : Int) -
    Int.tdiv ((RefreshNb : Int) * ((EndInDegrees : Int) - StartInDegrees))
      (Int.tdiv (i32 MotionDurationMs) REFRESH_INTERVAL_MS)))

/-- The start of a servo motion: the servo is idle and the line is due; the
line claims the servo, loads the number of refreshes and writes the start
angle. -/
def motionClaim (s : State) (SeqLine : Nat) (line : SequenceSt_t) : State :=
  emit
    { s with Servo := (s.Servo.set (u8 line.ServoIndex)
        { RefreshNb := u16 (REFRESH_NB (u32 line.MotionDurationMs)),
          SeqLineInProgress := u8 SeqLine }) }
    (Event.servoWrite (u8 line.ServoIndex) (u8 line.StartInDegrees))

/-- The end of the run of binding `Idx`, whose record is `b`, by its last servo
motion: the run is marked complete and the control callback is notified. -/
def motionEndOfSeq (env : Env) (s : State) (Idx : Nat) (b : CmdSequenceSt_t) : State :=
  if b.Control ≠ 0 then
    emit { s with CmdSequence := (s.CmdSequence.set Idx
            { b with InProgress := 0, ShortActionMap := 0 }) }
      (Event.control b.Control env.RC_SEQ_END_OF_SEQ Idx)
  else
    { s with CmdSequence := (s.CmdSequence.set Idx
        { b with InProgress := 0, ShortActionMap := 0 }) }

/-- The update of a servo motion in progress, once the count `RefreshNb` has
been decremented and the position `Pos` computed: the position is written; at
count 0 the servo is released and, on the last line, the run ends. -/
def motionAdvance (env : Env) (s : State) (Idx SeqLine : Nat) (line : SequenceSt_t)
    (sv : ServoSt_t) (b : CmdSequenceSt_t) (RefreshNb Pos : Nat) : State :=
  if RefreshNb = 0 then
    if SeqLine + 1 = b.SequenceLength then
      motionEndOfSeq env
        { emit s (Event.servoWrite (u8 line.ServoIndex) Pos) with
          Servo := (s.Servo.set (u8 line.ServoIndex)
            { RefreshNb := RefreshNb, SeqLineInProgress := NO_SEQ_LINE }) }
        Idx b
    else
      { emit s (Event.servoWrite (u8 line.ServoIndex) Pos) with
        Servo := (s.Servo.set (u8 line.ServoIndex)
          { RefreshNb := RefreshNb, SeqLineInProgress := NO_SEQ_LINE }) }
  else
    { emit s (Event.servoWrite (u8 line.ServoIndex) Pos) with
      Servo := (s.Servo.set (u8 line.ServoIndex) { sv with RefreshNb := RefreshNb }) }

/-- A servo motion line of the sequence of binding `Idx`, given the records
`sv` of its servo and `b` of the binding. -/
def motionLineOn (env : Env) (s : State) (Idx SeqLine : Nat) (line : SequenceSt_t)
    (sv : ServoSt_t) (b : CmdSequenceSt_t) : Option State :=
  if sv.RefreshNb ≠ 0 ∧ SeqLine ≠ sv.SeqLineInProgress then some s
  else if sv.RefreshNb = 0 ∧ sv.SeqLineInProgress = NO_SEQ_LINE then
    if motionDue s b line then some (motionClaim s SeqLine line)
    else some s
  else
    match motionPos (if sv.RefreshNb ≠ 0 then sv.RefreshNb - 1 else sv.RefreshNb)
        (u8 line.StartInDegrees) (u8 line.EndInDegrees) (u32 line.MotionDurationMs) with
    | none => none
    | some Pos =>
      some (motionAdvance env s Idx SeqLine line sv b
        (if sv.RefreshNb ≠ 0 then sv.RefreshNb - 1 else sv.RefreshNb) Pos)

/-- A servo motion line of the sequence of binding `Idx`. -/
def motionLine (env : Env) (s : State) (Idx SeqLine : Nat) (line : SequenceSt_t) :
    Option State :=
  match s.Servo[u8 line.ServoIndex]? with
  | none => none
  | some sv =>
    match s.CmdSequence[Idx]? with
    | none => none
    | some b => motionLineOn env s Idx SeqLine line sv b

/-- One line of the sequence of binding `Idx`, whose record is `b`. -/
def lineStep (env : Env) (s : State) (Idx SeqLine ShortActionCnt : Nat) (line : SequenceSt_t) :
    Option State :=
  if u8 line.ServoIndex = 255 then shortActionLine s Idx SeqLine line ShortActionCnt
  else motionLine env s Idx SeqLine line

/-- The loop over the lines of the sequence of binding `Idx`, from line
`SeqLine` with `n` lines left; `ShortActionCnt` counts the short action lines
met so far (the C counter plus one).  `SeqLine` is an `int8_t`: past 127 it
wraps to -128, which is below every `SequenceLength`, so that the exit test
`SeqLine < SequenceLength` does not end the loop and the next line is read at a
negative index of the table: the loop ends only at a counter of at most 127. -/
def linesFrom (env : Env) (Idx : Nat) : Nat → Nat → Nat → State → Option State
  | 0, SeqLine, _, s => if SeqLine > 127 then none else some s
  | n + 1, SeqLine, ShortActionCnt, s =>
    if SeqLine > 127 then none
    else
      match s.CmdSequence[Idx]? with
      | none => none
      | some b =>
        match (env.Flash b.TableOrShortAction)[SeqLine]? with
        | none => none
        | some line =>
          match lineStep env s Idx SeqLine ShortActionCnt line with
          | none => none
          | some s1 =>
            linesFrom env Idx n (SeqLine + 1)
              (if u8 line.ServoIndex = 255 then ShortActionCnt + 1 else ShortActionCnt) s1

/-- The loop over the bindings of the sequence management, from `Idx` with `n`
bindings left below `SeqNb`.  `Idx` is an `int8_t`: past 127 it wraps to -128,
which is below every `SeqNb`, so that the exit test `Idx < SeqNb` does not end
the loop and the next binding is read at a negative index of `CmdSequence`: the
loop ends only at a counter of at most 127. -/
def engineFrom (env : Env) : Nat → Nat → State → Option State
  | 0, Idx, s => if Idx > 127 then none else some s
  | n + 1, Idx, s =>
    if Idx > 127 then none
    else
      match s.CmdSequence[Idx]? with
      | none => none
      | some b =>
        if b.InProgress = 0 ∨ b.SequenceLength = 0 then engineFrom env n (Idx + 1) s
        else
          match linesFrom env Idx b.SequenceLength 0 0 s with
          | none => none
          | some s1 => engineFrom env n (Idx + 1) s1

/-- The initialisation of the function-static variables of `RcSeq_Refresh`, made
by its first call. -/
def refreshStatics (env : Env) (s : State) : State :=
  if s.staticsReady then s
  else
    let t1 := millis env s
    let t2 := millis env t1.2
    { t2.2 with staticsReady := true, NowMs := t1.1, StartChronoInterPulseMs := t2.1 }

/-- The sequence management of `RcSeq_Refresh`, from `NowMs = millis()` on. -/
def refreshEngine (env : Env) (s : State) : Option State :=
  let t := millis env s
  let s1 := { t.2 with NowMs := t.1 }
  if u32 ((s1.NowMs : Int) - s1.StartChronoInterPulseMs) ≥ 20 then
    match engineFrom env s1.SeqNb 0 s1 with
    | none => none
    | some s2 =>
      let t2 := millis env (emit s2 Event.servoRefresh)
      some { t2.2 with StartChronoInterPulseMs := t2.1 }
  else some s1

/-- `RcSeq_Refresh`. -/
def RcSeq_Refresh (env : Env) (fuel : Nat) (pulses : Nat → Option Nat) (s : State) :
    Option State :=
  match acquireFrom env fuel pulses (refreshStatics env s).CmdSignalNb 0
      (refreshStatics env s) with
  | none => none
  | some s1 => refreshEngine env s1

/-- The events appended to the trace between the states `s` and `s1`. -/
def newEvents (s s1 : State) : List Event := s1.trace.drop s.trace.length

/-- An event is the call of `ExecuteSequence` by the debounce step. -/
def Event.isTrigger : Event → Bool
  | Event.trigger _ _ _ => true
  | _ => false

/-- The state `s1` is reached from `s` by steps that leave the channels alone
and make no trigger call: the clock count only grows and the trace is extended
by events other than triggers. -/
structure Quiet (s s1 : State) : Prop where
  channels : s1.RcChannel = s.RcChannel
  signals : s1.CmdSignalNb = s.CmdSignalNb
  clock : s.clock ≤ s1.clock
  trace : ∃ evs, s1.trace = s.trace ++ evs ∧ ∀ e ∈ evs, Event.isTrigger e = false

/-- Successive calls of `RcSeq_Refresh`, one per element of `inputs`, which
gives the pulse inputs of each call. -/
def refreshRun (env : Env) (fuel : Nat) : List (Nat → Option Nat) → State → Option State
  | [], s => some s
  | pulses :: rest, s =>
    match RcSeq_Refresh env fuel pulses s with
    | none => none
    | some s1 => refreshRun env fuel rest s1

/-- The clock readings of the triggers fired for channel `c`, in order. -/
def triggerTimes (c : Nat) : List Event → List Nat
  | [] => []
  | Event.trigger ChIdx _ atMs :: es =>
    if ChIdx = c then atMs :: triggerTimes c es else triggerTimes c es
  | _ :: es => triggerTimes c es

/-- Hold invariant of channel `c` after the events `evs`: the channel keeps its
threshold `thr`; every trigger of `c` was fired at a past clock reading; while a
position is held, its start timestamp is a past reading made after the last
trigger; and the triggers are at least `thr` apart. -/
structure HoldInv (env : Env) (c thr : Nat) (evs : List Event) (s : State) : Prop where
  chan : ∃ ch, s.RcChannel[c]? = some ch ∧ pulseCheckMs ch = thr
  past : ∀ t ∈ triggerTimes c evs, t ≤ env.millis s.clock
  held : ∀ ch, s.RcChannel[c]? = some ch → 0 ≤ ch.Pos.Idx →
    ∀ t ∈ triggerTimes c evs, t ≤ ch.Pos.StartChronoMs ∧ ch.Pos.StartChronoMs ≤ env.millis s.clock
  apart : (triggerTimes c evs).Pairwise (fun t1 t2 => t1 + thr ≤ t2)

/-- The state `s` is reached from `s0` with the hold invariant of channel `c`
on the events appended since `s0`. -/
def HoldReached (env : Env) (c thr : Nat) (s0 s : State) : Prop :=
  ∃ evs, s.trace = s0.trace ++ evs ∧ HoldInv env c thr evs s

/-- The state `s1` is reached from `s` by steps that leave channel `c` alone
and fire no trigger for it. -/
structure QuietFor (c : Nat) (s s1 : State) : Prop where
  channel : s1.RcChannel[c]? = s.RcChannel[c]?
  clock : s.clock ≤ s1.clock
  trace : ∃ evs, s1.trace = s.trace ++ evs ∧ triggerTimes c evs = []

/-- The angles written to servo `a`, in order. -/
def servoWrites (a : Nat) : List Event → List Nat
  | [] => []
  | Event.servoWrite Idx Angle :: es =>
    if Idx = a then Angle :: servoWrites a es else servoWrites a es
  | _ :: es => servoWrites a es

/-- The callbacks called for the short action line `SeqLine` of binding `Idx`,
in order. -/
def lineActions (Idx SeqLine : Nat) : List Event → List Nat
  | [] => []
  | Event.lineAction i l fn :: es =>
    if i = Idx ∧ l = SeqLine then fn :: lineActions Idx SeqLine es
    else lineActions Idx SeqLine es
  | _ :: es => lineActions Idx SeqLine es

/-! ## Zones as the specification states them -/

/-- Lower bound of zone `i` of a stick or switch channel, in the words of the
specification: measured from the minimum bound for a switch and for the lower
half of a stick, and symmetrically from the maximum bound for the upper half of
a stick; a zone spans 3 steps and is followed by a gap of 1 step. -/
def specZoneMin (Type_ : RcCmdType) (PulseMinUs PulseMaxUs PosNb StepUs i : Nat) : Int :=
  if Type_ = RC_CMD_MULTI_POS_SW ∨ i < PosNb / 2 then
    (PulseMinUs : Int) + 4 * i * StepUs
  else (PulseMaxUs : Int) - (4 * ((PosNb : Int) - 1 - i) + 3) * StepUs

/-- Upper bound of zone `i` of a stick or switch channel, in the words of the
specification. -/
def specZoneMax (Type_ : RcCmdType) (PulseMinUs PulseMaxUs PosNb StepUs i : Nat) : Int :=
  if Type_ = RC_CMD_MULTI_POS_SW ∨ i < PosNb / 2 then
    (PulseMinUs : Int) + (4 * i + 3) * StepUs
  else (PulseMaxUs : Int) - 4 * ((PosNb : Int) - 1 - i) * StepUs

/-- Entry `i` of the key table `K` contains the pulse width `w`, in the words
of the specification: `K[i].Min <= w <= K[i].Max`. -/
def keyContains (K : List KeyMap_t) (i w : Nat) : Bool :=
  match K[i]? with
  | some k => decide (k.Min ≤ w ∧ w ≤ k.Max)
  | none => false

/-! ## Concrete configurations used by the examples -/

/-- A channel record as it is before any declaration. -/
def blankChannel : RcCmdSt_t :=
  { Pos := { Idx := 0, StartChronoMs := 0 }, Type_ := RC_CMD_STICK, PosNb := 0,
    PulseMinUs := 0, PulseMaxUs := 0, StepUs := 0, KeyMap := [] }

/-- A binding record as it is before any registration. -/
def blankBinding : CmdSequenceSt_t :=
  { InProgress := 0, CmdIdx := 0, Pos := 0, StartChronoMs := 0, TableOrShortAction := 0,
    SequenceLength := 0, ShortActionMap := 0, Control := 0 }

/-- A state with 2 channels, 2 servos and 4 binding slots, all blank. -/
def blankState : State :=
  { SeqNb := 0, ServoNb := 0, CmdSignalNb := 0,
    RcChannel := [blankChannel, blankChannel],
    Servo := [{ RefreshNb := 0, SeqLineInProgress := 0 },
              { RefreshNb := 0, SeqLineInProgress := 0 }],
    CmdSequence := [blankBinding, blankBinding, blankBinding, blankBinding],
    staticsReady := false, NowMs := 0, StartChronoInterPulseMs := 0, clock := 0, trace := [] }

/-- A MultiPositionSwitch record over [0, 515] us with 129 positions and the
step of 1 us that `STEP` computes for it. -/
def switch129 : RcCmdSt_t :=
  { blankChannel with
    Type_ := RC_CMD_MULTI_POS_SW, PosNb := 129, PulseMinUs := 0, PulseMaxUs := 515, StepUs := 1 }

/-- A MultiPositionSwitch record over [0, 511] us with 128 positions and the
step of 1 us that `STEP` computes for it. -/
def switch128 : RcCmdSt_t :=
  { blankChannel with
    Type_ := RC_CMD_MULTI_POS_SW, PosNb := 128, PulseMinUs := 0, PulseMaxUs := 511, StepUs := 1 }

/-- A Stick record over [1000, 2000] us with 4 positions and the step of 62 us
that `STEP` computes for it. -/
def stick4 : RcCmdSt_t :=
  { blankChannel with PosNb := 4, PulseMinUs := 1000, PulseMaxUs := 2000, StepUs := 62 }

/-- The blank state with channel 0 replaced by `ch`. -/
def withChannel0 (ch : RcCmdSt_t) : State :=
  { blankState with RcChannel := [ch, blankChannel] }

/-- A custom key map of three keys; the windows of keys 1 and 2 overlap. -/
def keys3 : List KeyMap_t :=
  [{ Min := 1000, Max := 1100 }, { Min := 1400, Max := 1600 }, { Min := 1500, Max := 1900 }]

/-- A CustomKeymap record over `keys3`, as `RcSeq_DeclareCustomKeyboard` stores it. -/
def custom3 : RcCmdSt_t :=
  { blankChannel with Type_ := RC_CMD_CUSTOM, PosNb := 3, KeyMap := keys3 }

/-! ## Zones of a stick or multi-position switch channel -/

/-- Lower bound of the window of index `j`, before it is stored. -/
def zoneLo (ch : RcCmdSt_t) (j : Int) : Int :=
  if ch.Type_ = RC_CMD_MULTI_POS_SW ∨
      (ch.Type_ = RC_CMD_STICK ∧ j < ((ch.PosNb / 2 : Nat) : Int)) then
    (ch.PulseMinUs : Int) + KEY_MIN_VAL j ch.StepUs
  else (ch.PulseMaxUs : Int) - KEY_MAX_VAL ((ch.PosNb : Int) - 1 - j) ch.StepUs

/-- Upper bound of the window of index `j`, before it is stored. -/
def zoneHi (ch : RcCmdSt_t) (j : Int) : Int :=
  if ch.Type_ = RC_CMD_MULTI_POS_SW ∨
      (ch.Type_ = RC_CMD_STICK ∧ j < ((ch.PosNb / 2 : Nat) : Int)) then
    (ch.PulseMinUs : Int) + KEY_MAX_VAL j ch.StepUs
  else (ch.PulseMaxUs : Int) - KEY_MIN_VAL ((ch.PosNb : Int) - 1 - j) ch.StepUs

/-- A stick or switch configuration whose zones fit between its bounds. -/
structure ZoneCfg (ch : RcCmdSt_t) : Prop where
  kind : ch.Type_ ≠ RC_CMD_CUSTOM
  posNb : 1 ≤ ch.PosNb
  maxUs : ch.PulseMaxUs < 65536
  step : 1 ≤ ch.StepUs
  fit : TOTAL_STEP_NBR ch.PosNb ch.Type_ * ch.StepUs ≤ (ch.PulseMaxUs : Int) - ch.PulseMinUs

/-! ## Concrete registry used by the examples -/

/-- A table of two lines stored at address 100: a short action (callback 9) at
offset 0, then a motion of servo 0 from 0 to 90 degrees over 500 ms at offset 0. -/
def demoTable : List SequenceSt_t :=
  [{ ServoIndex := 255, StartMotionOffsetMs := 0, MotionDurationMs := 0, StartInDegrees := 0,
     EndInDegrees := 0, ShortAction := 9 },
   { ServoIndex := 0, StartMotionOffsetMs := 0, MotionDurationMs := 500, StartInDegrees := 0,
     EndInDegrees := 90, ShortAction := 0 }]

/-- A motion of servo 0 from 0 to 255 degrees over 1310720 ms (65536
refreshes) at offset 0. -/
def longMotion : SequenceSt_t :=
  { ServoIndex := 0, StartMotionOffsetMs := 0, MotionDurationMs := 1310720,
    StartInDegrees := 0, EndInDegrees := 255, ShortAction := 0 }

/-- A table of one line stored at address 200: `longMotion`. -/
def longTable : List SequenceSt_t := [longMotion]

/-- An environment with 4 binding slots, 2 servos and 2 channels; the gating
callback at address 7 refuses,
any other accepts; `demoTable` is stored at address 100 and `longTable` at
address 200.  The clock starts at
1000 ms, advances by 100 ms per call of `millis()` and stops at 4000000000. -/
def demoEnv : Env :=
  { SEQUENCE_MAX_NB := 4, SERVO_MAX_NB := 2, RC_CMD_MAX_NB := 2,
    RC_SEQ_START_CONDITION := 0, RC_SEQ_END_OF_SEQ := 1,
    millis := fun k => min (1000 + 100 * k) 4000000000,
    Control := fun _ fn _ _ => if fn = 7 then 0 else 1,
    Flash := fun a => if a = 100 then demoTable else if a = 200 then longTable else [] }

/-- A sequence binding for command 0, position 1 over `demoTable`, with the
given progress flag and gating callback. -/
def demoSequence (InProgress : Int) (Control : Nat) : CmdSequenceSt_t :=
  { InProgress := InProgress, CmdIdx := 0, Pos := 1, StartChronoMs := 40,
    TableOrShortAction := 100, SequenceLength := 2, ShortActionMap := 1, Control := Control }

/-- A short action binding for command 0, position 2 with callback 55. -/
def demoShortAction : CmdSequenceSt_t :=
  { InProgress := 0, CmdIdx := 0, Pos := 2, StartChronoMs := 0,
    TableOrShortAction := 55, SequenceLength := 0, ShortActionMap := 0, Control := 0 }

/-- The blank state with two registered bindings: `demoSequence` in slot 0 and
`demoShortAction` in slot 1. -/
def demoState (InProgress : Int) (Control : Nat) : State :=
  { blankState with
    SeqNb := 2
    CmdSequence := [demoSequence InProgress Control, demoShortAction, blankBinding, blankBinding] }

/-- The record `stick4` holding position 1 since the time 800 ms. -/
def heldStick : RcCmdSt_t :=
  { stick4 with Pos := { Idx := 1, StartChronoMs := 800 } }

/-- A state in which channel 0 is attached and is the stick `heldStick`, after
the first call of `RcSeq_Refresh`. -/
def heldState : State :=
  { withChannel0 heldStick with CmdSignalNb := 1, staticsReady := true }

/-- Pulse inputs of one call of `RcSeq_Refresh`: 1300 us on channel 0, nothing
on the other channels. -/
def pulse1300 : Nat → Option Nat := fun ChIdx => if ChIdx = 0 then some 1300 else none

/-- A motion of servo 0 from 10 to 50 degrees over 40 ms (2 refreshes) at
offset 0. -/
def shortMotion : SequenceSt_t :=
  { ServoIndex := 0, StartMotionOffsetMs := 0, MotionDurationMs := 40, StartInDegrees := 10,
    EndInDegrees := 50, ShortAction := 0 }

/-- The state in which line 1 of the running `demoSequence` is processed at the
`k`-th tick of a motion of 2 refreshes: servo 0 is idle at `k = 0` and driven
by line 1 with `3 - k` refreshes left afterwards. -/
def motionStates (k : Nat) : State :=
  { demoState 1 0 with
    NowMs := 60
    Servo := [if k = 0 then { RefreshNb := 0, SeqLineInProgress := NO_SEQ_LINE }
              else { RefreshNb := 3 - k, SeqLineInProgress := 1 },
              { RefreshNb := 0, SeqLineInProgress := 0 }] }

/-- The state `demoState` with the sequence of slot 0 running since
`StartChronoMs` with no short action performed yet, servo 0 idle, during an
engine tick at the time `NowMs`. -/
def runningAt (StartChronoMs NowMs : Nat) : State :=
  { demoState 1 0 with
    NowMs := NowMs
    Servo := [{ RefreshNb := 0, SeqLineInProgress := NO_SEQ_LINE },
              { RefreshNb := 0, SeqLineInProgress := 0 }]
    CmdSequence := [{ demoSequence 1 0 with StartChronoMs := StartChronoMs, ShortActionMap := 0 },
                    demoShortAction, blankBinding, blankBinding] }

/-- Line 0 of `demoTable`: the short action 9 at offset 0. -/
def demoActionLine : SequenceSt_t :=
  { ServoIndex := 255, StartMotionOffsetMs := 0, MotionDurationMs := 0, StartInDegrees := 0,
    EndInDegrees := 0, ShortAction := 9 }

/-- Line 1 of `demoTable`: servo 0 from 0 to 90 degrees over 500 ms at offset 0. -/
def demoMotionLine : SequenceSt_t :=
  { ServoIndex := 0, StartMotionOffsetMs := 0, MotionDurationMs := 500, StartInDegrees := 0,
    EndInDegrees := 90, ShortAction := 0 }

/-- A motion of servo 0 from 90 to 0 degrees over 500 ms at offset 0. -/
def rivalMotion : SequenceSt_t :=
  { ServoIndex := 0, StartMotionOffsetMs := 0, MotionDurationMs := 500, StartInDegrees := 90,
    EndInDegrees := 0, ShortAction := 0 }

/-- A second table of two lines stored at address 300: a short action (callback
8) at offset 0, then `rivalMotion`. -/
def rivalTable : List SequenceSt_t :=
  [{ ServoIndex := 255, StartMotionOffsetMs := 0, MotionDurationMs := 0, StartInDegrees := 0,
     EndInDegrees := 0, ShortAction := 8 }, rivalMotion]

/-- The environment `demoEnv` with `rivalTable` stored at address 300. -/
def rivalEnv : Env :=
  { demoEnv with
    Flash := fun a => if a = 100 then demoTable else if a = 300 then rivalTable else [] }

/-- The state `s1` differs from `s` only by events appended to the trace, all
of them servo position writes. -/
structure OnlyWrites (s s1 : State) : Prop where
  rest : s1 = { s with trace := s1.trace }
  trace : ∃ evs, s1.trace = s.trace ++ evs ∧ ∀ e ∈ evs, ∃ a x, e = Event.servoWrite a x

/-- A registry of `demoEnv` with its four slots occupied: the sequence
`demoTable` for command 0, position 1, and short actions for command 0,
positions 2 and 3 and for command 1, position 1. -/
def fullState : State :=
  { blankState with
    SeqNb := 4
    CmdSequence := [demoSequence 0 0, demoShortAction,
                    { demoShortAction with Pos := 3, TableOrShortAction := 56 },
                    { demoShortAction with CmdIdx := 1, Pos := 1, TableOrShortAction := 57 }] }

/-! ## Calls of the public interface -/

/-- A call of the library by the sketch.  `trigger` is a call of
`ExecuteSequence`, as the debounce step of `RcSeq_Refresh` and
`RcSeq_LaunchSequence` make it. -/
inductive Call where
  | init
  | declareSignal (Idx DigitalPin : Nat)
  | declareChannel (ChIdx : Nat) (Type_ : RcCmdType) (PulseMinUs PulseMaxUs : Nat)
      (KeyMap : List KeyMap_t) (PosNb : Nat)
  | declareServo (Idx DigitalPin : Nat)
  | servoWrite (Idx Angle : Nat)
  | declareSequence (CmdIdx Pos Table SequenceLength Control : Nat)
  | declareShortAction (CmdIdx Pos ShortAction : Nat)
  | trigger (CmdIdx Pos : Nat)
  | launch (Table : Nat)
  | refresh (pulses : Nat → Option Nat)

/-- The effect of one call on the state; `none` when the call leaves the
arrays or divides by zero. -/
def applyCall (env : Env) (fuel : Nat) (s : State) : Call → Option State
  | Call.init => some (RcSeq_Init env s)
  | Call.declareSignal Idx DigitalPin => RcSeq_DeclareSignal env s Idx DigitalPin
  | Call.declareChannel ChIdx Type_ PulseMinUs PulseMaxUs KeyMap PosNb =>
    RcSeq_DeclareKeyboardOrStickOrCustom s ChIdx Type_ PulseMinUs PulseMaxUs KeyMap PosNb
  | Call.declareServo Idx DigitalPin => RcSeq_DeclareServo env s Idx DigitalPin
  | Call.servoWrite Idx Angle => RcSeq_ServoWrite env s Idx Angle
  | Call.declareSequence CmdIdx Pos Table SequenceLength Control =>
    RcSeq_DeclareCommandAndSequence env s CmdIdx Pos Table SequenceLength Control
  | Call.declareShortAction CmdIdx Pos ShortAction =>
    RcSeq_DeclareCommandAndShortAction env s CmdIdx Pos ShortAction
  | Call.trigger CmdIdx Pos => (ExecuteSequence env s (u8 CmdIdx) (u8 Pos)).map Prod.fst
  | Call.launch Table => (RcSeq_LaunchSequence env s Table).map Prod.fst
  | Call.refresh pulses => RcSeq_Refresh env fuel pulses s

/-- Successive calls, in order. -/
def runCalls (env : Env) (fuel : Nat) : List Call → State → Option State
  | [], s => some s
  | c :: cs, s =>
    match applyCall env fuel s c with
    | none => none
    | some s1 => runCalls env fuel cs s1

/-- The environment `demoEnv` with a clock that reads 1000 ms for the first
`first` calls of `millis()` and then advances by 20 ms every `later` calls: with
`first` and `later` the numbers of clock readings of the first and of each
later call of `RcSeq_Refresh`, the calls are 20 ms apart. -/
def tickEnv (first later : Nat) : Env :=
  { demoEnv with
    millis := fun k => if k < first then 1000 else 1000 + 20 * ((k - first) / later + 1) }

/-- The setup of the stick example: channel 0 is attached to pin 2 and declared
as a stick over [1000, 2000] us with 4 positions, and the short action 55 is
registered for channel 0, position 1. -/
def stickSetup : List Call :=
  [Call.init, Call.declareSignal 0 2, Call.declareChannel 0 RC_CMD_STICK 1000 2000 [] 4,
   Call.declareShortAction 0 1 55]

/-- The call of `RcSeq_Refresh` with a fresh pulse of `w` us on channel 0,
`n` times. -/
def feed (w n : Nat) : List Call :=
  List.replicate n (Call.refresh (fun ChIdx => if ChIdx = 0 then some w else none))

/-- The value of `NowMs` after each of the first `n` calls of `feed w`, made
after `stickSetup`. -/
def feedTimes (env : Env) (w n : Nat) : List (Option Nat) :=
  (List.range n).map
    (fun j => (runCalls env 200 (stickSetup ++ feed w (j + 1)) blankState).map (fun s => s.NowMs))

/-- The setup of the sequence example: servo 0 is declared on pin 3, `demoTable`
(2 lines) is registered for command 0, position 1 without gating callback, and
the sequence is launched once. -/
def seqSetup : List Call :=
  [Call.init, Call.declareServo 0 3, Call.declareSequence 0 1 100 2 0, Call.launch 100]

/-- The call of `RcSeq_Refresh` without pulse input, `n` times. -/
def ticks (n : Nat) : List Call :=
  List.replicate n (Call.refresh (fun _ => none))

/-- The angles that the motion of `demoTable` writes in its first `m` engine
ticks: `90 - ((25 - j) * 90) / 25` at tick `j`. -/
def demoAngles (m : Nat) : List Nat :=
  (List.range m).map (fun j => 90 - ((25 - j) * 90) / 25)

/-- What the sequence example shows of a state: `NowMs`, the record of servo 0,
`InProgress` and `ShortActionMap` of binding 0, and, since the launch, the
angles written to servo 0 and the callbacks called for line 0 of binding 0. -/
structure SeqView where
  NowMs : Nat
  servo : Option ServoSt_t
  InProgress : Option Int
  ShortActionMap : Option Nat
  writes : List Nat
  actions : List Nat
  deriving DecidableEq, Repr

/-- The view of the state after `seqSetup` and `n` calls of `RcSeq_Refresh` made
20 ms apart. -/
def seqObserve (n : Nat) : Option SeqView :=
  (runCalls (tickEnv 4 2) 0 seqSetup blankState).bind (fun s0 =>
    (runCalls (tickEnv 4 2) 0 (ticks n) s0).map (fun s =>
      { NowMs := s.NowMs, servo := s.Servo[0]?,
        InProgress := s.CmdSequence[0]?.map (fun b => b.InProgress),
        ShortActionMap := s.CmdSequence[0]?.map (fun b => b.ShortActionMap),
        writes := servoWrites 0 (newEvents s0 s), actions := lineActions 0 0 (newEvents s0 s) }))

/-- The command, the position and the pointer (table or callback) that a
registration call stores; `none` for the other calls. -/
def Call.registers : Call → Option (Nat × Nat × Nat)
  | Call.declareSequence CmdIdx Pos Table _ _ => some (CmdIdx, Pos, Table)
  | Call.declareShortAction CmdIdx Pos ShortAction => some (CmdIdx, Pos, ShortAction)
  | _ => none

/-- The registry of `s` holds the registrations `regs`, in order, in its first
slots, and its other slots are free. -/
structure Registered (env : Env) (regs : List Call) (s : State) : Prop where
  count : s.SeqNb = regs.length
  size : s.CmdSequence.length = env.SEQUENCE_MAX_NB
  held : ∀ (i : Nat) (r : Call), regs[i]? = some r → ∃ (b : CmdSequenceSt_t) (c p t : Nat), s.CmdSequence[i]? = some b ∧
    Call.registers r = some (c, p, t) ∧ b.CmdIdx = (c : Int) ∧ b.Pos = (p : Int) ∧
    b.TableOrShortAction = t ∧ t ≠ 0
  free : ∀ (i : Nat) (b : CmdSequenceSt_t), regs.length ≤ i → s.CmdSequence[i]? = some b → b.TableOrShortAction = 0

/-- Three registrations: the short action 55 and then the sequence `demoTable`
for the same pair (command 0, position 1), and the short action 56 for
(command 0, position 2). -/
def dupRegs : List Call :=
  [Call.declareShortAction 0 1 55, Call.declareSequence 0 1 100 2 0,
   Call.declareShortAction 0 2 56]

/-- The state after `RcSeq_Init` and the registrations `dupRegs`. -/
def dupState : State :=
  match runCalls demoEnv 0 dupRegs (RcSeq_Init demoEnv blankState) with
  | some s => s
  | none => blankState

/-! ## Elementary updates of the registry and of the servo table -/

/-- One elementary update of the registry `CmdSequence` and of the servo table
`Servo` between two states; the other variables are free.  The updates made by
the sequence management of `RcSeq_Refresh` are allowed when `eng` is true. -/
inductive Update (env : Env) (eng : Bool) (s s1 : State) : Prop where
  | frame (hS : s1.Servo = s.Servo) (hC : s1.CmdSequence = s.CmdSequence)
  | reset (hS : s1.Servo = s.Servo)
      (hC : s1.CmdSequence = s.CmdSequence.map
        (fun b => { b with InProgress := 0, TableOrShortAction := 0,
                           SequenceLength := 0, ShortActionMap := 0 }))
  | register (i : Nat) (b b1 : CmdSequenceSt_t) (hb : s.CmdSequence[i]? = some b)
      (h1 : b1.InProgress = b.InProgress) (h2 : b1.ShortActionMap = b.ShortActionMap)
      (hS : s1.Servo = s.Servo) (hC : s1.CmdSequence = s.CmdSequence.set i b1)
  | start (i : Nat) (b : CmdSequenceSt_t) (t : Nat) (hb : s.CmdSequence[i]? = some b)
      (h0 : b.InProgress = 0) (hS : s1.Servo = s.Servo)
      (hC : s1.CmdSequence = s.CmdSequence.set i { b with InProgress := 1, StartChronoMs := t })
  | mark (heng : eng = true) (i : Nat) (b : CmdSequenceSt_t) (cnt : Nat)
      (hb : s.CmdSequence[i]? = some b) (hrun : b.InProgress ≠ 0) (hS : s1.Servo = s.Servo)
      (hC : s1.CmdSequence =
        s.CmdSequence.set i { b with ShortActionMap := SET_BIT b.ShortActionMap cnt })
  | finish (heng : eng = true) (i : Nat) (b : CmdSequenceSt_t)
      (hb : s.CmdSequence[i]? = some b) (hS : s1.Servo = s.Servo)
      (hC : s1.CmdSequence = s.CmdSequence.set i { b with InProgress := 0, ShortActionMap := 0 })
  | claim (heng : eng = true) (i : Nat) (b : CmdSequenceSt_t) (SeqLine : Nat)
      (line : SequenceSt_t) (hb : s.CmdSequence[i]? = some b)
      (hline : (env.Flash b.TableOrShortAction)[SeqLine]? = some line) (hSeq : SeqLine ≤ 127)
      (hm : u8 line.ServoIndex ≠ 255)
      (hS : s1.Servo = s.Servo.set (u8 line.ServoIndex)
        { RefreshNb := u16 (REFRESH_NB (u32 line.MotionDurationMs)),
          SeqLineInProgress := u8 SeqLine })
      (hC : s1.CmdSequence = s.CmdSequence)
  | release (heng : eng = true) (a : Nat)
      (hS : s1.Servo = s.Servo.set a { RefreshNb := 0, SeqLineInProgress := NO_SEQ_LINE })
      (hC : s1.CmdSequence = s.CmdSequence)
  | count (heng : eng = true) (a : Nat) (sv : ServoSt_t) (r : Nat)
      (hsv : s.Servo[a]? = some sv) (hr : r ≠ 0) (hlt : r < sv.RefreshNb)
      (hS : s1.Servo = s.Servo.set a { sv with RefreshNb := r })
      (hC : s1.CmdSequence = s.CmdSequence)

/-- A series of elementary updates. -/
def Updates (env : Env) (eng : Bool) : State → State → Prop :=
  Relation.ReflTransGen (Update env eng)

/-- The binding `Idx` of `s1` has the progress flag and the length of `b`. -/
def Keeps (Idx : Nat) (b : CmdSequenceSt_t) (s1 : State) : Prop :=
  ∃ b1, s1.CmdSequence[Idx]? = some b1 ∧ b1.InProgress = b.InProgress ∧
    b1.SequenceLength = b.SequenceLength

/-- The call is a call of `RcSeq_Refresh`. -/
def Call.isRefresh : Call → Bool
  | Call.refresh _ => true
  | _ => false

/-- The call is a call of `RcSeq_DeclareServo`. -/
def Call.isDeclareServo : Call → Bool
  | Call.declareServo _ _ => true
  | _ => false

/-- Every binding that is not in progress has an empty map of performed short
actions. -/
def MapInv (s : State) : Prop :=
  ∀ (i : Nat) (b : CmdSequenceSt_t), s.CmdSequence[i]? = some b → b.InProgress = 0 →
    b.ShortActionMap = 0

/-- The calls that follow `RcSeq_Init` in `seqSetup` up to the registration:
servo 0 is declared and `demoTable` is registered for command 0, position 1. -/
def armCalls : List Call :=
  [Call.declareServo 0 3, Call.declareSequence 0 1 100 2 0]

/-- The state after `RcSeq_Init` and `armCalls`, from the blank state. -/
def armedState : State :=
  match runCalls (tickEnv 4 2) 0 (Call.init :: armCalls) blankState with
  | some s => s
  | none => blankState

/-- The result of `ExecuteSequence(0, 1)` in `armedState`. -/
def startedRun : State × Nat :=
  match ExecuteSequence (tickEnv 4 2) armedState 0 1 with
  | some r => r
  | none => (blankState, 0)

/-- The state after `seqSetup` and 26 calls of `RcSeq_Refresh`, one engine tick
before the end of the motion of `demoTable`. -/
def endingState : State :=
  match runCalls (tickEnv 4 2) 0 (seqSetup ++ ticks 26) blankState with
  | some s => s
  | none => blankState

/-- The state after the next call of `RcSeq_Refresh` in `endingState`. -/
def endedState : State :=
  match RcSeq_Refresh (tickEnv 4 2) 0 (fun _ => none) endingState with
  | some s => s
  | none => blankState

/-- Rest or active invariant of the servo table: a servo with refreshes left
has a line in progress, and a servo of the set `D` with no refresh left has
none. -/
def ServoInv (D : Nat → Prop) (s : State) : Prop :=
  ∀ (a : Nat) (sv : ServoSt_t), s.Servo[a]? = some sv →
    (sv.RefreshNb ≠ 0 → sv.SeqLineInProgress ≠ NO_SEQ_LINE) ∧
    (D a → sv.RefreshNb = 0 → sv.SeqLineInProgress = NO_SEQ_LINE)

/-- Every motion line of every table lasts at least one refresh interval and at
most 65535 of them. -/
def TablesOk (env : Env) : Prop :=
  ∀ (addr : Nat) (line : SequenceSt_t), line ∈ env.Flash addr → u8 line.ServoIndex ≠ 255 →
    20 ≤ line.MotionDurationMs ∧ line.MotionDurationMs / 20 ≤ 65535

/-- Invariant of the servo table before the first call of `RcSeq_Refresh`, after
the calls `done`: no servo has refreshes left, and the servos declared by `done`
have no line in progress. -/
def SetupInv (env : Env) (done : List Call) (s : State) : Prop :=
  ∀ (a : Nat) (sv : ServoSt_t), s.Servo[a]? = some sv →
    sv.RefreshNb = 0 ∧
    ((∃ pin, Call.declareServo a pin ∈ done) → a < env.SERVO_MAX_NB →
      sv.SeqLineInProgress = NO_SEQ_LINE)

/-- The environment `tickEnv 4 2` with `demoTable` at address 100 as its only
table. -/
def okEnv : Env :=
  { tickEnv 4 2 with Flash := fun a => if a = 100 then demoTable else [] }

/-- The state after `seqSetup` and 5 calls of `RcSeq_Refresh` in `okEnv`. -/
def midState : State :=
  match runCalls okEnv 0 (seqSetup.take 3 ++ (Call.launch 100 :: ticks 5)) blankState with
  | some s => s
  | none => blankState

/-- A motion of servo 0 from 0 to 90 degrees over 10 ms, less than one refresh
interval, at offset 0. -/
def briefMotion : SequenceSt_t :=
  { ServoIndex := 0, StartMotionOffsetMs := 0, MotionDurationMs := 10, StartInDegrees := 0,
    EndInDegrees := 90, ShortAction := 0 }

/-- The environment `tickEnv 3 2` with the table of the single line
`briefMotion` at address 400. -/
def briefEnv : Env :=
  { tickEnv 3 2 with Flash := fun a => if a = 400 then [briefMotion] else [] }

/-- The line `line`, processed with the counter `cnt` in the state `s` for a
binding whose record is `b`, is a short action line that is due and not yet
performed: its callback is called. -/
def lineFires (s : State) (b : CmdSequenceSt_t) (line : SequenceSt_t) (cnt : Nat) : Bool :=
  decide (u8 line.ServoIndex = 255 ∧ shortActionDue s b line = true ∧
    TST_BIT b.ShortActionMap cnt = 0)

/-- The event is made by the sequence management of `RcSeq_Refresh`: a position
written to a servo, the callback of a short action line, or the forced refresh
of the servo pulses. -/
def Event.isEngine : Event → Bool
  | Event.servoWrite _ _ => true
  | Event.lineAction _ _ _ => true
  | Event.servoRefresh => true
  | _ => false

/-- Frame of the command acquisition of `RcSeq_Refresh`: the servo table, the
timestamp of the last engine run, the number of bindings and the size of the
registry are kept; every binding keeps its table and its length, and a binding
in progress is not touched; the events added are none of the sequence
management. -/
structure Acquired (s s1 : State) : Prop where
  servo : s1.Servo = s.Servo
  chrono : s1.StartChronoInterPulseMs = s.StartChronoInterPulseMs
  seqNb : s1.SeqNb = s.SeqNb
  size : s1.CmdSequence.length = s.CmdSequence.length
  shape : ∀ (i : Nat) (b : CmdSequenceSt_t), s.CmdSequence[i]? = some b →
    ∃ b1, s1.CmdSequence[i]? = some b1 ∧ b1.TableOrShortAction = b.TableOrShortAction ∧
      b1.SequenceLength = b.SequenceLength ∧ (b.InProgress ≠ 0 → b1 = b)
  trace : ∃ evs, s1.trace = s.trace ++ evs ∧ ∀ e ∈ evs, Event.isEngine e = false

/-- The environment `demoEnv` with a clock that reads 1000 ms at every call of
`millis()`. -/
def stillEnv : Env :=
  { demoEnv with millis := fun _ => 1000 }

/-- A state whose last engine run ended at 990 ms: channel 0 is the stick
`heldStick` holding position 1 since 800 ms, the sequence of slot 0 is in
progress and servo 0 is driven by its line 1 with 10 refreshes left. -/
def recentTick : State :=
  { heldState with
    NowMs := 990
    StartChronoInterPulseMs := 990
    SeqNb := 2
    Servo := [{ RefreshNb := 10, SeqLineInProgress := 1 },
              { RefreshNb := 0, SeqLineInProgress := 0 }]
    CmdSequence := [demoSequence 1 0, demoShortAction, blankBinding, blankBinding] }

/-- The state after the command acquisition of a call of `RcSeq_Refresh` in
`recentTick`, at 1000 ms with a fresh pulse of 1300 us on channel 0. -/
def acquiredTick : State :=
  match acquireFrom stillEnv 200 pulse1300 recentTick.CmdSignalNb 0 recentTick with
  | some s => s
  | none => recentTick

/-- The state after a call of `RcSeq_Refresh` in `recentTick`, at 1000 ms with
a fresh pulse of 1300 us on channel 0. -/
def gatedTick : State :=
  match RcSeq_Refresh stillEnv 200 pulse1300 recentTick with
  | some s => s
  | none => recentTick

/-- The state `s1` has the servo table and the registry of the sizes of those
of `s`, and each of its bindings has the table and the length of the binding of
`s` in the same slot. -/
structure ShapeKept (s s1 : State) : Prop where
  servos : s1.Servo.length = s.Servo.length
  size : s1.CmdSequence.length = s.CmdSequence.length
  shape : ∀ (i : Nat) (b : CmdSequenceSt_t), s.CmdSequence[i]? = some b →
    ∃ b1, s1.CmdSequence[i]? = some b1 ∧ b1.TableOrShortAction = b.TableOrShortAction ∧
      b1.SequenceLength = b.SequenceLength

/-- The sequence binding `b` stays inside its table and inside the counters of
the line loop, and the motion lines of its table name one of the first `servos`
servos and last from 20 to 4294967276 ms. -/
def BindingOk (env : Env) (servos : Nat) (b : CmdSequenceSt_t) : Prop :=
  b.SequenceLength ≠ 0 →
    b.SequenceLength ≤ 127 ∧ b.SequenceLength ≤ (env.Flash b.TableOrShortAction).length ∧
    ∀ line ∈ env.Flash b.TableOrShortAction, u8 line.ServoIndex ≠ 255 →
      u8 line.ServoIndex < servos ∧ 20 ≤ line.MotionDurationMs ∧
        line.MotionDurationMs ≤ 4294967276

/-- A motion of servo 0 from 0 to 90 degrees with the duration 4294967295 ms,
which the cast to `int32_t` of the position update reads as -1. -/
def foreverMotion : SequenceSt_t :=
  { ServoIndex := 0, StartMotionOffsetMs := 0, MotionDurationMs := 4294967295,
    StartInDegrees := 0, EndInDegrees := 90, ShortAction := 0 }

/-- An environment whose clock reads 0 ms until the end of the first call of
`RcSeq_Refresh` and 20 ms more in each later call, with the table of the single
line `foreverMotion` at address 600. -/
def foreverEnv : Env :=
  { demoEnv with
    millis := fun k => if k < 4 then 0 else 20 * ((k - 4) / 2 + 1)
    Flash := fun a => if a = 600 then [foreverMotion] else [] }

/-- The launch of the table of `foreverEnv`, after the declaration of servo 0
and the registration of the table for command 0, position 1. -/
def foreverSetup : List Call :=
  [Call.init, Call.declareServo 0 3, Call.declareSequence 0 1 600 1 0, Call.launch 600]

/-- An environment whose clock reads 1000 ms during the first call of
`RcSeq_Refresh` (4 readings), 1140 ms during the second (3 readings) and
1150 ms afterwards. -/
def burstEnv : Env :=
  { demoEnv with millis := fun k => if k < 4 then 1000 else if k < 7 then 1140 else 1150 }

/-- The state after `stickSetup` and two calls of `RcSeq_Refresh` in `burstEnv`,
at 1000 and 1140 ms, each with a fresh pulse of 1300 us on channel 0. -/
def burstState : State :=
  match runCalls burstEnv 200 (stickSetup ++ feed 1300 2) blankState with
  | some s => s
  | none => blankState

/-- The environment `tickEnv 5 2` with `demoTable` at address 100, `rivalTable`
at address 300 and, at address 400, a table whose only line is `rivalMotion`. -/
def clashEnv : Env :=
  { tickEnv 5 2 with
    Flash := fun a => if a = 100 then demoTable else if a = 300 then rivalTable
      else if a = 400 then [rivalMotion] else [] }

/-- Servo 0 is declared, `demoTable` is registered for command 0, position 1 and
the table of `len` lines at `Table` for command 1, position 1, and both
sequences are launched at 1000 ms. -/
def clashSetup (Table len : Nat) : List Call :=
  [Call.init, Call.declareServo 0 3, Call.declareSequence 0 1 100 2 0,
   Call.declareSequence 1 1 Table len 0, Call.launch 100, Call.launch Table]

/-- The state after `clashSetup Table len` and `n` calls of `RcSeq_Refresh` in
`clashEnv`, the first at 1000 ms and the next ones 20 ms apart. -/
def clashState (Table len n : Nat) : State :=
  match runCalls clashEnv 0 (clashSetup Table len ++ ticks n) blankState with
  | some s => s
  | none => blankState

theorem u8_of_range (x : Int) (h0 : 0 ≤ x) (h1 : x < 256) : u8 x = x.toNat := by
  unfold u8; rw [Int.emod_eq_of_lt h0 h1]

theorem u16_of_range (x : Int) (h0 : 0 ≤ x) (h1 : x < 65536) : u16 x = x.toNat := by
  unfold u16; rw [Int.emod_eq_of_lt h0 h1]

theorem u32_of_range (x : Int) (h0 : 0 ≤ x) (h1 : x < 4294967296) : u32 x = x.toNat := by
  unfold u32; rw [Int.emod_eq_of_lt h0 h1]

theorem u8_natCast (n : Nat) (h : n < 256) : u8 (n : Int) = n := by
  rw [u8_of_range _ (by omega) (by omega)]; simp

theorem u16_natCast (n : Nat) (h : n < 65536) : u16 (n : Int) = n := by
  rw [u16_of_range _ (by omega) (by omega)]; simp

theorem u32_natCast (n : Nat) (h : n < 4294967296) : u32 (n : Int) = n := by
  rw [u32_of_range _ (by omega) (by omega)]; simp

theorem u16_lt (x : Int) : u16 x < 65536 := by
  unfold u16; omega

theorem u32_lt (x : Int) : u32 x < 4294967296 := by
  unfold u32; omega

theorem u8_lt (x : Int) : u8 x < 256 := by
  unfold u8; omega

theorem i8_of_range (x : Int) (h0 : -128 ≤ x) (h1 : x ≤ 127) : i8 x = x := by
  unfold i8; omega

theorem i8_range (x : Int) : -128 ≤ i8 x ∧ i8 x ≤ 127 := by
  unfold i8; omega

theorem i32_of_range (x : Int) (h0 : -2147483648 ≤ x) (h1 : x < 2147483648) : i32 x = x := by
  unfold i32; omega

/-- Products with a non-negative factor are monotone: the step from index `j`
to a larger index `i` covers at least one more multiple. -/
theorem mul_succ_le (s j i : Int) (hs : 0 ≤ s) (h : j + 1 ≤ i) : s * j + s ≤ s * i := by
  nlinarith

theorem keyWindow_zone (ch : RcCmdSt_t) (h : ch.Type_ ≠ RC_CMD_CUSTOM) (j : Int) :
    keyWindow ch j = some (u16 (zoneLo ch j), u16 (zoneHi ch j)) := by
  unfold keyWindow zoneLo zoneHi
  cases hT : ch.Type_ with
  | RC_CMD_CUSTOM => exact absurd hT h
  | RC_CMD_STICK => simp only []; split <;> rfl
  | RC_CMD_MULTI_POS_SW => simp only []; split <;> rfl

/-- Each zone lies between the channel bounds and is not empty. -/
theorem zone_bounds (ch : RcCmdSt_t) (hc : ZoneCfg ch) (j : Int) (h0 : 0 ≤ j)
    (h1 : j < ch.PosNb) :
    (ch.PulseMinUs : Int) ≤ zoneLo ch j ∧ zoneLo ch j < zoneHi ch j ∧
      zoneHi ch j ≤ ch.PulseMaxUs := by
  obtain ⟨hk, hp, hm, hs, hf⟩ := hc
  have hs' : (1 : Int) ≤ (ch.StepUs : Int) := by exact_mod_cast hs
  have hj := mul_succ_le (ch.StepUs : Int) j (ch.PosNb : Int) (by omega) (by omega)
  have hj0 : 0 ≤ (ch.StepUs : Int) * j := mul_nonneg (by omega) h0
  have hr : (ch.StepUs : Int) * ((ch.PosNb : Int) - 1 - j) = (ch.StepUs : Int) * ch.PosNb -
      (ch.StepUs : Int) - (ch.StepUs : Int) * j := by ring
  unfold zoneLo zoneHi KEY_MAX_VAL KEY_MIN_VAL ACTIVE_AREA_STEP_NBR INACTIVE_AREA_STEP_NBR
  unfold TOTAL_STEP_NBR ACTIVE_AREA_STEP_NBR INACTIVE_AREA_STEP_NBR at hf
  cases hT : ch.Type_ with
  | RC_CMD_CUSTOM => exact absurd hT hk
  | RC_CMD_MULTI_POS_SW =>
    rw [hT] at hf
    simp only [reduceCtorEq, if_false, true_or, if_true] at hf ⊢
    push_cast at hf ⊢
    refine ⟨?_, ?_, ?_⟩ <;> nlinarith
  | RC_CMD_STICK =>
    rw [hT] at hf
    simp only [reduceCtorEq, if_true, false_or, true_and] at hf ⊢
    push_cast at hf ⊢
    split
    · refine ⟨?_, ?_, ?_⟩ <;> nlinarith
    · refine ⟨?_, ?_, ?_⟩ <;> nlinarith

/-- Zones are ordered by index and separated by a gap. -/
theorem zone_order (ch : RcCmdSt_t) (hc : ZoneCfg ch) (j i : Int) (h0 : 0 ≤ j) (hji : j < i)
    (h1 : i < ch.PosNb) : zoneHi ch j < zoneLo ch i := by
  obtain ⟨hk, hp, hm, hs, hf⟩ := hc
  have hs' : (1 : Int) ≤ (ch.StepUs : Int) := by exact_mod_cast hs
  have hji' := mul_succ_le (ch.StepUs : Int) j i (by omega) (by omega)
  have hi := mul_succ_le (ch.StepUs : Int) i (ch.PosNb : Int) (by omega) (by omega)
  have hj0 : 0 ≤ (ch.StepUs : Int) * j := mul_nonneg (by omega) h0
  have hr : ∀ x : Int, (ch.StepUs : Int) * ((ch.PosNb : Int) - 1 - x) =
      (ch.StepUs : Int) * ch.PosNb - (ch.StepUs : Int) - (ch.StepUs : Int) * x := by
    intro x; ring
  unfold zoneLo zoneHi KEY_MAX_VAL KEY_MIN_VAL ACTIVE_AREA_STEP_NBR INACTIVE_AREA_STEP_NBR
  unfold TOTAL_STEP_NBR ACTIVE_AREA_STEP_NBR INACTIVE_AREA_STEP_NBR at hf
  cases hT : ch.Type_ with
  | RC_CMD_CUSTOM => exact absurd hT hk
  | RC_CMD_MULTI_POS_SW =>
    rw [hT] at hf
    simp only [reduceCtorEq, if_false, true_or, if_true] at hf ⊢
    push_cast at hf ⊢
    nlinarith
  | RC_CMD_STICK =>
    rw [hT] at hf
    simp only [reduceCtorEq, if_true, false_or, true_and] at hf ⊢
    push_cast at hf ⊢
    have hrj := hr j
    have hri := hr i
    split <;> split
    · nlinarith
    · nlinarith
    · omega
    · nlinarith

/-- One iteration of the loop of `GetPos` on a stick or switch channel, for an
index inside the table of zones. -/
theorem GetPosFrom_step (ch : RcCmdSt_t) (hc : ZoneCfg ch) (w fuel : Nat) (j : Int)
    (h0 : 0 ≤ j) (h1 : j < ch.PosNb) :
    GetPosFrom ch w (fuel + 1) j =
      if zoneLo ch j ≤ w ∧ (w : Int) ≤ zoneHi ch j then some j
      else GetPosFrom ch w fuel (i8 (j + 1)) := by
  have hb := zone_bounds ch hc j h0 h1
  have hm : (ch.PulseMaxUs : Int) < 65536 := by exact_mod_cast hc.maxUs
  have hlo : u16 (zoneLo ch j) = (zoneLo ch j).toNat := u16_of_range _ (by omega) (by omega)
  have hhi : u16 (zoneHi ch j) = (zoneHi ch j).toNat := u16_of_range _ (by omega) (by omega)
  rw [GetPosFrom, if_pos h1, keyWindow_zone ch hc.kind, hlo, hhi]
  simp only []
  have e : (w ≥ (zoneLo ch j).toNat ∧ w ≤ (zoneHi ch j).toNat) ↔
      (zoneLo ch j ≤ w ∧ (w : Int) ≤ zoneHi ch j) := by omega
  by_cases hw : zoneLo ch j ≤ w ∧ (w : Int) ≤ zoneHi ch j
  · rw [if_pos hw, if_pos (e.mpr hw)]
  · rw [if_neg hw, if_neg (fun h => hw (e.mp h))]

/-- A pulse width inside zone `i` is decoded to `i`, whatever the number of
positions, as long as the loop counter reaches `i` without wrapping. -/
theorem GetPosFrom_hit (ch : RcCmdSt_t) (hc : ZoneCfg ch) (w : Nat) (i : Int)
    (hi1 : i < ch.PosNb) (hi8 : i ≤ 127)
    (hw : zoneLo ch i ≤ w ∧ (w : Int) ≤ zoneHi ch i) :
    ∀ (fuel : Nat) (j : Int), 0 ≤ j → j ≤ i → i - j < fuel →
      GetPosFrom ch w fuel j = some i := by
  intro fuel
  induction fuel with
  | zero => intro j _ _ hf; omega
  | succ n ih =>
    intro j hj0 hji hf
    rw [GetPosFrom_step ch hc w n j hj0 (by omega)]
    by_cases hEq : j = i
    · subst hEq; rw [if_pos hw]
    · have hlt : j < i := by omega
      have ho := zone_order ch hc j i hj0 hlt hi1
      rw [if_neg (by omega), i8_of_range (j + 1) (by omega) (by omega)]
      exact ih (j + 1) (by omega) (by omega) (by omega)

/-- A pulse width inside no zone is decoded to `-1`, provided the loop counter
can reach the number of positions. -/
theorem GetPosFrom_miss (ch : RcCmdSt_t) (hc : ZoneCfg ch) (w : Nat) (hP : ch.PosNb ≤ 127)
    (hw : ∀ j : Int, 0 ≤ j → j < ch.PosNb → ¬ (zoneLo ch j ≤ w ∧ (w : Int) ≤ zoneHi ch j)) :
    ∀ (fuel : Nat) (j : Int), 0 ≤ j → j ≤ ch.PosNb → (ch.PosNb : Int) - j < fuel →
      GetPosFrom ch w fuel j = some (-1) := by
  intro fuel
  induction fuel with
  | zero => intro j _ _ hf; omega
  | succ n ih =>
    intro j hj0 hjP hf
    by_cases hEq : j = ch.PosNb
    · rw [GetPosFrom, if_neg (by omega)]
    · have hlt : j < ch.PosNb := by omega
      rw [GetPosFrom_step ch hc w n j hj0 hlt, if_neg (hw j hj0 hlt),
        i8_of_range (j + 1) (by omega) (by omega)]
      exact ih (j + 1) (by omega) (by omega) (by omega)

/-- Every value returned by `GetPos` is an `int8_t`. -/
theorem GetPosFrom_range (ch : RcCmdSt_t) (w : Nat) :
    ∀ (fuel : Nat) (j r : Int), -128 ≤ j → j ≤ 127 → GetPosFrom ch w fuel j = some r →
      -128 ≤ r ∧ r ≤ 127 := by
  intro fuel
  induction fuel with
  | zero => intro j r _ _ h; simp [GetPosFrom] at h
  | succ n ih =>
    intro j r h0 h1 h
    rw [GetPosFrom] at h
    split at h
    · split at h
      · exact absurd h (by simp)
      · split at h
        · cases h; exact ⟨h0, h1⟩
        · exact ih _ r (i8_range _).1 (i8_range _).2 h
    · cases h; omega

/-- What `RcSeq_DeclareKeyboardOrStickOrCustom` stores for a stick or switch
channel with ordered 16-bit bounds and 1 to 255 positions. -/
theorem declare_channel (s s' : State) (ChIdx : Nat) (Type_ : RcCmdType)
    (PulseMinUs PulseMaxUs PosNb : Nat) (KeyMap : List KeyMap_t) (ch : RcCmdSt_t)
    (hMinMax : PulseMinUs ≤ PulseMaxUs) (hMax : PulseMaxUs < 65536)
    (hPosNb : 1 ≤ PosNb) (hPosNb8 : PosNb < 256)
    (hDecl : RcSeq_DeclareKeyboardOrStickOrCustom s ChIdx Type_ PulseMinUs PulseMaxUs KeyMap
      PosNb = some s')
    (hch : s'.RcChannel[ChIdx]? = some ch) :
    ch.Type_ = Type_ ∧ ch.PosNb = PosNb ∧ ch.PulseMinUs = PulseMinUs ∧
      ch.PulseMaxUs = PulseMaxUs ∧
      ch.StepUs = (PulseMaxUs - PulseMinUs) / (TOTAL_STEP_NBR PosNb Type_).toNat ∧
      TOTAL_STEP_NBR PosNb Type_ * ch.StepUs ≤ (PulseMaxUs : Int) - PulseMinUs := by
  have hT0 : 3 ≤ TOTAL_STEP_NBR PosNb Type_ ∧ TOTAL_STEP_NBR PosNb Type_ < 65536 := by
    unfold TOTAL_STEP_NBR ACTIVE_AREA_STEP_NBR INACTIVE_AREA_STEP_NBR
    split <;> push_cast <;> omega
  have hT : u16 (TOTAL_STEP_NBR PosNb Type_) = (TOTAL_STEP_NBR PosNb Type_).toNat :=
    u16_of_range _ (by omega) (by omega)
  have hD : u16 ((PulseMaxUs : Int) - PulseMinUs) = PulseMaxUs - PulseMinUs := by
    rw [u16_of_range _ (by omega) (by omega)]; omega
  have hq : (PulseMaxUs - PulseMinUs) / (TOTAL_STEP_NBR PosNb Type_).toNat < 65536 :=
    lt_of_le_of_lt (Nat.div_le_self _ _) (by omega)
  have hmul : (TOTAL_STEP_NBR PosNb Type_).toNat *
      ((PulseMaxUs - PulseMinUs) / (TOTAL_STEP_NBR PosNb Type_).toNat) ≤
      PulseMaxUs - PulseMinUs := Nat.mul_div_le _ _
  unfold RcSeq_DeclareKeyboardOrStickOrCustom at hDecl
  cases hget : s.RcChannel[ChIdx]? with
  | none => rw [hget] at hDecl; exact absurd hDecl (by simp)
  | some c =>
    have hlt : ChIdx < s.RcChannel.length := by
      rcases Nat.lt_or_ge ChIdx s.RcChannel.length with h | h
      · exact h
      · rw [List.getElem?_eq_none h] at hget; exact absurd hget (by simp)
    rw [hget] at hDecl
    unfold STEP at hDecl
    rw [if_neg (by rw [hT]; omega), hT, hD] at hDecl
    simp only [Option.some.injEq] at hDecl
    subst hDecl
    simp only [List.getElem?_set_self hlt, Option.some.injEq] at hch
    subst hch
    simp only [u16_natCast _ hq, true_and]
    have hc : ((TOTAL_STEP_NBR PosNb Type_).toNat : Int) = TOTAL_STEP_NBR PosNb Type_ :=
      Int.toNat_of_nonneg (by omega)
    have h2 : (((TOTAL_STEP_NBR PosNb Type_).toNat *
        ((PulseMaxUs - PulseMinUs) / (TOTAL_STEP_NBR PosNb Type_).toNat) : Nat) : Int) ≤
        ((PulseMaxUs - PulseMinUs : Nat) : Int) := by exact_mod_cast hmul
    rw [Nat.cast_mul, hc, Nat.cast_sub hMinMax] at h2
    exact h2

/-- The zones computed by `GetPos` are the zones the specification states. -/
theorem zone_eq_spec (ch : RcCmdSt_t) (hT : ch.Type_ = RC_CMD_STICK ∨ ch.Type_ = RC_CMD_MULTI_POS_SW)
    (i : Nat) :
    zoneLo ch i = specZoneMin ch.Type_ ch.PulseMinUs ch.PulseMaxUs ch.PosNb ch.StepUs i ∧
    zoneHi ch i = specZoneMax ch.Type_ ch.PulseMinUs ch.PulseMaxUs ch.PosNb ch.StepUs i := by
  unfold zoneLo zoneHi specZoneMin specZoneMax KEY_MAX_VAL KEY_MIN_VAL ACTIVE_AREA_STEP_NBR
    INACTIVE_AREA_STEP_NBR
  rcases hT with hT | hT <;> rw [hT] <;>
    simp only [reduceCtorEq, false_or, true_or, true_and, if_true, Nat.cast_lt] <;>
    constructor <;> (try split) <;> push_cast <;> ring

/-- The configuration stored by a declaration with a step of at least 1 has
zones that fit between its bounds. -/
theorem declare_zoneCfg (s s' : State) (ChIdx : Nat) (Type_ : RcCmdType)
    (PulseMinUs PulseMaxUs PosNb : Nat) (KeyMap : List KeyMap_t) (ch : RcCmdSt_t)
    (hType : Type_ = RC_CMD_STICK ∨ Type_ = RC_CMD_MULTI_POS_SW)
    (hMinMax : PulseMinUs ≤ PulseMaxUs) (hMax : PulseMaxUs < 65536)
    (hPosNb : 1 ≤ PosNb) (hPosNb8 : PosNb < 256)
    (hDecl : RcSeq_DeclareKeyboardOrStickOrCustom s ChIdx Type_ PulseMinUs PulseMaxUs KeyMap
      PosNb = some s')
    (hch : s'.RcChannel[ChIdx]? = some ch) (hStep : 1 ≤ ch.StepUs) : ZoneCfg ch := by
  obtain ⟨h1, h2, h3, h4, _, h6⟩ := declare_channel s s' ChIdx Type_ PulseMinUs PulseMaxUs
    PosNb KeyMap ch hMinMax hMax hPosNb hPosNb8 hDecl hch
  refine ⟨?_, by omega, by omega, hStep, ?_⟩
  · rw [h1]; rcases hType with h | h <;> rw [h] <;> simp
  · rw [h1, h2, h3, h4]; exact h6

/-- C1 (amended): for a Stick or MultiPositionSwitch channel configured by
`RcSeq_DeclareKeyboardOrStickOrCustom` with `PulseMinUs <= PulseMaxUs`, at least
one position and a computed step of at least 1, and for every index
`i < PosNb` that the `int8_t` result can hold (`i <= 127`), `GetPos` returns `i`
for every pulse width inside the window of zone `i`; the stored step is
`(PulseMaxUs - PulseMinUs) / TOTAL_STEP_NBR`. -/
theorem GetPos_inside_zone (s s' : State) (ChIdx : Nat) (Type_ : RcCmdType)
    (PulseMinUs PulseMaxUs PosNb : Nat) (KeyMap : List KeyMap_t) (ch : RcCmdSt_t)
    (hType : Type_ = RC_CMD_STICK ∨ Type_ = RC_CMD_MULTI_POS_SW)
    (hMinMax : PulseMinUs ≤ PulseMaxUs) (hMax : PulseMaxUs < 65536)
    (hPosNb : 1 ≤ PosNb) (hPosNb8 : PosNb < 256)
    (hDecl : RcSeq_DeclareKeyboardOrStickOrCustom s ChIdx Type_ PulseMinUs PulseMaxUs KeyMap
      PosNb = some s')
    (hch : s'.RcChannel[ChIdx]? = some ch) (hStep : 1 ≤ ch.StepUs)
    (i : Nat) (hi : i < PosNb) (hi8 : i ≤ 127) (w : Nat)
    (hw : specZoneMin Type_ PulseMinUs PulseMaxUs PosNb ch.StepUs i ≤ w ∧
      (w : Int) ≤ specZoneMax Type_ PulseMinUs PulseMaxUs PosNb ch.StepUs i)
    (fuel : Nat) (hfuel : i < fuel) :
    ch.StepUs = (PulseMaxUs - PulseMinUs) / (TOTAL_STEP_NBR PosNb Type_).toNat ∧
      GetPos fuel s' ChIdx w = some (i : Int) := by
  have hc := declare_zoneCfg s s' ChIdx Type_ PulseMinUs PulseMaxUs PosNb KeyMap ch hType
    hMinMax hMax hPosNb hPosNb8 hDecl hch hStep
  obtain ⟨h1, h2, h3, h4, h5, _⟩ := declare_channel s s' ChIdx Type_ PulseMinUs PulseMaxUs
    PosNb KeyMap ch hMinMax hMax hPosNb hPosNb8 hDecl hch
  refine ⟨h5, ?_⟩
  have hz := zone_eq_spec ch (by rw [h1]; exact hType) i
  rw [h1, h2, h3, h4] at hz
  unfold GetPos
  rw [hch]
  exact GetPosFrom_hit ch hc w i (by rw [h2]; exact_mod_cast hi) (by exact_mod_cast hi8)
    (by rw [hz.1, hz.2]; exact hw) fuel 0 (le_refl _) (by omega) (by omega)

/-- Witness of C1: a stick over [1000, 2000] us with 4 positions has a step of
62 us, and 1300 us lies in zone 1, [1248, 1434]. -/
theorem GetPos_inside_zone_witness :
    stick4.StepUs = (2000 - 1000) / (TOTAL_STEP_NBR 4 RC_CMD_STICK).toNat ∧
      GetPos 2 (withChannel0 stick4) 0 1300 = some ((1 : Nat) : Int) :=
  GetPos_inside_zone blankState (withChannel0 stick4) 0 RC_CMD_STICK 1000 2000 4 [] stick4
    (Or.inl rfl) (by decide) (by decide) (by decide) (by decide) rfl rfl (by decide)
    1 (by decide) (by decide) 1300 (by decide) 2 (by decide)

/-- With 129 positions the loop counter of `GetPos` wraps before it reaches
128: for the pulse width 512 the loop never ends. -/
theorem GetPosFrom_129_diverges : ∀ (fuel : Nat) (j : Int), -128 ≤ j → j ≤ 127 →
    GetPosFrom switch129 512 fuel j = none := by
  intro fuel
  induction fuel with
  | zero => intro j _ _; rfl
  | succ n ih =>
    intro j h0 h1
    rw [GetPosFrom, if_pos (by show j < ((129 : Nat) : Int); omega),
      keyWindow_zone _ (by decide)]
    simp only []
    rw [if_neg, ih _ (i8_range _).1 (i8_range _).2]
    simp only [zoneLo, zoneHi, KEY_MAX_VAL, KEY_MIN_VAL, ACTIVE_AREA_STEP_NBR,
      INACTIVE_AREA_STEP_NBR, u16, switch129, true_or, if_true]
    push_cast
    omega

/-- Counterexample to C1 as stated: a MultiPositionSwitch over [0, 515] us with
129 positions has a step of 1 us and the window of zone 128 is [512, 515], yet
`GetPos` never returns 128 for the pulse width 512 (its result is an `int8_t`,
and here the loop does not even end). -/
theorem GetPos_inside_zone_counterexample :
    RcSeq_DeclareKeyboardOrStickOrCustom blankState 0 RC_CMD_MULTI_POS_SW 0 515 [] 129 =
      some (withChannel0 switch129) ∧
    specZoneMin RC_CMD_MULTI_POS_SW 0 515 129 switch129.StepUs 128 = 512 ∧
    specZoneMax RC_CMD_MULTI_POS_SW 0 515 129 switch129.StepUs 128 = 515 ∧
    ∀ fuel : Nat, GetPos fuel (withChannel0 switch129) 0 512 = none ∧
      GetPos fuel (withChannel0 switch129) 0 512 ≠ some 128 := by
  refine ⟨rfl, by decide, by decide, fun fuel => ?_⟩
  have h : GetPos fuel (withChannel0 switch129) 0 512 = none :=
    GetPosFrom_129_diverges fuel 0 (by omega) (by omega)
  exact ⟨h, by rw [h]; simp⟩

/-- C2 (amended): for a Stick or MultiPositionSwitch channel configured by
`RcSeq_DeclareKeyboardOrStickOrCustom` with `PulseMinUs <= PulseMaxUs`, a
computed step of at least 1 and between 1 and 127 positions (so that the
`int8_t` loop counter reaches `PosNb`), `GetPos` returns `-1` for every pulse
width below `PulseMinUs`, above `PulseMaxUs`, or strictly between the upper
bound of the window of a zone and the lower bound of the window of the next. -/
theorem GetPos_outside_zones (s s' : State) (ChIdx : Nat) (Type_ : RcCmdType)
    (PulseMinUs PulseMaxUs PosNb : Nat) (KeyMap : List KeyMap_t) (ch : RcCmdSt_t)
    (hType : Type_ = RC_CMD_STICK ∨ Type_ = RC_CMD_MULTI_POS_SW)
    (hMinMax : PulseMinUs ≤ PulseMaxUs) (hMax : PulseMaxUs < 65536)
    (hPosNb : 1 ≤ PosNb) (hPosNb7 : PosNb ≤ 127)
    (hDecl : RcSeq_DeclareKeyboardOrStickOrCustom s ChIdx Type_ PulseMinUs PulseMaxUs KeyMap
      PosNb = some s')
    (hch : s'.RcChannel[ChIdx]? = some ch) (hStep : 1 ≤ ch.StepUs) (w : Nat)
    (hw : w < PulseMinUs ∨ PulseMaxUs < w ∨
      ∃ i : Nat, i + 1 < PosNb ∧
        specZoneMax Type_ PulseMinUs PulseMaxUs PosNb ch.StepUs i < w ∧
        (w : Int) < specZoneMin Type_ PulseMinUs PulseMaxUs PosNb ch.StepUs (i + 1))
    (fuel : Nat) (hfuel : PosNb < fuel) :
    GetPos fuel s' ChIdx w = some (-1) := by
  have hc := declare_zoneCfg s s' ChIdx Type_ PulseMinUs PulseMaxUs PosNb KeyMap ch hType
    hMinMax hMax hPosNb (by omega) hDecl hch hStep
  obtain ⟨h1, h2, h3, h4, _, _⟩ := declare_channel s s' ChIdx Type_ PulseMinUs PulseMaxUs
    PosNb KeyMap ch hMinMax hMax hPosNb (by omega) hDecl hch
  have hT : ch.Type_ = RC_CMD_STICK ∨ ch.Type_ = RC_CMD_MULTI_POS_SW := by rw [h1]; exact hType
  unfold GetPos
  rw [hch]
  refine GetPosFrom_miss ch hc w (by omega) ?_ fuel 0 (le_refl _) (by omega) (by omega)
  intro j hj0 hj1 hin
  have hb := zone_bounds ch hc j hj0 hj1
  rcases hw with hw | hw | ⟨i, hi, hlo, hhi⟩
  · omega
  · omega
  · have hzi := zone_eq_spec ch hT i
    have hzi1 := zone_eq_spec ch hT (i + 1)
    rw [h1, h2, h3, h4] at hzi hzi1
    rw [← hzi.2] at hlo
    rw [← hzi1.1] at hhi
    have hP : ((i : Int) + 1) < ch.PosNb := by rw [h2]; exact_mod_cast hi
    rcases lt_trichotomy j (i : Int) with hlt | heq | hgt
    · have := zone_order ch hc j i hj0 hlt (by omega)
      have := zone_bounds ch hc i (by omega) (by omega)
      omega
    · subst heq; omega
    · rcases eq_or_lt_of_le (show (i : Int) + 1 ≤ j by omega) with heq | hlt
      · rw [← heq] at hin; push_cast at hhi; omega
      · have := zone_order ch hc ((i : Int) + 1) j (by omega) hlt hj1
        have := zone_bounds ch hc ((i : Int) + 1) (by omega) hP
        push_cast at hhi
        omega

/-- Witness of C2: on a stick over [1000, 2000] us with 4 positions, 1500 us
lies between zone 1, which ends at 1434, and zone 2, which starts at 1566. -/
theorem GetPos_outside_zones_witness :
    GetPos 5 (withChannel0 stick4) 0 1500 = some (-1) :=
  GetPos_outside_zones blankState (withChannel0 stick4) 0 RC_CMD_STICK 1000 2000 4 [] stick4
    (Or.inl rfl) (by decide) (by decide) (by decide) (by decide) rfl rfl (by decide) 1500
    (Or.inr (Or.inr ⟨1, by decide, by decide, by decide⟩)) 5 (by decide)

/-- With 128 positions the loop counter of `GetPos` wraps before it reaches
`PosNb`: for the pulse width 600 the loop never ends. -/
theorem GetPosFrom_128_diverges : ∀ (fuel : Nat) (j : Int), -128 ≤ j → j ≤ 127 →
    GetPosFrom switch128 600 fuel j = none := by
  intro fuel
  induction fuel with
  | zero => intro j _ _; rfl
  | succ n ih =>
    intro j h0 h1
    rw [GetPosFrom, if_pos (by show j < ((128 : Nat) : Int); omega),
      keyWindow_zone _ (by decide)]
    simp only []
    rw [if_neg, ih _ (i8_range _).1 (i8_range _).2]
    simp only [zoneLo, zoneHi, KEY_MAX_VAL, KEY_MIN_VAL, ACTIVE_AREA_STEP_NBR,
      INACTIVE_AREA_STEP_NBR, u16, switch128, true_or, if_true]
    push_cast
    omega

/-- Counterexample to C2 as stated: a MultiPositionSwitch over [0, 511] us with
128 positions has a step of 1 us, and for the pulse width 600, above
`PulseMaxUs`, `GetPos` never returns `-1`: the loop does not end. -/
theorem GetPos_outside_zones_counterexample :
    RcSeq_DeclareKeyboardOrStickOrCustom blankState 0 RC_CMD_MULTI_POS_SW 0 511 [] 128 =
      some (withChannel0 switch128) ∧
    switch128.StepUs = 1 ∧ switch128.PulseMaxUs < 600 ∧
    ∀ fuel : Nat, GetPos fuel (withChannel0 switch128) 0 600 = none ∧
      GetPos fuel (withChannel0 switch128) 0 600 ≠ some (-1) := by
  refine ⟨rfl, rfl, by decide, fun fuel => ?_⟩
  have h : GetPos fuel (withChannel0 switch128) 0 600 = none :=
    GetPosFrom_128_diverges fuel 0 (by omega) (by omega)
  exact ⟨h, by rw [h]; simp⟩

/-- One iteration of the loop of `GetPos` on a custom key map, for an index
inside the table. -/
theorem GetPosFrom_custom_step (ch : RcCmdSt_t) (hT : ch.Type_ = RC_CMD_CUSTOM)
    (hK : ∀ k ∈ ch.KeyMap, k.Min < 65536 ∧ k.Max < 65536) (hP : ch.PosNb ≤ 127)
    (w fuel j : Nat) (k : KeyMap_t) (hj : j < ch.PosNb) (hk : ch.KeyMap[j]? = some k) :
    GetPosFrom ch w (fuel + 1) j =
      if k.Min ≤ w ∧ w ≤ k.Max then some (j : Int)
      else GetPosFrom ch w fuel ((j + 1 : Nat) : Int) := by
  have hmem : k ∈ ch.KeyMap := List.getElem?_mem hk
  obtain ⟨hmin, hmax⟩ := hK k hmem
  rw [GetPosFrom, if_pos (by exact_mod_cast hj)]
  unfold keyWindow
  rw [hT]
  simp only [Int.natCast_nonneg, if_true, Int.toNat_ofNat, hk, u16_natCast _ hmin,
    u16_natCast _ hmax, ge_iff_le]
  rw [i8_of_range _ (by omega) (by omega)]
  push_cast
  rfl

/-- The loop of `GetPos` on a custom key map returns the first index from `j`
on whose window contains the pulse width. -/
theorem GetPosFrom_custom_hit (ch : RcCmdSt_t) (hT : ch.Type_ = RC_CMD_CUSTOM)
    (hK : ∀ k ∈ ch.KeyMap, k.Min < 65536 ∧ k.Max < 65536) (hP : ch.PosNb ≤ 127)
    (hlen : ch.PosNb ≤ ch.KeyMap.length) (w i : Nat) (hi : i < ch.PosNb)
    (hin : keyContains ch.KeyMap i w = true)
    (hout : ∀ j, j < i → keyContains ch.KeyMap j w = false) :
    ∀ (fuel j : Nat), j ≤ i → i - j < fuel → GetPosFrom ch w fuel j = some (i : Int) := by
  intro fuel
  induction fuel with
  | zero => intro j _ hf; omega
  | succ n ih =>
    intro j hji hf
    have hjl : j < ch.KeyMap.length := by omega
    have hk : ch.KeyMap[j]? = some (ch.KeyMap[j]) := List.getElem?_eq_getElem hjl
    rw [GetPosFrom_custom_step ch hT hK hP w n j _ (by omega) hk]
    by_cases hEq : j = i
    · subst hEq
      simp only [keyContains, hk, decide_eq_true_eq] at hin
      rw [if_pos hin]
    · have := hout j (by omega)
      simp only [keyContains, hk, decide_eq_false_iff_not] at this
      rw [if_neg this]
      exact ih (j + 1) (by omega) (by omega)

/-- The loop of `GetPos` on a custom key map returns `-1` when no window from
`j` on contains the pulse width. -/
theorem GetPosFrom_custom_miss (ch : RcCmdSt_t) (hT : ch.Type_ = RC_CMD_CUSTOM)
    (hK : ∀ k ∈ ch.KeyMap, k.Min < 65536 ∧ k.Max < 65536) (hP : ch.PosNb ≤ 127)
    (hlen : ch.PosNb ≤ ch.KeyMap.length) (w : Nat)
    (hout : ∀ j, j < ch.PosNb → keyContains ch.KeyMap j w = false) :
    ∀ (fuel j : Nat), j ≤ ch.PosNb → ch.PosNb - j < fuel →
      GetPosFrom ch w fuel j = some (-1) := by
  intro fuel
  induction fuel with
  | zero => intro j _ hf; omega
  | succ n ih =>
    intro j hjP hf
    by_cases hEq : j = ch.PosNb
    · rw [GetPosFrom, if_neg (by rw [hEq]; omega)]
    · have hjl : j < ch.KeyMap.length := by omega
      have hk : ch.KeyMap[j]? = some (ch.KeyMap[j]) := List.getElem?_eq_getElem hjl
      have := hout j (by omega)
      simp only [keyContains, hk, decide_eq_false_iff_not] at this
      rw [GetPosFrom_custom_step ch hT hK hP w n j _ (by omega) hk, if_neg this]
      exact ih (j + 1) (by omega) (by omega)

/-- C3: for a CustomKeymap channel whose key table `K` has `PosNb` entries (at
least; each a pair of 16-bit bounds) and `PosNb <= 127`, `GetPos(w)` returns the
least index `i < PosNb` such that `K[i].Min <= w <= K[i].Max`, returns `-1` when
no entry contains `w`, and so every result is `-1` or an index in `[0, PosNb)`. -/
theorem GetPos_custom (s : State) (ChIdx : Nat) (ch : RcCmdSt_t)
    (hch : s.RcChannel[ChIdx]? = some ch) (hT : ch.Type_ = RC_CMD_CUSTOM)
    (hK : ∀ k ∈ ch.KeyMap, k.Min < 65536 ∧ k.Max < 65536) (hP : ch.PosNb ≤ 127)
    (hlen : ch.PosNb ≤ ch.KeyMap.length) (w fuel : Nat) (hfuel : ch.PosNb < fuel) :
    (∀ i : Nat, i < ch.PosNb → keyContains ch.KeyMap i w = true →
      (∀ j, j < i → keyContains ch.KeyMap j w = false) →
      GetPos fuel s ChIdx w = some (i : Int)) ∧
    ((∀ j, j < ch.PosNb → keyContains ch.KeyMap j w = false) →
      GetPos fuel s ChIdx w = some (-1)) ∧
    ∃ r : Int, GetPos fuel s ChIdx w = some r ∧ (r = -1 ∨ (0 ≤ r ∧ r < ch.PosNb)) := by
  have hA : ∀ i : Nat, i < ch.PosNb → keyContains ch.KeyMap i w = true →
      (∀ j, j < i → keyContains ch.KeyMap j w = false) →
      GetPos fuel s ChIdx w = some (i : Int) := by
    intro i hi hin hout
    unfold GetPos
    rw [hch]
    exact GetPosFrom_custom_hit ch hT hK hP hlen w i hi hin hout fuel 0 (by omega) (by omega)
  have hB : (∀ j, j < ch.PosNb → keyContains ch.KeyMap j w = false) →
      GetPos fuel s ChIdx w = some (-1) := by
    intro hout
    unfold GetPos
    rw [hch]
    exact GetPosFrom_custom_miss ch hT hK hP hlen w hout fuel 0 (by omega) (by omega)
  refine ⟨hA, hB, ?_⟩
  by_cases hex : ∃ i : Nat, i < ch.PosNb ∧ keyContains ch.KeyMap i w = true
  · have hi := Nat.find_spec hex
    refine ⟨((Nat.find hex : Nat) : Int), hA _ hi.1 hi.2 ?_,
      Or.inr ⟨by omega, by exact_mod_cast hi.1⟩⟩
    intro j hj
    have := Nat.find_min hex hj
    simp only [not_and, Bool.not_eq_true] at this
    exact this (by omega)
  · refine ⟨-1, hB ?_, Or.inl rfl⟩
    intro j hj
    simp only [not_exists, not_and, Bool.not_eq_true] at hex
    exact hex j hj

/-- Witness of C3: with three keys whose windows [1400, 1600] and [1500, 1900]
overlap, 1550 us is decoded to key 1, the first that contains it. -/
theorem GetPos_custom_witness :
    GetPos 4 (withChannel0 custom3) 0 1550 = some ((1 : Nat) : Int) :=
  (GetPos_custom (withChannel0 custom3) 0 custom3 rfl rfl (by decide) (by decide) (by decide)
    1550 4 (by decide)).1 1 (by decide) (by decide) (by decide)

/-! ## Trigger: `ExecuteSequence` and `RcSeq_LaunchSequence` -/

/-- The scan of `ExecuteSequence` stops at the first binding registered for
`(CmdIdx, Pos)` and runs its body. -/
theorem ExecuteSequenceFrom_first (env : Env) (s : State) (CmdIdx Pos i : Nat)
    (b : CmdSequenceSt_t) (hb : s.CmdSequence[i]? = some b)
    (hm : b.CmdIdx = (CmdIdx : Int) ∧ b.Pos = (Pos : Int)) :
    ∀ (n Idx : Nat), Idx ≤ i → i < Idx + n →
      (∀ j b1, Idx ≤ j → j < i → s.CmdSequence[j]? = some b1 →
        ¬ (b1.CmdIdx = (CmdIdx : Int) ∧ b1.Pos = (Pos : Int))) →
      ExecuteSequenceFrom env s CmdIdx Pos n Idx = some (executeBinding env s i b) := by
  intro n
  induction n with
  | zero => intro Idx h1 h2; omega
  | succ n ih =>
    intro Idx h1 h2 hfirst
    rw [ExecuteSequenceFrom]
    by_cases hEq : Idx = i
    · subst hEq
      rw [hb]
      simp only []
      rw [if_pos hm]
    · have hlt : Idx < s.CmdSequence.length := by
        have := (List.getElem?_eq_some_iff.mp hb).1
        omega
      rw [List.getElem?_eq_getElem hlt]
      simp only []
      rw [if_neg (hfirst Idx _ (le_refl _) (by omega) (List.getElem?_eq_getElem hlt))]
      exact ih (Idx + 1) (by omega) (by omega)
        (fun j b1 h3 h4 h5 => hfirst j b1 (by omega) h4 h5)

/-- The scan of `ExecuteSequence` returns 0 and changes nothing when no binding
is registered for `(CmdIdx, Pos)`. -/
theorem ExecuteSequenceFrom_none (env : Env) (s : State) (CmdIdx Pos : Nat) :
    ∀ (n Idx : Nat), Idx + n ≤ s.CmdSequence.length →
      (∀ j b1, Idx ≤ j → j < Idx + n → s.CmdSequence[j]? = some b1 →
        ¬ (b1.CmdIdx = (CmdIdx : Int) ∧ b1.Pos = (Pos : Int))) →
      ExecuteSequenceFrom env s CmdIdx Pos n Idx = some (s, 0) := by
  intro n
  induction n with
  | zero => intro Idx _ _; rfl
  | succ n ih =>
    intro Idx hlen hnone
    have hlt : Idx < s.CmdSequence.length := by omega
    rw [ExecuteSequenceFrom, List.getElem?_eq_getElem hlt]
    simp only []
    rw [if_neg (hnone Idx _ (le_refl _) (by omega) (List.getElem?_eq_getElem hlt))]
    exact ih (Idx + 1) (by omega) (fun j b1 h3 h4 h5 => hnone j b1 (by omega) (by omega) h5)

/-- The scan of `RcSeq_LaunchSequence` stops at the first slot that holds
`Table` and triggers the command and position stored there. -/
theorem LaunchSequenceFrom_first (env : Env) (s : State) (Table i : Nat)
    (b : CmdSequenceSt_t) (hb : s.CmdSequence[i]? = some b)
    (hm : b.TableOrShortAction = Table) :
    ∀ (n Idx : Nat), Idx ≤ i → i < Idx + n →
      (∀ j b1, Idx ≤ j → j < i → s.CmdSequence[j]? = some b1 →
        b1.TableOrShortAction ≠ Table) →
      LaunchSequenceFrom env s Table n Idx = ExecuteSequence env s (u8 b.CmdIdx) (u8 b.Pos) := by
  intro n
  induction n with
  | zero => intro Idx h1 h2; omega
  | succ n ih =>
    intro Idx h1 h2 hfirst
    rw [LaunchSequenceFrom]
    by_cases hEq : Idx = i
    · subst hEq
      rw [hb]
      simp only []
      rw [if_pos hm]
    · have hlt : Idx < s.CmdSequence.length := by
        have := (List.getElem?_eq_some_iff.mp hb).1
        omega
      rw [List.getElem?_eq_getElem hlt]
      simp only []
      rw [if_neg (hfirst Idx _ (le_refl _) (by omega) (List.getElem?_eq_getElem hlt))]
      exact ih (Idx + 1) (by omega) (by omega)
        (fun j b1 h3 h4 h5 => hfirst j b1 (by omega) h4 h5)

/-- C6: `ExecuteSequence(CmdIdx, Pos)` whose binding (the first registered for
the pair) is a sequence (`SequenceLength > 0`) already in progress returns 0 and
leaves the whole state unchanged: no callback is invoked (the trace is the
same), and every binding, including its `InProgress`, `StartChronoMs` and
`ShortActionMap`, and every actuator state is the same.  The same holds for
`RcSeq_LaunchSequence` on the table of that binding, when that table is held by
no earlier slot. -/
theorem ExecuteSequence_in_progress (env : Env) (s : State) (CmdIdx Pos i : Nat)
    (b : CmdSequenceSt_t) (hC : CmdIdx < 256) (hP : Pos < 256)
    (hi : i < s.SeqNb) (hb : s.CmdSequence[i]? = some b)
    (hm : b.CmdIdx = (CmdIdx : Int) ∧ b.Pos = (Pos : Int))
    (hfirst : ∀ j b1, j < i → s.CmdSequence[j]? = some b1 →
      ¬ (b1.CmdIdx = (CmdIdx : Int) ∧ b1.Pos = (Pos : Int)))
    (hlen : 0 < b.SequenceLength) (hprog : b.InProgress ≠ 0) :
    ExecuteSequence env s CmdIdx Pos = some (s, 0) ∧
    (i < env.SEQUENCE_MAX_NB →
      (∀ j b1, j < i → s.CmdSequence[j]? = some b1 →
        b1.TableOrShortAction ≠ b.TableOrShortAction) →
      RcSeq_LaunchSequence env s b.TableOrShortAction = some (s, 0)) := by
  have hE : ExecuteSequence env s CmdIdx Pos = some (s, 0) := by
    unfold ExecuteSequence
    rw [ExecuteSequenceFrom_first env s CmdIdx Pos i b hb hm s.SeqNb 0 (by omega) (by omega)
      (fun j b1 _ h2 h3 => hfirst j b1 h2 h3)]
    unfold executeBinding
    rw [if_neg (by omega), if_neg hprog]
  refine ⟨hE, fun hmax hT => ?_⟩
  unfold RcSeq_LaunchSequence
  rw [LaunchSequenceFrom_first env s _ i b hb rfl env.SEQUENCE_MAX_NB 0 (by omega) (by omega)
    (fun j b1 _ h2 h3 => hT j b1 h2 h3), hm.1, hm.2, u8_natCast _ hC, u8_natCast _ hP]
  exact hE

/-- Witness of C6: command 0, position 1 is bound to a sequence in progress. -/
theorem ExecuteSequence_in_progress_witness :
    ExecuteSequence demoEnv (demoState 1 0) 0 1 = some (demoState 1 0, 0) ∧
    RcSeq_LaunchSequence demoEnv (demoState 1 0) 100 = some (demoState 1 0, 0) :=
  have h := ExecuteSequence_in_progress demoEnv (demoState 1 0) 0 1 0 (demoSequence 1 0)
    (by decide) (by decide) (by decide) rfl (by decide) (fun j _ hj => absurd hj (by omega))
    (by decide) (by decide)
  ⟨h.1, h.2 (by decide) (fun j _ hj => absurd hj (by omega))⟩

/-- C7: `ExecuteSequence(CmdIdx, Pos)` whose binding (the first registered for
the pair, at index `i`) is a sequence that is not in progress: a registered
gating callback is asked once, with `RC_SEQ_START_CONDITION` and `i`; when it
returns 0 the binding is left unchanged and 0 is returned; when it returns
non-zero, or when no gating callback is registered, `InProgress` is set,
`StartChronoMs` is set to the current time and 1 is returned. -/
theorem ExecuteSequence_start (env : Env) (s : State) (CmdIdx Pos i : Nat)
    (b : CmdSequenceSt_t) (hi : i < s.SeqNb) (hb : s.CmdSequence[i]? = some b)
    (hm : b.CmdIdx = (CmdIdx : Int) ∧ b.Pos = (Pos : Int))
    (hfirst : ∀ j b1, j < i → s.CmdSequence[j]? = some b1 →
      ¬ (b1.CmdIdx = (CmdIdx : Int) ∧ b1.Pos = (Pos : Int)))
    (hlen : 0 < b.SequenceLength) (hprog : b.InProgress = 0) :
    (b.Control ≠ 0 → u8 (env.Control s.trace b.Control env.RC_SEQ_START_CONDITION i) = 0 →
      ExecuteSequence env s CmdIdx Pos =
        some ({ s with trace := s.trace ++
                  [Event.control b.Control env.RC_SEQ_START_CONDITION i] }, 0)) ∧
    (b.Control ≠ 0 → u8 (env.Control s.trace b.Control env.RC_SEQ_START_CONDITION i) ≠ 0 →
      ExecuteSequence env s CmdIdx Pos =
        some ({ s with
                trace := s.trace ++ [Event.control b.Control env.RC_SEQ_START_CONDITION i]
                clock := s.clock + 1
                CmdSequence := s.CmdSequence.set i
                  { b with InProgress := 1, StartChronoMs := u32 (env.millis s.clock) } }, 1)) ∧
    (b.Control = 0 →
      ExecuteSequence env s CmdIdx Pos =
        some ({ s with
                clock := s.clock + 1
                CmdSequence := s.CmdSequence.set i
                  { b with InProgress := 1, StartChronoMs := u32 (env.millis s.clock) } }, 1)) := by
  have hE : ExecuteSequence env s CmdIdx Pos = some (executeBinding env s i b) := by
    unfold ExecuteSequence
    exact ExecuteSequenceFrom_first env s CmdIdx Pos i b hb hm s.SeqNb 0 (by omega) (by omega)
      (fun j b1 _ h2 h3 => hfirst j b1 h2 h3)
  rw [hE]
  unfold executeBinding
  rw [if_neg (by omega), if_pos hprog]
  refine ⟨fun hc hgo => ?_, fun hc hgo => ?_, fun hc => ?_⟩
  · simp only [hc, ne_eq, not_false_eq_true, if_true, hgo, not_true_eq_false, if_false, emit]
  · simp only [hc, ne_eq, not_false_eq_true, if_true, hgo, if_false, emit, millis]
  · simp only [hc, ne_eq, not_true_eq_false, if_false, one_ne_zero, not_false_eq_true, if_true,
      millis]

/-- Witness of C7: the gating callback at address 7 refuses the start of the
sequence bound to command 0, position 1, which is left as it was. -/
theorem ExecuteSequence_start_witness :
    ExecuteSequence demoEnv (demoState 0 7) 0 1 =
      some ({ demoState 0 7 with trace := [Event.control 7 0 0] }, 0) :=
  (ExecuteSequence_start demoEnv (demoState 0 7) 0 1 0 (demoSequence 0 7) (by decide) rfl
    (by decide) (fun j _ hj => absurd hj (by omega)) (by decide) rfl).1 (by decide) (by decide)

/-- C8: `ExecuteSequence(CmdIdx, Pos)` whose binding (the first registered for
the pair) is a short action (non-null callback, `SequenceLength = 0`) invokes
that callback once, returns 1 and changes nothing else in the state, whatever
the `InProgress` flag of the binding holds. -/
theorem ExecuteSequence_short_action (env : Env) (s : State) (CmdIdx Pos i : Nat)
    (b : CmdSequenceSt_t) (hi : i < s.SeqNb) (hb : s.CmdSequence[i]? = some b)
    (hm : b.CmdIdx = (CmdIdx : Int) ∧ b.Pos = (Pos : Int))
    (hfirst : ∀ j b1, j < i → s.CmdSequence[j]? = some b1 →
      ¬ (b1.CmdIdx = (CmdIdx : Int) ∧ b1.Pos = (Pos : Int)))
    (hfn : b.TableOrShortAction ≠ 0) (hlen : b.SequenceLength = 0) :
    ExecuteSequence env s CmdIdx Pos =
      some ({ s with trace := s.trace ++ [Event.shortAction b.TableOrShortAction] }, 1) := by
  unfold ExecuteSequence
  rw [ExecuteSequenceFrom_first env s CmdIdx Pos i b hb hm s.SeqNb 0 (by omega) (by omega)
    (fun j b1 _ h2 h3 => hfirst j b1 h2 h3)]
  unfold executeBinding
  rw [if_pos ⟨hfn, hlen⟩]
  rfl

/-- Witness of C8: command 0, position 2 is bound to the short action 55. -/
theorem ExecuteSequence_short_action_witness :
    ExecuteSequence demoEnv (demoState 1 0) 0 2 =
      some ({ demoState 1 0 with trace := [Event.shortAction 55] }, 1) :=
  ExecuteSequence_short_action demoEnv (demoState 1 0) 0 2 1 demoShortAction (by decide) rfl
    (by decide)
    (fun j b1 hj h => by
      have h0 : j = 0 := by omega
      subst h0
      cases h
      decide)
    (by decide) rfl

/-! ## Frame of the trigger -/

theorem Quiet_refl (s : State) : Quiet s s :=
  ⟨rfl, rfl, le_refl _, [], by simp, by simp⟩

theorem Quiet_trans {s s1 s2 : State} (h1 : Quiet s s1) (h2 : Quiet s1 s2) : Quiet s s2 := by
  obtain ⟨a1, b1, c1, e1, he1, hq1⟩ := h1
  obtain ⟨a2, b2, c2, e2, he2, hq2⟩ := h2
  refine ⟨by rw [a2, a1], by rw [b2, b1], le_trans c1 c2, e1 ++ e2, ?_, ?_⟩
  · rw [he2, he1, List.append_assoc]
  · intro e he
    rcases List.mem_append.mp he with h | h
    · exact hq1 e h
    · exact hq2 e h

/-- The body of `ExecuteSequence` leaves the channels alone and makes no
trigger call. -/
theorem executeBinding_quiet (env : Env) (s : State) (Idx : Nat) (b : CmdSequenceSt_t) :
    Quiet s (executeBinding env s Idx b).1 := by
  unfold executeBinding
  split
  · exact ⟨rfl, rfl, le_refl _, [_], rfl, by simp [Event.isTrigger]⟩
  · split
    · by_cases hc : b.Control ≠ 0
      · by_cases hg : u8 (env.Control s.trace b.Control env.RC_SEQ_START_CONDITION Idx) ≠ 0
        · simp only [hc, hg, ne_eq, not_false_eq_true, if_true]
          exact ⟨rfl, rfl, Nat.le_succ _, [_], rfl, by simp [Event.isTrigger]⟩
        · simp only [ne_eq, not_not] at hg
          simp only [hc, hg, ne_eq, not_false_eq_true, not_true_eq_false, if_true, if_false]
          exact ⟨rfl, rfl, le_refl _, [_], rfl, by simp [Event.isTrigger]⟩
      · simp only [ne_eq, not_not] at hc
        simp only [hc, ne_eq, not_true_eq_false, if_false, one_ne_zero, not_false_eq_true, if_true]
        exact ⟨rfl, rfl, Nat.le_succ _, [], by simp [millis], by simp⟩
    · exact Quiet_refl s

/-- The scan of `ExecuteSequence` either finds no binding, or runs the body on
one of the bindings. -/
theorem ExecuteSequenceFrom_cases (env : Env) (s : State) (CmdIdx Pos : Nat) :
    ∀ (n Idx : Nat) (r : State × Nat), ExecuteSequenceFrom env s CmdIdx Pos n Idx = some r →
      r = (s, 0) ∨ ∃ i b, s.CmdSequence[i]? = some b ∧ r = executeBinding env s i b := by
  intro n
  induction n with
  | zero => intro Idx r h; rw [ExecuteSequenceFrom] at h; cases h; exact Or.inl rfl
  | succ n ih =>
    intro Idx r h
    rw [ExecuteSequenceFrom] at h
    split at h
    · exact absurd h (by simp)
    · rename_i b hb
      split at h
      · cases h; exact Or.inr ⟨Idx, b, hb, rfl⟩
      · exact ih _ r h

/-- The scan of `ExecuteSequence` has a result when it stays inside the
registry. -/
theorem ExecuteSequenceFrom_total (env : Env) (s : State) (CmdIdx Pos : Nat) :
    ∀ (n Idx : Nat), Idx + n ≤ s.CmdSequence.length →
      ∃ r, ExecuteSequenceFrom env s CmdIdx Pos n Idx = some r := by
  intro n
  induction n with
  | zero => intro Idx _; exact ⟨_, rfl⟩
  | succ n ih =>
    intro Idx hlen
    have hlt : Idx < s.CmdSequence.length := by omega
    rw [ExecuteSequenceFrom, List.getElem?_eq_getElem hlt]
    simp only []
    split
    · exact ⟨_, rfl⟩
    · exact ih (Idx + 1) (by omega)

/-- A call of `ExecuteSequence` leaves the channels alone and makes no trigger
call. -/
theorem ExecuteSequence_quiet (env : Env) (s : State) (CmdIdx Pos : Nat) (r : State × Nat)
    (h : ExecuteSequence env s CmdIdx Pos = some r) : Quiet s r.1 := by
  rcases ExecuteSequenceFrom_cases env s CmdIdx Pos _ _ r h with h1 | ⟨i, b, _, h1⟩
  · rw [h1]; exact Quiet_refl s
  · rw [h1]; exact executeBinding_quiet env s i b

/-! ## Debounce step -/

theorem newEvents_append (s s1 : State) (evs : List Event) (h : s1.trace = s.trace ++ evs) :
    newEvents s s1 = evs := by
  unfold newEvents
  rw [h]
  exact List.drop_left _ _

theorem filter_isTrigger_quiet (evs : List Event) (h : ∀ e ∈ evs, Event.isTrigger e = false) :
    evs.filter Event.isTrigger = [] := by
  rw [List.filter_eq_nil_iff]
  intro e he
  rw [h e he]
  simp

/-- C4: in the debounce step of `RcSeq_Refresh` for a channel with a fresh
pulse decoded to `p`, the trigger `ExecuteSequence(channel, p)` fires if and
only if `p >= 0`, `p` equals the held position and
`(now - held start timestamp) mod 2^32 >= threshold`, the threshold being 150 ms
for a stick and 50 ms otherwise; when `p >= 0` differs from the held position no
trigger fires and the held position becomes `p` with start timestamp `now`; when
it equals the held one and less than the threshold has elapsed, no trigger
fires and the channel state is unchanged. -/
theorem debounce_trigger (env : Env) (fuel : Nat) (s : State) (ChIdx : Nat) (ch : RcCmdSt_t)
    (w : Nat) (p : Int) (hch : s.RcChannel[ChIdx]? = some ch)
    (hSeq : s.SeqNb ≤ s.CmdSequence.length)
    (hpos : GetPos fuel s ChIdx (u16 w) = some p) :
    pulseCheckMs ch = (if ch.Type_ = RC_CMD_STICK then 150 else 50) ∧
    ∃ s1, acquireChannel env fuel s ChIdx (some w) = some s1 ∧
      (newEvents s s1).filter Event.isTrigger =
        (if 0 ≤ p ∧ p = ch.Pos.Idx ∧
            pulseCheckMs ch ≤ u32 ((u32 (env.millis s.clock) : Int) - ch.Pos.StartChronoMs)
         then [Event.trigger ChIdx (u8 p) (u32 (env.millis s.clock))] else []) ∧
      (0 ≤ p → p = ch.Pos.Idx →
        pulseCheckMs ch ≤ u32 ((u32 (env.millis s.clock) : Int) - ch.Pos.StartChronoMs) →
        ∃ r, ExecuteSequence env
            { s with clock := s.clock + 1
                     trace := s.trace ++
                       [Event.trigger ChIdx (u8 p) (u32 (env.millis s.clock))] }
            ChIdx (u8 p) = some r ∧
          s1 = { r.1 with RcChannel := r.1.RcChannel.set ChIdx (clearPos ch) }) ∧
      (0 ≤ p → p ≠ ch.Pos.Idx →
        s1 = { s with
               clock := s.clock + 1
               RcChannel := s.RcChannel.set ChIdx
                 { ch with Pos := { Idx := p, StartChronoMs := u32 (env.millis s.clock) } } }) ∧
      (0 ≤ p → p = ch.Pos.Idx →
        u32 ((u32 (env.millis s.clock) : Int) - ch.Pos.StartChronoMs) < pulseCheckMs ch →
        s1 = { s with clock := s.clock + 1 }) := by
  refine ⟨by unfold pulseCheckMs STICK_PULSE_CHECK_MS KBD_PULSE_CHECK_MS; rfl, ?_⟩
  unfold acquireChannel
  rw [hch]
  simp only [hpos]
  unfold debounce
  by_cases hp : 0 ≤ p
  · by_cases hne : p = ch.Pos.Idx
    · subst hne
      by_cases hthr : pulseCheckMs ch ≤
          u32 ((u32 (env.millis s.clock) : Int) - ch.Pos.StartChronoMs)
      · obtain ⟨r, hr⟩ := ExecuteSequenceFrom_total env
          (emit (millis env s).2 (Event.trigger ChIdx (u8 ch.Pos.Idx) (millis env s).1)) ChIdx
          (u8 ch.Pos.Idx) s.SeqNb 0 (by simpa [emit, millis] using hSeq)
        have hr' : ExecuteSequence env
            (emit (millis env s).2 (Event.trigger ChIdx (u8 ch.Pos.Idx) (millis env s).1)) ChIdx
            (u8 ch.Pos.Idx) = some r := hr
        have hq := ExecuteSequence_quiet env _ ChIdx (u8 ch.Pos.Idx) r hr'
        obtain ⟨hq1, _, _, evs, hq4, hq5⟩ := hq
        have hch1 : r.1.RcChannel[ChIdx]? = some ch := by rw [hq1]; exact hch
        simp only [ge_iff_le, hp, if_true, ne_eq, not_true_eq_false, if_false]
        have hthr' : pulseCheckMs ch ≤ u32 (((millis env s).1 : Int) - ch.Pos.StartChronoMs) := hthr
        rw [if_pos hthr', hr']
        simp only [hch1]
        refine ⟨_, rfl, ?_, ?_, ?_, ?_⟩
        · rw [if_pos ⟨trivial, trivial, hthr⟩]
          rw [newEvents_append s _ ([Event.trigger ChIdx (u8 ch.Pos.Idx) (millis env s).1] ++ evs)
            (by simp only [hq4, emit, millis, List.append_assoc])]
          simp only [List.filter_append, filter_isTrigger_quiet evs hq5, List.append_nil]
          rfl
        · intro _ _ _
          exact ⟨r, hr', rfl⟩
        · intro _ h; exact h.elim
        · intro _ _ h; omega
      · simp only [ge_iff_le, hp, if_true, ne_eq, not_true_eq_false, if_false]
        have hthr' : ¬ pulseCheckMs ch ≤ u32 (((millis env s).1 : Int) - ch.Pos.StartChronoMs) :=
          hthr
        rw [if_neg hthr']
        refine ⟨_, rfl, ?_, ?_, ?_, ?_⟩
        · rw [if_neg (fun h => hthr h.2.2), newEvents_append s _ [] (by simp [millis])]
          rfl
        · intro _ _ h; exact absurd h hthr
        · intro _ h; exact h.elim
        · intro _ _ _; rfl
    · have hne' : ch.Pos.Idx ≠ p := fun h => hne h.symm
      simp only [ge_iff_le, hp, if_true, hne', ne_eq, not_false_eq_true]
      refine ⟨_, rfl, ?_, ?_, ?_, ?_⟩
      · rw [if_neg (fun h => hne h.2.1), newEvents_append s _ [] (by simp [millis])]
        rfl
      · intro _ h; exact absurd h hne
      · intro _ _; rfl
      · intro _ h; exact absurd h hne
  · simp only [ge_iff_le, hp, if_false]
    refine ⟨_, rfl, ?_, ?_, ?_, ?_⟩
    · rw [if_neg (fun h => h.1.elim), newEvents_append s _ [] (by simp)]
      rfl
    · intro h; exact h.elim
    · intro h; exact h.elim
    · intro h; exact h.elim

/-- Witness of C4: a stick that has held position 1 since 800 ms receives a
pulse of 1300 us (zone 1) at 1000 ms, 200 ms later: the trigger fires. -/
theorem debounce_trigger_witness :
    ∃ s1, acquireChannel demoEnv 5 (withChannel0 heldStick) 0 (some 1300) = some s1 ∧
      (newEvents (withChannel0 heldStick) s1).filter Event.isTrigger =
        [Event.trigger 0 1 1000] := by
  obtain ⟨_, s1, h1, h2, _⟩ := debounce_trigger demoEnv 5 (withChannel0 heldStick) 0 heldStick
    1300 1 rfl (by decide) (by decide)
  exact ⟨s1, h1, h2.trans (by decide)⟩

/-! ## Frame of the sequence management -/

theorem Quiet_of_emit (s : State) (e : Event) (h : Event.isTrigger e = false) :
    Quiet s (emit s e) :=
  ⟨rfl, rfl, le_refl _, [e], rfl, by simpa using h⟩

/-- A state that differs from `s` in the registry and the servo table only. -/
theorem Quiet_of_fields (s s1 : State) (h1 : s1.RcChannel = s.RcChannel)
    (h2 : s1.CmdSignalNb = s.CmdSignalNb) (h3 : s1.clock = s.clock) (h4 : s1.trace = s.trace) :
    Quiet s s1 :=
  ⟨h1, h2, by omega, [], by simp [h4], by simp⟩

theorem shortActionFire_quiet (s : State) (Idx SeqLine : Nat) (b : CmdSequenceSt_t)
    (line : SequenceSt_t) (cnt : Nat) : Quiet s (shortActionFire s Idx SeqLine b line cnt) :=
  Quiet_trans (Quiet_of_emit s (Event.lineAction Idx SeqLine line.ShortAction) rfl)
    (Quiet_of_fields _ _ rfl rfl rfl rfl)

theorem shortActionLine_quiet (s s1 : State) (Idx SeqLine : Nat) (line : SequenceSt_t)
    (cnt : Nat) (h : shortActionLine s Idx SeqLine line cnt = some s1) : Quiet s s1 := by
  unfold shortActionLine at h
  cases hb : s.CmdSequence[Idx]? with
  | none => rw [hb] at h; exact absurd h (by simp)
  | some b =>
    rw [hb] at h
    simp only [] at h
    by_cases hc : shortActionDue s b line = true ∧ TST_BIT b.ShortActionMap cnt = 0
    · rw [if_pos hc] at h
      cases h
      exact shortActionFire_quiet s Idx SeqLine b line cnt
    · rw [if_neg hc] at h
      cases h
      exact Quiet_refl s

theorem motionClaim_quiet (s : State) (SeqLine : Nat) (line : SequenceSt_t) :
    Quiet s (motionClaim s SeqLine line) :=
  Quiet_trans
    (Quiet_of_fields s
      { s with Servo := (s.Servo.set (u8 line.ServoIndex)
          { RefreshNb := u16 (REFRESH_NB (u32 line.MotionDurationMs)),
            SeqLineInProgress := u8 SeqLine }) } rfl rfl rfl rfl)
    (Quiet_of_emit _ (Event.servoWrite (u8 line.ServoIndex) (u8 line.StartInDegrees)) rfl)

theorem motionEndOfSeq_quiet (env : Env) (s : State) (Idx : Nat) (b : CmdSequenceSt_t) :
    Quiet s (motionEndOfSeq env s Idx b) := by
  unfold motionEndOfSeq
  by_cases hc : b.Control ≠ 0
  · rw [if_pos hc]
    exact Quiet_trans
      (Quiet_of_fields s
        { s with CmdSequence := (s.CmdSequence.set Idx
            { b with InProgress := 0, ShortActionMap := 0 }) } rfl rfl rfl rfl)
      (Quiet_of_emit _ (Event.control b.Control env.RC_SEQ_END_OF_SEQ Idx) rfl)
  · rw [if_neg hc]
    exact Quiet_of_fields s _ rfl rfl rfl rfl

theorem motionAdvance_quiet (env : Env) (s : State) (Idx SeqLine : Nat) (line : SequenceSt_t)
    (sv : ServoSt_t) (b : CmdSequenceSt_t) (RefreshNb Pos : Nat) :
    Quiet s (motionAdvance env s Idx SeqLine line sv b RefreshNb Pos) := by
  have q : ∀ x : ServoSt_t, Quiet s
      { emit s (Event.servoWrite (u8 line.ServoIndex) Pos) with
        Servo := (s.Servo.set (u8 line.ServoIndex) x) } := fun x =>
    Quiet_trans (Quiet_of_emit s (Event.servoWrite (u8 line.ServoIndex) Pos) rfl)
      (Quiet_of_fields _ _ rfl rfl rfl rfl)
  unfold motionAdvance
  by_cases h0 : RefreshNb = 0
  · rw [if_pos h0]
    by_cases h1 : SeqLine + 1 = b.SequenceLength
    · rw [if_pos h1]
      exact Quiet_trans (q _) (motionEndOfSeq_quiet env _ Idx b)
    · rw [if_neg h1]
      exact q _
  · rw [if_neg h0]
    exact q _

theorem motionLineOn_quiet (env : Env) (s s1 : State) (Idx SeqLine : Nat) (line : SequenceSt_t)
    (sv : ServoSt_t) (b : CmdSequenceSt_t)
    (h : motionLineOn env s Idx SeqLine line sv b = some s1) : Quiet s s1 := by
  unfold motionLineOn at h
  by_cases h0 : sv.RefreshNb ≠ 0 ∧ SeqLine ≠ sv.SeqLineInProgress
  · rw [if_pos h0] at h
    cases h
    exact Quiet_refl s
  · rw [if_neg h0] at h
    by_cases h1 : sv.RefreshNb = 0 ∧ sv.SeqLineInProgress = NO_SEQ_LINE
    · rw [if_pos h1] at h
      by_cases h2 : motionDue s b line = true
      · rw [if_pos h2] at h
        cases h
        exact motionClaim_quiet s SeqLine line
      · rw [if_neg h2] at h
        cases h
        exact Quiet_refl s
    · rw [if_neg h1] at h
      cases hp : motionPos (if sv.RefreshNb ≠ 0 then sv.RefreshNb - 1 else sv.RefreshNb)
          (u8 line.StartInDegrees) (u8 line.EndInDegrees) (u32 line.MotionDurationMs) with
      | none => rw [hp] at h; exact absurd h (by simp)
      | some Pos =>
        rw [hp] at h
        simp only [Option.some.injEq] at h
        rw [← h]
        exact motionAdvance_quiet env s Idx SeqLine line sv b _ Pos

theorem motionLine_quiet (env : Env) (s s1 : State) (Idx SeqLine : Nat) (line : SequenceSt_t)
    (h : motionLine env s Idx SeqLine line = some s1) : Quiet s s1 := by
  unfold motionLine at h
  cases hsv : s.Servo[u8 line.ServoIndex]? with
  | none => rw [hsv] at h; exact absurd h (by simp)
  | some sv =>
    rw [hsv] at h
    simp only [] at h
    cases hb : s.CmdSequence[Idx]? with
    | none => rw [hb] at h; exact absurd h (by simp)
    | some b =>
      rw [hb] at h
      exact motionLineOn_quiet env s s1 Idx SeqLine line sv b h

theorem lineStep_quiet (env : Env) (s s1 : State) (Idx SeqLine cnt : Nat) (line : SequenceSt_t)
    (h : lineStep env s Idx SeqLine cnt line = some s1) : Quiet s s1 := by
  unfold lineStep at h
  by_cases hc : u8 line.ServoIndex = 255
  · rw [if_pos hc] at h
    exact shortActionLine_quiet s s1 Idx SeqLine line cnt h
  · rw [if_neg hc] at h
    exact motionLine_quiet env s s1 Idx SeqLine line h

/-- The line loop with no line left ends, with the state as it is, only when
its `int8_t` counter has not wrapped. -/
theorem linesFrom_zero (env : Env) (Idx l cnt : Nat) (s s1 : State)
    (h : linesFrom env Idx 0 l cnt s = some s1) : s = s1 ∧ l ≤ 127 := by
  rw [linesFrom] at h
  split at h
  · exact absurd h (by simp)
  · cases h
    exact ⟨rfl, by omega⟩

/-- The binding loop with no binding left ends, with the state as it is, only
when its `int8_t` counter has not wrapped. -/
theorem engineFrom_zero (env : Env) (Idx : Nat) (s s1 : State)
    (h : engineFrom env 0 Idx s = some s1) : s = s1 ∧ Idx ≤ 127 := by
  rw [engineFrom] at h
  split at h
  · exact absurd h (by simp)
  · cases h
    exact ⟨rfl, by omega⟩

theorem linesFrom_quiet (env : Env) (Idx : Nat) :
    ∀ (n SeqLine cnt : Nat) (s s1 : State), linesFrom env Idx n SeqLine cnt s = some s1 →
      Quiet s s1 := by
  intro n
  induction n with
  | zero => intro SeqLine cnt s s1 h; obtain ⟨rfl, _⟩ := linesFrom_zero env Idx _ _ _ _ h; exact Quiet_refl s
  | succ n ih =>
    intro SeqLine cnt s s1 h
    rw [linesFrom] at h
    by_cases h0 : SeqLine > 127
    · rw [if_pos h0] at h; exact absurd h (by simp)
    · rw [if_neg h0] at h
      cases hb : s.CmdSequence[Idx]? with
      | none => rw [hb] at h; exact absurd h (by simp)
      | some b =>
        rw [hb] at h
        simp only [] at h
        cases hl : (env.Flash b.TableOrShortAction)[SeqLine]? with
        | none => rw [hl] at h; exact absurd h (by simp)
        | some line =>
          rw [hl] at h
          simp only [] at h
          cases hs : lineStep env s Idx SeqLine cnt line with
          | none => rw [hs] at h; exact absurd h (by simp)
          | some s2 =>
            rw [hs] at h
            exact Quiet_trans (lineStep_quiet env s s2 Idx SeqLine cnt line hs) (ih _ _ _ _ h)

theorem engineFrom_quiet (env : Env) :
    ∀ (n Idx : Nat) (s s1 : State), engineFrom env n Idx s = some s1 → Quiet s s1 := by
  intro n
  induction n with
  | zero => intro Idx s s1 h; obtain ⟨rfl, _⟩ := engineFrom_zero env _ _ _ h; exact Quiet_refl s
  | succ n ih =>
    intro Idx s s1 h
    rw [engineFrom] at h
    by_cases h0 : Idx > 127
    · rw [if_pos h0] at h; exact absurd h (by simp)
    · rw [if_neg h0] at h
      cases hb : s.CmdSequence[Idx]? with
      | none => rw [hb] at h; exact absurd h (by simp)
      | some b =>
        rw [hb] at h
        simp only [] at h
        by_cases h1 : b.InProgress = 0 ∨ b.SequenceLength = 0
        · rw [if_pos h1] at h
          exact ih _ _ _ h
        · rw [if_neg h1] at h
          cases hs : linesFrom env Idx b.SequenceLength 0 0 s with
          | none => rw [hs] at h; exact absurd h (by simp)
          | some s2 =>
            rw [hs] at h
            exact Quiet_trans (linesFrom_quiet env Idx _ _ _ s s2 hs) (ih _ _ _ h)

theorem refreshStatics_quiet (env : Env) (s : State) : Quiet s (refreshStatics env s) := by
  unfold refreshStatics
  by_cases h : s.staticsReady = true
  · rw [if_pos h]; exact Quiet_refl s
  · rw [if_neg h]
    exact ⟨rfl, rfl, Nat.le_add_right _ 2, [], by simp [millis], by simp⟩

theorem refreshEngine_quiet (env : Env) (s s1 : State) (h : refreshEngine env s = some s1) :
    Quiet s s1 := by
  unfold refreshEngine at h
  simp only [] at h
  have q0 : Quiet s { (millis env s).2 with NowMs := (millis env s).1 } :=
    ⟨rfl, rfl, Nat.le_succ _, [], by simp [millis], by simp⟩
  by_cases hg : u32 (((millis env s).1 : Int) - (millis env s).2.StartChronoInterPulseMs) ≥ 20
  · rw [if_pos hg] at h
    cases hs : engineFrom env (millis env s).2.SeqNb 0
        { (millis env s).2 with NowMs := (millis env s).1 } with
    | none => rw [hs] at h; exact absurd h (by simp)
    | some s2 =>
      rw [hs] at h
      simp only [Option.some.injEq] at h
      rw [← h]
      refine Quiet_trans q0 (Quiet_trans (engineFrom_quiet _ _ _ _ _ hs) ?_)
      exact Quiet_trans (Quiet_of_emit s2 Event.servoRefresh rfl)
        ⟨rfl, rfl, Nat.le_succ _, [], by simp [millis], by simp⟩
  · rw [if_neg hg] at h
    cases h
    exact q0

/-! ## Hold invariant of a channel -/

/-- The four outcomes of the debounce step. -/
theorem debounce_cases (env : Env) (s s1 : State) (ChIdx : Nat) (ch : RcCmdSt_t) (p : Int)
    (h : debounce env s ChIdx ch p = some s1) :
    (p < 0 ∧ s1 = { s with RcChannel := s.RcChannel.set ChIdx (clearPos ch) }) ∨
    (0 ≤ p ∧ ch.Pos.Idx ≠ p ∧
      s1 = { s with
             clock := s.clock + 1
             RcChannel := s.RcChannel.set ChIdx
               { ch with Pos := { Idx := p, StartChronoMs := u32 (env.millis s.clock) } } }) ∨
    (0 ≤ p ∧ ch.Pos.Idx = p ∧
      u32 ((u32 (env.millis s.clock) : Int) - ch.Pos.StartChronoMs) < pulseCheckMs ch ∧
      s1 = { s with clock := s.clock + 1 }) ∨
    (0 ≤ p ∧ ch.Pos.Idx = p ∧
      pulseCheckMs ch ≤ u32 ((u32 (env.millis s.clock) : Int) - ch.Pos.StartChronoMs) ∧
      ∃ r ch1, ExecuteSequence env
          { s with clock := s.clock + 1
                   trace := s.trace ++ [Event.trigger ChIdx (u8 p) (u32 (env.millis s.clock))] }
          ChIdx (u8 p) = some r ∧ r.1.RcChannel[ChIdx]? = some ch1 ∧
        s1 = { r.1 with RcChannel := r.1.RcChannel.set ChIdx (clearPos ch1) }) := by
  unfold debounce at h
  split at h
  · rename_i hp
    split at h
    · rename_i hne
      cases h
      exact Or.inr (Or.inl ⟨hp, hne, rfl⟩)
    · rename_i heq
      simp only [ne_eq, not_not] at heq
      simp only [] at h
      split at h
      · rename_i hthr
        split at h
        · exact absurd h (by simp)
        · rename_i r hr
          split at h
          · exact absurd h (by simp)
          · rename_i ch1 hch1
            cases h
            exact Or.inr (Or.inr (Or.inr ⟨hp, heq, hthr, r, ch1, hr, hch1, rfl⟩))
      · rename_i hthr
        cases h
        exact Or.inr (Or.inr (Or.inl ⟨hp, heq, by
          have : ¬ pulseCheckMs ch ≤
            u32 ((u32 (env.millis s.clock) : Int) - ch.Pos.StartChronoMs) := hthr
          omega, rfl⟩))
  · rename_i hp
    cases h
    exact Or.inl ⟨by omega, rfl⟩

theorem triggerTimes_append (c : Nat) (a b : List Event) :
    triggerTimes c (a ++ b) = triggerTimes c a ++ triggerTimes c b := by
  induction a with
  | nil => rfl
  | cons e es ih =>
    cases e with
    | trigger ChIdx CmdPos atMs =>
      by_cases hc : ChIdx = c
      · simp [triggerTimes, hc, ih]
      · simp [triggerTimes, hc, ih]
    | _ => simpa [triggerTimes] using ih

theorem triggerTimes_quiet (c : Nat) (evs : List Event)
    (h : ∀ e ∈ evs, Event.isTrigger e = false) : triggerTimes c evs = [] := by
  induction evs with
  | nil => rfl
  | cons e es ih =>
    have he := h e (List.mem_cons_self _ _)
    have hes := ih (fun x hx => h x (List.mem_cons_of_mem _ hx))
    cases e <;> simp_all [triggerTimes, Event.isTrigger]

/-- A monotone clock, given step by step, is monotone. -/
theorem clock_mono (env : Env) (hmono : ∀ k, env.millis k ≤ env.millis (k + 1)) (a b : Nat)
    (h : a ≤ b) : env.millis a ≤ env.millis b := by
  induction b with
  | zero =>
    have : a = 0 := by omega
    rw [this]
  | succ n ih =>
    rcases Nat.lt_or_ge a (n + 1) with h1 | h1
    · exact le_trans (ih (by omega)) (hmono n)
    · have : a = n + 1 := by omega
      rw [this]

theorem QuietFor_refl (c : Nat) (s : State) : QuietFor c s s :=
  ⟨rfl, le_refl _, [], by simp, rfl⟩

theorem QuietFor_trans {c : Nat} {s s1 s2 : State} (h1 : QuietFor c s s1)
    (h2 : QuietFor c s1 s2) : QuietFor c s s2 := by
  obtain ⟨a1, c1, e1, he1, hq1⟩ := h1
  obtain ⟨a2, c2, e2, he2, hq2⟩ := h2
  refine ⟨by rw [a2, a1], le_trans c1 c2, e1 ++ e2, ?_, ?_⟩
  · rw [he2, he1, List.append_assoc]
  · rw [triggerTimes_append, hq1, hq2]; rfl

theorem Quiet_quietFor {s s1 : State} (c : Nat) (h : Quiet s s1) : QuietFor c s s1 := by
  obtain ⟨a, _, cl, evs, he, hq⟩ := h
  exact ⟨by rw [a], cl, evs, he, triggerTimes_quiet c evs hq⟩

/-- The hold invariant of channel `c` survives every step that leaves the
channel alone, under a monotone clock. -/
theorem HoldReached_quietFor {env : Env} {c thr : Nat} {s0 s s1 : State}
    (hmono : ∀ k, env.millis k ≤ env.millis (k + 1))
    (h : HoldReached env c thr s0 s) (q : QuietFor c s s1) : HoldReached env c thr s0 s1 := by
  obtain ⟨evs, htr, hchan, hpast, hheld, hapart⟩ := h
  obtain ⟨qa, qc, evs1, qe, qt⟩ := q
  have hm := clock_mono env hmono _ _ qc
  refine ⟨evs ++ evs1, by rw [qe, htr, List.append_assoc], ?_, ?_, ?_, ?_⟩
  · rw [qa]; exact hchan
  · rw [triggerTimes_append, qt, List.append_nil]
    intro t ht
    exact le_trans (hpast t ht) hm
  · rw [triggerTimes_append, qt, List.append_nil, qa]
    intro ch hch hp t ht
    have := hheld ch hch hp t ht
    exact ⟨this.1, le_trans this.2 hm⟩
  · rw [triggerTimes_append, qt, List.append_nil]
    exact hapart

/-- The acquisition step of a channel leaves every other channel alone. -/
theorem acquireChannel_quietFor (env : Env) (fuel : Nat) (s s1 : State) (c1 c : Nat)
    (pulse : Option Nat) (hne : c1 ≠ c) (h : acquireChannel env fuel s c1 pulse = some s1) :
    QuietFor c s s1 := by
  unfold acquireChannel at h
  split at h
  · exact absurd h (by simp)
  · rename_i ch hch
    split at h
    · cases h; exact QuietFor_refl c s
    · split at h
      · exact absurd h (by simp)
      · rename_i p hp
        rcases debounce_cases env s s1 c1 ch p h with
          ⟨_, h1⟩ | ⟨_, _, h1⟩ | ⟨_, _, _, h1⟩ | ⟨_, _, _, r, ch1, hr, _, h1⟩
        · rw [h1]
          exact ⟨List.getElem?_set_ne hne, le_refl _, [], by simp, rfl⟩
        · rw [h1]
          exact ⟨List.getElem?_set_ne hne, Nat.le_succ _, [], by simp, rfl⟩
        · rw [h1]
          exact ⟨rfl, Nat.le_succ _, [], by simp, rfl⟩
        · rw [h1]
          have q1 : QuietFor c s { s with
              clock := s.clock + 1
              trace := s.trace ++ [Event.trigger c1 (u8 p) (u32 (env.millis s.clock))] } :=
            ⟨rfl, Nat.le_succ _, [_], rfl, by simp [triggerTimes, hne]⟩
          have q2 := Quiet_quietFor c (ExecuteSequence_quiet env _ c1 (u8 p) r hr)
          refine QuietFor_trans q1 (QuietFor_trans q2 ?_)
          exact ⟨List.getElem?_set_ne hne, le_refl _, [], by simp, rfl⟩

theorem clearPos_idx (ch : RcCmdSt_t) : (clearPos ch).Pos.Idx = -1 := rfl

/-- The hold invariant of channel `c` survives the acquisition step of `c`,
under a monotone clock that does not wrap. -/
theorem HoldReached_acquire {env : Env} {c thr : Nat} {s0 s s1 : State} (fuel : Nat)
    (pulse : Option Nat) (hmono : ∀ k, env.millis k ≤ env.millis (k + 1))
    (hbound : ∀ k, env.millis k < 4294967296)
    (h : HoldReached env c thr s0 s) (ha : acquireChannel env fuel s c pulse = some s1) :
    HoldReached env c thr s0 s1 := by
  obtain ⟨evs, htr, ⟨ch0, hch0, hthr0⟩, hpast, hheld, hapart⟩ := h
  have hlt : c < s.RcChannel.length := (List.getElem?_eq_some_iff.mp hch0).1
  have hnow : u32 (env.millis s.clock) = env.millis s.clock := u32_natCast _ (hbound _)
  have hstep := hmono s.clock
  unfold acquireChannel at ha
  rw [hch0] at ha
  simp only [] at ha
  split at ha
  · cases ha
    exact ⟨evs, htr, ⟨ch0, hch0, hthr0⟩, hpast, hheld, hapart⟩
  · split at ha
    · exact absurd ha (by simp)
    · rename_i p hp
      rcases debounce_cases env s s1 c ch0 p ha with
        ⟨_, h1⟩ | ⟨_, _, h1⟩ | ⟨hp0, hpe, _, h1⟩ | ⟨hp0, hpe, hel, r, ch1, hr, hch1, h1⟩
      · subst h1
        refine ⟨evs, htr, ⟨clearPos ch0, List.getElem?_set_self hlt, hthr0⟩, hpast, ?_, hapart⟩
        intro ch hch hpos
        simp only [List.getElem?_set_self hlt, Option.some.injEq] at hch
        rw [← hch, clearPos_idx] at hpos
        omega
      · subst h1
        refine ⟨evs, htr, ⟨_, List.getElem?_set_self hlt, hthr0⟩, ?_, ?_, hapart⟩
        · intro t ht
          exact le_trans (hpast t ht) hstep
        · intro ch hch _ t ht
          simp only [List.getElem?_set_self hlt, Option.some.injEq] at hch
          rw [← hch]
          simp only [hnow]
          exact ⟨hpast t ht, hstep⟩
      · subst h1
        refine ⟨evs, htr, ⟨ch0, hch0, hthr0⟩, ?_, ?_, hapart⟩
        · intro t ht
          exact le_trans (hpast t ht) hstep
        · intro ch hch hpos t ht
          have := hheld ch hch hpos t ht
          exact ⟨this.1, le_trans this.2 hstep⟩
      · subst h1
        obtain ⟨qa, _, qc, evs1, qe, qt⟩ := ExecuteSequence_quiet env _ c (u8 p) r hr
        have hlt1 : c < r.1.RcChannel.length := (List.getElem?_eq_some_iff.mp hch1).1
        have hch1' : ch1 = ch0 := by
          rw [qa] at hch1
          simp only [hch0, Option.some.injEq] at hch1
          exact hch1.symm
        have hm : env.millis (s.clock + 1) ≤ env.millis r.1.clock := clock_mono env hmono _ _ qc
        have htt : triggerTimes c
            (evs ++ ([Event.trigger c (u8 p) (u32 (env.millis s.clock))] ++ evs1)) =
            triggerTimes c evs ++ [env.millis s.clock] := by
          rw [triggerTimes_append, triggerTimes_append, triggerTimes_quiet c evs1 qt, hnow]
          simp [triggerTimes]
        refine ⟨evs ++ ([Event.trigger c (u8 p) (u32 (env.millis s.clock))] ++ evs1), ?_,
          ⟨clearPos ch1, List.getElem?_set_self hlt1, by rw [hch1']; exact hthr0⟩, ?_, ?_, ?_⟩
        · simp only [qe, htr, List.append_assoc]
        · rw [htt]
          intro t ht
          rcases List.mem_append.mp ht with h2 | h2
          · exact le_trans (hpast t h2) (le_trans hstep hm)
          · simp only [List.mem_singleton] at h2
            rw [h2]
            exact le_trans hstep hm
        · intro ch hch hpos
          simp only [List.getElem?_set_self hlt1, Option.some.injEq] at hch
          rw [← hch, clearPos_idx] at hpos
          omega
        · rw [htt, List.pairwise_append]
          refine ⟨hapart, List.pairwise_singleton _ _, ?_⟩
          intro a ha' b hb
          simp only [List.mem_singleton] at hb
          subst hb
          have hh := hheld ch0 hch0 (by omega) a ha'
          rw [hnow, hthr0] at hel
          have hsub : u32 ((env.millis s.clock : Int) - ch0.Pos.StartChronoMs) =
              env.millis s.clock - ch0.Pos.StartChronoMs := by
            have hb2 := hbound s.clock
            rw [u32_of_range _ (by omega) (by omega)]
            omega
          rw [hsub] at hel
          omega

theorem HoldReached_acquireFrom {env : Env} {c thr : Nat} {s0 : State} (fuel : Nat)
    (pulses : Nat → Option Nat) (hmono : ∀ k, env.millis k ≤ env.millis (k + 1))
    (hbound : ∀ k, env.millis k < 4294967296) :
    ∀ (n ChIdx : Nat) (s s1 : State), HoldReached env c thr s0 s →
      RcSeq.acquireFrom env fuel pulses n ChIdx s = some s1 → HoldReached env c thr s0 s1 := by
  intro n
  induction n with
  | zero => intro ChIdx s s1 h ha; rw [RcSeq.acquireFrom] at ha; cases ha; exact h
  | succ n ih =>
    intro ChIdx s s1 h ha
    rw [RcSeq.acquireFrom] at ha
    split at ha
    · exact absurd ha (by simp)
    · rename_i s2 h2
      refine ih (ChIdx + 1) s2 s1 ?_ ha
      by_cases hc : ChIdx = c
      · subst hc
        exact HoldReached_acquire fuel _ hmono hbound h h2
      · exact HoldReached_quietFor hmono h (acquireChannel_quietFor env fuel s s2 ChIdx c _ hc h2)

theorem HoldReached_refresh {env : Env} {c thr : Nat} {s0 s s1 : State} (fuel : Nat)
    (pulses : Nat → Option Nat) (hmono : ∀ k, env.millis k ≤ env.millis (k + 1))
    (hbound : ∀ k, env.millis k < 4294967296) (h : HoldReached env c thr s0 s)
    (hr : RcSeq_Refresh env fuel pulses s = some s1) : HoldReached env c thr s0 s1 := by
  unfold RcSeq_Refresh at hr
  split at hr
  · exact absurd hr (by simp)
  · rename_i s2 h2
    have h3 := HoldReached_acquireFrom fuel pulses hmono hbound _ _ _ _
      (HoldReached_quietFor hmono h (Quiet_quietFor c (refreshStatics_quiet env s))) h2
    exact HoldReached_quietFor hmono h3 (Quiet_quietFor c (refreshEngine_quiet env s2 s1 hr))

theorem HoldReached_refreshRun {env : Env} {c thr : Nat} {s0 : State} (fuel : Nat)
    (hmono : ∀ k, env.millis k ≤ env.millis (k + 1))
    (hbound : ∀ k, env.millis k < 4294967296) :
    ∀ (inputs : List (Nat → Option Nat)) (s s1 : State), HoldReached env c thr s0 s →
      RcSeq.refreshRun env fuel inputs s = some s1 → HoldReached env c thr s0 s1 := by
  intro inputs
  induction inputs with
  | nil => intro s s1 h hr; rw [RcSeq.refreshRun] at hr; cases hr; exact h
  | cons p ps ih =>
    intro s s1 h hr
    rw [RcSeq.refreshRun] at hr
    split at hr
    · exact absurd hr (by simp)
    · rename_i s2 h2
      exact ih s2 s1 (HoldReached_refresh fuel p hmono hbound h h2) hr

theorem HoldReached_start (env : Env) (c : Nat) (s : State) (ch : RcCmdSt_t)
    (hch : s.RcChannel[c]? = some ch) : HoldReached env c (pulseCheckMs ch) s s :=
  ⟨[], by simp, ⟨ch, hch, rfl⟩, by simp [triggerTimes], by simp [triggerTimes],
    by simp [triggerTimes]⟩

theorem newEvents_self (s : State) : newEvents s s = [] := by
  unfold newEvents; simp

/-- C5: immediately after the debounce step fires a trigger for a channel, the
held position of that channel is `NO_POS`; from a held position `NO_POS` the
next fresh pulse fires no trigger and can only record the decoded position with
the current time (or leave `NO_POS`); and with a monotone clock that does not
wrap, over any series of `RcSeq_Refresh` calls the triggers fired for one
channel are pairwise separated by at least its threshold, 150 ms for a stick
and 50 ms otherwise. -/
theorem debounce_rearm (env : Env) (fuel : Nat) (s : State) (ChIdx : Nat) (ch : RcCmdSt_t)
    (hch : s.RcChannel[ChIdx]? = some ch) :
    (∀ pulse s1, acquireChannel env fuel s ChIdx pulse = some s1 →
      (newEvents s s1).filter Event.isTrigger ≠ [] →
      ∃ ch1, s1.RcChannel[ChIdx]? = some ch1 ∧ ch1.Pos.Idx = i8 NO_POS) ∧
    (ch.Pos.Idx = i8 NO_POS → ∀ w s1, acquireChannel env fuel s ChIdx (some w) = some s1 →
      (newEvents s s1).filter Event.isTrigger = [] ∧
      ∃ p, GetPos fuel s ChIdx (u16 w) = some p ∧
        s1 = (if 0 ≤ p then
                { s with
                  clock := s.clock + 1
                  RcChannel := s.RcChannel.set ChIdx
                    { ch with Pos := { Idx := p, StartChronoMs := u32 (env.millis s.clock) } } }
              else { s with RcChannel := s.RcChannel.set ChIdx (clearPos ch) })) ∧
    ((∀ k, env.millis k ≤ env.millis (k + 1)) → (∀ k, env.millis k < 4294967296) →
      ∀ inputs s1, refreshRun env fuel inputs s = some s1 →
        (triggerTimes ChIdx (newEvents s s1)).Pairwise
          (fun t1 t2 => t1 + pulseCheckMs ch ≤ t2)) ∧
    pulseCheckMs ch = (if ch.Type_ = RC_CMD_STICK then 150 else 50) := by
  have hlt : ChIdx < s.RcChannel.length := (List.getElem?_eq_some_iff.mp hch).1
  refine ⟨?_, ?_, ?_, by unfold pulseCheckMs STICK_PULSE_CHECK_MS KBD_PULSE_CHECK_MS; rfl⟩
  · intro pulse s1 ha hfired
    unfold acquireChannel at ha
    rw [hch] at ha
    simp only [] at ha
    split at ha
    · cases ha
      rw [newEvents_self] at hfired
      exact absurd rfl hfired
    · split at ha
      · exact absurd ha (by simp)
      · rename_i p hp
        rcases debounce_cases env s s1 ChIdx ch p ha with
          ⟨_, h1⟩ | ⟨_, _, h1⟩ | ⟨_, _, _, h1⟩ | ⟨_, _, _, r, ch1, hr, hch1, h1⟩
        · subst h1
          rw [newEvents_append s _ [] (by simp)] at hfired
          exact absurd rfl hfired
        · subst h1
          rw [newEvents_append s _ [] (by simp)] at hfired
          exact absurd rfl hfired
        · subst h1
          rw [newEvents_append s _ [] (by simp)] at hfired
          exact absurd rfl hfired
        · subst h1
          have hlt1 : ChIdx < r.1.RcChannel.length := (List.getElem?_eq_some_iff.mp hch1).1
          exact ⟨clearPos ch1, List.getElem?_set_self hlt1, rfl⟩
  · intro hidle w s1 ha
    unfold acquireChannel at ha
    rw [hch] at ha
    simp only [] at ha
    split at ha
    · exact absurd ha (by simp)
    · rename_i p hp
      have hidle' : ch.Pos.Idx = -1 := hidle
      rcases debounce_cases env s s1 ChIdx ch p ha with
        ⟨h0, h1⟩ | ⟨h0, _, h1⟩ | ⟨h0, he, _, _⟩ | ⟨h0, he, _, _⟩
      · subst h1
        refine ⟨by rw [newEvents_append s _ [] (by simp)]; rfl, p, hp, ?_⟩
        rw [if_neg (by omega)]
      · subst h1
        refine ⟨by rw [newEvents_append s _ [] (by simp)]; rfl, p, hp, ?_⟩
        rw [if_pos h0]
      · omega
      · omega
  · intro hmono hbound inputs s1 hrun
    obtain ⟨evs, htr, hinv⟩ := HoldReached_refreshRun fuel hmono hbound inputs s s1
      (HoldReached_start env ChIdx s ch hch) hrun
    rw [newEvents_append s s1 evs htr]
    exact hinv.apart

theorem demoEnv_mono : ∀ k, demoEnv.millis k ≤ demoEnv.millis (k + 1) := by
  intro k
  show min (1000 + 100 * k) 4000000000 ≤ min (1000 + 100 * (k + 1)) 4000000000
  omega

theorem demoEnv_bound : ∀ k, demoEnv.millis k < 4294967296 := by
  intro k
  show min (1000 + 100 * k) 4000000000 < 4294967296
  omega

/-- The three calls of the example run have a result. -/
theorem demoRun_isSome :
    (refreshRun demoEnv 5 [pulse1300, pulse1300, pulse1300] heldState).isSome = true := by
  decide

/-- Witness of C5: a stick that has held position 1 since 800 ms is fed the
pulse 1300 us in three calls of `RcSeq_Refresh`; the trigger fires at 1000 ms,
the second call only records the position again, and the trigger fires again
at 1600 ms. -/
theorem debounce_rearm_witness :
    ∃ s1, refreshRun demoEnv 5 [pulse1300, pulse1300, pulse1300] heldState = some s1 ∧
      triggerTimes 0 (newEvents heldState s1) = [1000, 1600] ∧
      (triggerTimes 0 (newEvents heldState s1)).Pairwise
        (fun t1 t2 => t1 + pulseCheckMs heldStick ≤ t2) :=
  ⟨(refreshRun demoEnv 5 [pulse1300, pulse1300, pulse1300] heldState).get demoRun_isSome,
    (Option.some_get _).symm, by decide,
    (debounce_rearm demoEnv 5 heldState 0 heldStick rfl).2.2.1 demoEnv_mono demoEnv_bound
      [pulse1300, pulse1300, pulse1300] _ (Option.some_get _).symm⟩

/-! ## Interpolation of a servo motion -/

/-- The truncating quotient of the motion update, for angles of 8 bits: the end
angle minus the truncated share of the way still to go is a natural number,
below the end angle on the way up and above it on the way down. -/
theorem interp_tdiv (r S E N : Nat) (hN : 1 ≤ N) (hr : r ≤ N) :
    (E : Int) - Int.tdiv ((r : Int) * ((E : Int) - S)) (N : Int) =
      ((if S ≤ E then E - (r * (E - S)) / N else E + (r * (S - E)) / N : Nat) : Int) := by
  by_cases hSE : S ≤ E
  · rw [if_pos hSE]
    have hq : (r * (E - S)) / N ≤ E - S := Nat.div_le_of_le_mul (Nat.mul_le_mul_right _ hr)
    have e1 : (r : Int) * ((E : Int) - S) = ((r * (E - S) : Nat) : Int) := by
      push_cast [Nat.cast_sub hSE]; ring
    rw [e1, Int.tdiv_eq_ediv (by omega) (by omega), ← Int.natCast_div]
    generalize (r * (E - S)) / N = q at hq ⊢
    omega
  · rw [if_neg hSE]
    have hES : E ≤ S := by omega
    have hq : (r * (S - E)) / N ≤ S - E := Nat.div_le_of_le_mul (Nat.mul_le_mul_right _ hr)
    have e1 : (r : Int) * ((E : Int) - S) = -((r * (S - E) : Nat) : Int) := by
      push_cast [Nat.cast_sub hES]; ring
    rw [e1, Int.neg_tdiv, Int.tdiv_eq_ediv (by omega) (by omega), ← Int.natCast_div]
    generalize (r * (S - E)) / N = q at hq ⊢
    omega

/-- The position written by the motion update, for a duration below 2^31 ms. -/
theorem motionPos_eq (r S E D : Nat) (hS : S ≤ 255) (hE : E ≤ 255) (hD : 20 ≤ D)
    (hD31 : D < 2147483648) (hr : r ≤ D / 20) :
    motionPos r S E D =
      some (if S ≤ E then E - (r * (E - S)) / (D / 20) else E + (r * (S - E)) / (D / 20)) := by
  have hN : 1 ≤ D / 20 := by omega
  have hi : i32 (D : Int) = D := i32_of_range _ (by omega) (by omega)
  have hdiv : Int.tdiv (D : Int) (REFRESH_INTERVAL_MS : Int) = ((D / 20 : Nat) : Int) := by
    rw [Int.tdiv_eq_ediv (by omega) (by unfold REFRESH_INTERVAL_MS; omega)]
    unfold REFRESH_INTERVAL_MS
    push_cast
    rfl
  have hb : (if S ≤ E then E - (r * (E - S)) / (D / 20) else E + (r * (S - E)) / (D / 20))
      < 4294967296 := by
    have h1 : (r * (E - S)) / (D / 20) ≤ E - S :=
      Nat.div_le_of_le_mul (Nat.mul_le_mul_right _ hr)
    have h2 : (r * (S - E)) / (D / 20) ≤ S - E :=
      Nat.div_le_of_le_mul (Nat.mul_le_mul_right _ hr)
    generalize (r * (E - S)) / (D / 20) = q1 at h1 ⊢
    generalize (r * (S - E)) / (D / 20) = q2 at h2 ⊢
    split <;> omega
  unfold motionPos
  rw [hi]
  rw [hdiv]
  have hne : ¬ (((D / 20 : Nat) : Int) = 0) := by omega
  split
  · rename_i h; exact absurd h hne
  refine congrArg some ?_
  rw [interp_tdiv r S E (D / 20) hN hr]
  exact u32_natCast _ hb

/-- The share of the way still to go is exact at both ends and grows with the
number of refreshes left. -/
theorem interp_share (r d N : Nat) (hN : 1 ≤ N) (hr : r ≤ N) :
    (N * d) / N = d ∧ (0 * d) / N = 0 ∧ (r * d) / N ≤ d ∧
      ∀ r1, r1 ≤ r → (r1 * d) / N ≤ (r * d) / N := by
  refine ⟨Nat.mul_div_cancel_left d (by omega), by simp,
    Nat.div_le_of_le_mul (Nat.mul_le_mul_right _ hr), fun r1 h1 => ?_⟩
  exact Nat.div_le_div_right (Nat.mul_le_mul_right _ h1)

/-- The counter loaded for a motion of `D >= 20` ms with `D / 20 <= 65535` is
`D / 20`, and the position computed with `D / 20 - k` refreshes left is
`E - ((N-k)*(E-S)) / N`: it is `S` at `k = 0`, `E` at `k = N`, lies between `S`
and `E`, and moves towards `E` as `k` grows. -/
theorem interp_positions (S E D : Nat) (hS : S ≤ 255) (hE : E ≤ 255) (hD : 20 ≤ D)
    (hN : D / 20 ≤ 65535) (k : Nat) (hk : k ≤ D / 20) :
    u16 (REFRESH_NB (u32 D)) = D / 20 ∧
    ∃ p : Nat, motionPos (D / 20 - k) S E D = some p ∧
      (p : Int) = (E : Int) -
        Int.tdiv (((D / 20 - k : Nat) : Int) * ((E : Int) - S)) ((D / 20 : Nat) : Int) ∧
      (k = 0 → p = S) ∧ (k = D / 20 → p = E) ∧
      (S ≤ E → S ≤ p ∧ p ≤ E) ∧ (E ≤ S → E ≤ p ∧ p ≤ S) ∧
      (k < D / 20 → ∃ q : Nat, motionPos (D / 20 - (k + 1)) S E D = some q ∧
        (S ≤ E → p ≤ q) ∧ (E ≤ S → q ≤ p)) := by
  have hD31 : D < 2147483648 := by omega
  have h1 : 1 ≤ D / 20 := by omega
  refine ⟨?_, _, motionPos_eq (D / 20 - k) S E D hS hE hD hD31 (Nat.sub_le _ _),
    (interp_tdiv (D / 20 - k) S E (D / 20) h1 (Nat.sub_le _ _)).symm, ?_, ?_, ?_, ?_, ?_⟩
  · unfold REFRESH_NB REFRESH_INTERVAL_MS
    rw [u32_natCast _ (by omega), u16_natCast _ (by omega)]
  · intro h0
    subst h0
    rw [Nat.sub_zero]
    obtain ⟨e1, _, _, _⟩ := interp_share (D / 20) (E - S) (D / 20) h1 (le_refl _)
    obtain ⟨e2, _, _, _⟩ := interp_share (D / 20) (S - E) (D / 20) h1 (le_refl _)
    rw [e1, e2]
    split <;> omega
  · intro hkN
    rw [hkN, Nat.sub_self]
    simp
  · intro hSE
    rw [if_pos hSE]
    obtain ⟨_, _, e3, _⟩ := interp_share (D / 20 - k) (E - S) (D / 20) h1 (Nat.sub_le _ _)
    generalize ((D / 20 - k) * (E - S)) / (D / 20) = q at e3 ⊢
    omega
  · intro hES
    obtain ⟨_, _, e3, _⟩ := interp_share (D / 20 - k) (S - E) (D / 20) h1 (Nat.sub_le _ _)
    by_cases hSE : S ≤ E
    · have : S = E := by omega
      subst this
      simp
    · rw [if_neg hSE]
      generalize ((D / 20 - k) * (S - E)) / (D / 20) = q at e3 ⊢
      omega
  · intro hlt
    refine ⟨_, motionPos_eq (D / 20 - (k + 1)) S E D hS hE hD hD31 (Nat.sub_le _ _), ?_, ?_⟩
    · intro hSE
      rw [if_pos hSE, if_pos hSE]
      obtain ⟨_, _, e3, e4⟩ := interp_share (D / 20 - k) (E - S) (D / 20) h1 (Nat.sub_le _ _)
      have e5 := e4 (D / 20 - (k + 1)) (by omega)
      generalize ((D / 20 - k) * (E - S)) / (D / 20) = q at e3 e5 ⊢
      generalize ((D / 20 - (k + 1)) * (E - S)) / (D / 20) = q1 at e5 ⊢
      omega
    · intro hES
      by_cases hSE : S ≤ E
      · have : S = E := by omega
        subst this
        simp
      · rw [if_neg hSE, if_neg hSE]
        obtain ⟨_, _, e3, e4⟩ := interp_share (D / 20 - k) (S - E) (D / 20) h1 (Nat.sub_le _ _)
        have e5 := e4 (D / 20 - (k + 1)) (by omega)
        generalize ((D / 20 - k) * (S - E)) / (D / 20) = q at e3 e5 ⊢
        generalize ((D / 20 - (k + 1)) * (S - E)) / (D / 20) = q1 at e5 ⊢
        omega

/-- C10 (amended): for a motion line with start angle `S`, end angle `E` (each
in 0..255) and duration `D >= 20` ms whose number of refreshes `N = D / 20` fits
the 16-bit counter of the servo (`N <= 65535`), the counter loaded is `N`, and
the position `p_k` computed with `N - k` refreshes left is
`E - ((N-k)*(E-S)) / N` (truncating division), with `p_0 = S` and `p_N = E`;
every `p_k` lies between `S` and `E` inclusive and the sequence is monotone:
non-decreasing when `S <= E`, non-increasing when `S >= E`. -/
theorem motion_monotone (S E D : Nat) (hS : S ≤ 255) (hE : E ≤ 255) (hD : 20 ≤ D)
    (hN : D / 20 ≤ 65535) (k : Nat) (hk : k ≤ D / 20) :
    u16 (REFRESH_NB (u32 D)) = D / 20 ∧
    ∃ p : Nat, motionPos (D / 20 - k) S E D = some p ∧
      (p : Int) = (E : Int) -
        Int.tdiv (((D / 20 - k : Nat) : Int) * ((E : Int) - S)) ((D / 20 : Nat) : Int) ∧
      (k = 0 → p = S) ∧ (k = D / 20 → p = E) ∧
      (S ≤ E → S ≤ p ∧ p ≤ E) ∧ (E ≤ S → E ≤ p ∧ p ≤ S) ∧
      (k < D / 20 → ∃ q : Nat, motionPos (D / 20 - (k + 1)) S E D = some q ∧
        (S ≤ E → p ≤ q) ∧ (E ≤ S → q ≤ p)) :=
  interp_positions S E D hS hE hD hN k hk

/-- Witness of C10: a motion from 0 to 90 degrees over 500 ms has 25 refreshes;
the position with 15 refreshes left lies between 0 and 90 and does not exceed
the next one. -/
theorem motion_monotone_witness :
    u16 (REFRESH_NB (u32 500)) = 500 / 20 ∧
    ∃ p : Nat, motionPos (500 / 20 - 10) 0 90 500 = some p ∧
      (p : Int) = ((90 : Nat) : Int) -
        Int.tdiv (((500 / 20 - 10 : Nat) : Int) * (((90 : Nat) : Int) - (0 : Nat)))
          ((500 / 20 : Nat) : Int) ∧
      (10 = 0 → p = 0) ∧ (10 = 500 / 20 → p = 90) ∧
      (0 ≤ 90 → 0 ≤ p ∧ p ≤ 90) ∧ (90 ≤ 0 → 90 ≤ p ∧ p ≤ 0) ∧
      (10 < 500 / 20 → ∃ q : Nat, motionPos (500 / 20 - (10 + 1)) 0 90 500 = some q ∧
        (0 ≤ 90 → p ≤ q) ∧ (90 ≤ 0 → q ≤ p)) :=
  motion_monotone 0 90 500 (by decide) (by decide) (by decide) (by decide) 10 (by decide)

/-- Counterexample to C10 as stated: for a duration of 4294967276 ms the 16-bit
counter is loaded with 52427 instead of `D / 20 = 214748363`, the divisor of the
update, computed in 32-bit signed arithmetic, is `-1`, and with start angle 0
and end angle 1 the first update writes 52427, which is not between 0 and 1. -/
theorem motion_monotone_counterexample :
    4294967276 / 20 = 214748363 ∧ u16 (REFRESH_NB (u32 4294967276)) = 52427 ∧
      motionPos 52426 0 1 4294967276 = some 52427 ∧ ¬ (52427 ≤ 1) := by
  decide

/-! ## One servo motion line -/

theorem servoWrites_append (a : Nat) (x y : List Event) :
    servoWrites a (x ++ y) = servoWrites a x ++ servoWrites a y := by
  induction x with
  | nil => rfl
  | cons e es ih =>
    cases e with
    | servoWrite Idx Angle =>
      by_cases hc : Idx = a
      · simp [servoWrites, hc, ih]
      · simp [servoWrites, hc, ih]
    | _ => simpa [servoWrites] using ih

/-- A motion line whose servo is idle and whose time has come claims the servo. -/
theorem motionLine_claim (env : Env) (s : State) (Idx SeqLine : Nat) (line : SequenceSt_t)
    (sv : ServoSt_t) (b : CmdSequenceSt_t) (hsv : s.Servo[u8 line.ServoIndex]? = some sv)
    (hb : s.CmdSequence[Idx]? = some b) (h0 : sv.RefreshNb = 0)
    (h1 : sv.SeqLineInProgress = NO_SEQ_LINE) (hdue : motionDue s b line = true) :
    motionLine env s Idx SeqLine line = some (motionClaim s SeqLine line) := by
  unfold motionLine
  rw [hsv]
  simp only []
  rw [hb]
  simp only []
  unfold motionLineOn
  rw [if_neg (by omega), if_pos ⟨h0, h1⟩, if_pos hdue]

/-- A motion line whose servo is idle and whose time has not come, or has
passed, leaves the state as it is. -/
theorem motionLine_wait (env : Env) (s : State) (Idx SeqLine : Nat) (line : SequenceSt_t)
    (sv : ServoSt_t) (b : CmdSequenceSt_t) (hsv : s.Servo[u8 line.ServoIndex]? = some sv)
    (hb : s.CmdSequence[Idx]? = some b) (h0 : sv.RefreshNb = 0)
    (h1 : sv.SeqLineInProgress = NO_SEQ_LINE) (hdue : motionDue s b line = false) :
    motionLine env s Idx SeqLine line = some s := by
  unfold motionLine
  rw [hsv]
  simp only []
  rw [hb]
  simp only []
  unfold motionLineOn
  rw [if_neg (by omega), if_pos ⟨h0, h1⟩, if_neg (by rw [hdue]; simp)]

/-- A motion line whose servo is driven by another line index stalls. -/
theorem motionLine_stall (env : Env) (s : State) (Idx SeqLine : Nat) (line : SequenceSt_t)
    (sv : ServoSt_t) (b : CmdSequenceSt_t) (hsv : s.Servo[u8 line.ServoIndex]? = some sv)
    (hb : s.CmdSequence[Idx]? = some b) (h0 : sv.RefreshNb ≠ 0)
    (h1 : SeqLine ≠ sv.SeqLineInProgress) :
    motionLine env s Idx SeqLine line = some s := by
  unfold motionLine
  rw [hsv]
  simp only []
  rw [hb]
  simp only []
  unfold motionLineOn
  rw [if_pos ⟨h0, h1⟩]

/-- A motion line that drives its servo with `r + 1` refreshes left updates the
position with `r` refreshes left. -/
theorem motionLine_advance (env : Env) (s : State) (Idx SeqLine : Nat) (line : SequenceSt_t)
    (sv : ServoSt_t) (b : CmdSequenceSt_t) (r Pos : Nat)
    (hsv : s.Servo[u8 line.ServoIndex]? = some sv) (hb : s.CmdSequence[Idx]? = some b)
    (h0 : sv.RefreshNb = r + 1) (h1 : sv.SeqLineInProgress = SeqLine)
    (hp : motionPos r (u8 line.StartInDegrees) (u8 line.EndInDegrees)
      (u32 line.MotionDurationMs) = some Pos) :
    motionLine env s Idx SeqLine line =
      some (motionAdvance env s Idx SeqLine line sv b r Pos) := by
  unfold motionLine
  rw [hsv]
  simp only []
  rw [hb]
  simp only []
  unfold motionLineOn
  rw [if_neg (by omega), if_neg (by omega)]
  have hr : (if sv.RefreshNb ≠ 0 then sv.RefreshNb - 1 else sv.RefreshNb) = r := by
    rw [if_pos (by omega)]; omega
  rw [hr, hp]

/-- The claim of a servo writes the start angle once and loads the counter. -/
theorem motionClaim_effect (s : State) (SeqLine : Nat) (line : SequenceSt_t)
    (hlt : u8 line.ServoIndex < s.Servo.length) :
    servoWrites (u8 line.ServoIndex) (newEvents s (motionClaim s SeqLine line)) =
      [u8 line.StartInDegrees] ∧
    (motionClaim s SeqLine line).Servo[u8 line.ServoIndex]? =
      some { RefreshNb := u16 (REFRESH_NB (u32 line.MotionDurationMs)),
             SeqLineInProgress := u8 SeqLine } ∧
    (motionClaim s SeqLine line).CmdSequence = s.CmdSequence := by
  refine ⟨?_, ?_, rfl⟩
  · rw [newEvents_append s _ [Event.servoWrite (u8 line.ServoIndex) (u8 line.StartInDegrees)] rfl]
    simp [servoWrites]
  · exact List.getElem?_set_self hlt

/-- The end of a run appends no servo write and leaves the servos alone. -/
theorem motionEndOfSeq_effect (env : Env) (s : State) (Idx : Nat) (b : CmdSequenceSt_t)
    (a : Nat) :
    servoWrites a (newEvents s (motionEndOfSeq env s Idx b)) = [] ∧
    (motionEndOfSeq env s Idx b).Servo = s.Servo ∧
    (motionEndOfSeq env s Idx b).CmdSequence =
      s.CmdSequence.set Idx { b with InProgress := 0, ShortActionMap := 0 } := by
  unfold motionEndOfSeq
  by_cases hc : b.Control ≠ 0
  · rw [if_pos hc]
    refine ⟨?_, rfl, rfl⟩
    rw [newEvents_append s _ [Event.control b.Control env.RC_SEQ_END_OF_SEQ Idx] rfl]
    rfl
  · rw [if_neg hc]
    refine ⟨?_, rfl, rfl⟩
    rw [newEvents_append s _ [] (by simp)]
    rfl

/-- The update of a motion writes the position once; at count 0 it releases the
servo, otherwise it stores the count. -/
theorem motionAdvance_effect (env : Env) (s : State) (Idx SeqLine : Nat) (line : SequenceSt_t)
    (sv : ServoSt_t) (b : CmdSequenceSt_t) (r Pos : Nat)
    (hlt : u8 line.ServoIndex < s.Servo.length) :
    servoWrites (u8 line.ServoIndex)
      (newEvents s (motionAdvance env s Idx SeqLine line sv b r Pos)) = [Pos] ∧
    (motionAdvance env s Idx SeqLine line sv b r Pos).Servo[u8 line.ServoIndex]? =
      some (if r = 0 then { RefreshNb := 0, SeqLineInProgress := NO_SEQ_LINE }
            else { sv with RefreshNb := r }) := by
  have hw : ∀ x : ServoSt_t, newEvents s
      { emit s (Event.servoWrite (u8 line.ServoIndex) Pos) with
        Servo := (s.Servo.set (u8 line.ServoIndex) x) } =
      [Event.servoWrite (u8 line.ServoIndex) Pos] := fun x => newEvents_append s _ _ rfl
  unfold motionAdvance
  by_cases h0 : r = 0
  · rw [if_pos h0, if_pos h0]
    by_cases h1 : SeqLine + 1 = b.SequenceLength
    · rw [if_pos h1]
      obtain ⟨e1, e2, _⟩ := motionEndOfSeq_effect env
        { emit s (Event.servoWrite (u8 line.ServoIndex) Pos) with
          Servo := (s.Servo.set (u8 line.ServoIndex)
            { RefreshNb := r, SeqLineInProgress := NO_SEQ_LINE }) } Idx b (u8 line.ServoIndex)
      obtain ⟨_, _, _, evs, he, _⟩ := motionEndOfSeq_quiet env
        { emit s (Event.servoWrite (u8 line.ServoIndex) Pos) with
          Servo := (s.Servo.set (u8 line.ServoIndex)
            { RefreshNb := r, SeqLineInProgress := NO_SEQ_LINE }) } Idx b
      rw [newEvents_append _ _ evs he] at e1
      refine ⟨?_, ?_⟩
      · rw [newEvents_append s _ ([Event.servoWrite (u8 line.ServoIndex) Pos] ++ evs)
          (by rw [he]; simp [emit]), servoWrites_append, e1]
        simp [servoWrites]
      · rw [e2, h0]
        exact List.getElem?_set_self hlt
    · rw [if_neg h1]
      refine ⟨?_, ?_⟩
      · rw [hw]; simp [servoWrites]
      · rw [h0]; exact List.getElem?_set_self hlt
  · rw [if_neg h0, if_neg h0]
    refine ⟨?_, ?_⟩
    · rw [hw]; simp [servoWrites]
    · exact List.getElem?_set_self hlt

/-- One processing of a motion line whose servo state is the one expected at
the `k`-th tick of its motion: idle at `k = 0`, driven by the line with
`N + 1 - k` refreshes left afterwards. -/
theorem motion_tick (env : Env) (Idx SeqLine cnt : Nat) (line : SequenceSt_t) (s : State)
    (b : CmdSequenceSt_t) (k : Nat)
    (hL : SeqLine ≤ 127) (hA : line.ServoIndex < 255) (hS : line.StartInDegrees ≤ 255)
    (hE : line.EndInDegrees ≤ 255) (hD : 20 ≤ line.MotionDurationMs)
    (hN : line.MotionDurationMs / 20 ≤ 65535) (hk : k ≤ line.MotionDurationMs / 20)
    (hb : s.CmdSequence[Idx]? = some b)
    (hdue : k = 0 → motionDue s b line = true)
    (hsv : s.Servo[line.ServoIndex]? =
      some (if k = 0 then { RefreshNb := 0, SeqLineInProgress := NO_SEQ_LINE }
            else { RefreshNb := line.MotionDurationMs / 20 + 1 - k,
                   SeqLineInProgress := SeqLine })) :
    ∃ s1 p, lineStep env s Idx SeqLine cnt line = some s1 ∧
      servoWrites line.ServoIndex (newEvents s s1) = [p] ∧
      (p : Int) = (line.EndInDegrees : Int) -
        Int.tdiv (((line.MotionDurationMs / 20 - k : Nat) : Int) *
          ((line.EndInDegrees : Int) - line.StartInDegrees))
          ((line.MotionDurationMs / 20 : Nat) : Int) ∧
      (k = 0 → p = line.StartInDegrees) ∧
      (k = line.MotionDurationMs / 20 → p = line.EndInDegrees) ∧
      s1.Servo[line.ServoIndex]? =
        some (if k = line.MotionDurationMs / 20 then
                { RefreshNb := 0, SeqLineInProgress := NO_SEQ_LINE }
              else { RefreshNb := line.MotionDurationMs / 20 - k,
                     SeqLineInProgress := SeqLine }) := by
  have ha : u8 line.ServoIndex = line.ServoIndex := u8_natCast _ (by omega)
  have hs : u8 line.StartInDegrees = line.StartInDegrees := u8_natCast _ (by omega)
  have he : u8 line.EndInDegrees = line.EndInDegrees := u8_natCast _ (by omega)
  have hd : u32 line.MotionDurationMs = line.MotionDurationMs := u32_natCast _ (by omega)
  have hl : u8 SeqLine = SeqLine := u8_natCast _ (by omega)
  have hlt : u8 line.ServoIndex < s.Servo.length := by
    rw [ha]; exact (List.getElem?_eq_some_iff.mp hsv).1
  have h1 : 1 ≤ line.MotionDurationMs / 20 := by omega
  obtain ⟨hcnt, p, hp, hpi, hp0, hpN, _⟩ := interp_positions line.StartInDegrees
    line.EndInDegrees line.MotionDurationMs hS hE hD hN k hk
  have hstep : lineStep env s Idx SeqLine cnt line = motionLine env s Idx SeqLine line := by
    unfold lineStep
    rw [if_neg (by rw [ha]; omega)]
  rw [hstep]
  by_cases hk0 : k = 0
  · subst hk0
    rw [if_pos rfl] at hsv
    have hc := motionLine_claim env s Idx SeqLine line _ b (by rw [ha]; exact hsv) hb rfl rfl
      (hdue rfl)
    obtain ⟨e1, e2, _⟩ := motionClaim_effect s SeqLine line hlt
    rw [ha, hs] at e1
    rw [ha, hcnt, hl] at e2
    refine ⟨_, p, hc, by rw [hp0 rfl]; exact e1, hpi, hp0, fun h => by omega, ?_⟩
    · rw [e2, if_neg (by omega), Nat.sub_zero]
  · rw [if_neg hk0] at hsv
    have hc := motionLine_advance env s Idx SeqLine line _ b (line.MotionDurationMs / 20 - k) p
      (by rw [ha]; exact hsv) hb (by show line.MotionDurationMs / 20 + 1 - k = _; omega) rfl
      (by rw [hs, he, hd]; exact hp)
    obtain ⟨e1, e2⟩ := motionAdvance_effect env s Idx SeqLine line
      { RefreshNb := line.MotionDurationMs / 20 + 1 - k, SeqLineInProgress := SeqLine } b
      (line.MotionDurationMs / 20 - k) p hlt
    rw [ha] at e1 e2
    refine ⟨_, p, hc, e1, hpi, fun h => absurd h hk0, hpN, ?_⟩
    rw [e2]
    by_cases hkN : k = line.MotionDurationMs / 20
    · rw [if_pos hkN, if_pos (by omega)]
    · rw [if_neg hkN, if_neg (by omega)]

/-- C9 (amended): for a motion line with start angle `S` and end angle `E`
(each in 0..255) and duration `D >= 20` ms whose number of refreshes
`N = D / 20` fits the 16-bit counter of the servo (`N <= 65535`), processed at
successive engine ticks in the states `st 0, st 1, ...` of an in-progress
binding, with the servo idle and the line due in `st 0` and the servo entry
carried unchanged from the end of each processing to the next one (no other
line or binding touches it): the processing in `st 0` claims the servo and
writes exactly `S`; the `k`-th following one (`1 <= k <= N`) writes
`E - ((N-k)*(E-S)) / N` with truncating division; the `N`-th writes exactly `E`
and releases the servo (`RefreshNb = 0`, `SeqLineInProgress = NO_SEQ_LINE`). -/
theorem motion_positions (env : Env) (Idx SeqLine cnt : Nat) (line : SequenceSt_t)
    (st : Nat → State)
    (hL : SeqLine ≤ 127) (hA : line.ServoIndex < 255) (hS : line.StartInDegrees ≤ 255)
    (hE : line.EndInDegrees ≤ 255) (hD : 20 ≤ line.MotionDurationMs)
    (hN : line.MotionDurationMs / 20 ≤ 65535)
    (hb : ∀ k, k ≤ line.MotionDurationMs / 20 → ∃ b, (st k).CmdSequence[Idx]? = some b)
    (hidle : (st 0).Servo[line.ServoIndex]? =
      some { RefreshNb := 0, SeqLineInProgress := NO_SEQ_LINE })
    (hdue : ∀ b, (st 0).CmdSequence[Idx]? = some b → motionDue (st 0) b line = true)
    (hcarry : ∀ k s1, k < line.MotionDurationMs / 20 →
      lineStep env (st k) Idx SeqLine cnt line = some s1 →
      (st (k + 1)).Servo[line.ServoIndex]? = s1.Servo[line.ServoIndex]?) :
    ∀ k, k ≤ line.MotionDurationMs / 20 →
      ∃ s1 p, lineStep env (st k) Idx SeqLine cnt line = some s1 ∧
        servoWrites line.ServoIndex (newEvents (st k) s1) = [p] ∧
        (p : Int) = (line.EndInDegrees : Int) -
          Int.tdiv (((line.MotionDurationMs / 20 - k : Nat) : Int) *
            ((line.EndInDegrees : Int) - line.StartInDegrees))
            ((line.MotionDurationMs / 20 : Nat) : Int) ∧
        (k = 0 → p = line.StartInDegrees) ∧
        (k = line.MotionDurationMs / 20 → p = line.EndInDegrees) ∧
        s1.Servo[line.ServoIndex]? =
          some (if k = line.MotionDurationMs / 20 then
                  { RefreshNb := 0, SeqLineInProgress := NO_SEQ_LINE }
                else { RefreshNb := line.MotionDurationMs / 20 - k,
                       SeqLineInProgress := SeqLine }) := by
  have hJ : ∀ k, k ≤ line.MotionDurationMs / 20 →
      (st k).Servo[line.ServoIndex]? =
        some (if k = 0 then { RefreshNb := 0, SeqLineInProgress := NO_SEQ_LINE }
              else { RefreshNb := line.MotionDurationMs / 20 + 1 - k,
                     SeqLineInProgress := SeqLine }) := by
    intro k
    induction k with
    | zero => intro _; rw [if_pos rfl]; exact hidle
    | succ n ih =>
      intro hn
      obtain ⟨b, hbn⟩ := hb n (by omega)
      obtain ⟨s1, p, h1, _, _, _, _, h6⟩ := motion_tick env Idx SeqLine cnt line (st n) b n hL hA
        hS hE hD hN (by omega) hbn (fun h0 => by subst h0; exact hdue b hbn) (ih (by omega))
      rw [hcarry n s1 (by omega) h1, h6, if_neg (by omega), if_neg (by omega)]
      congr 2
      omega
  intro k hk
  obtain ⟨b, hbk⟩ := hb k hk
  exact motion_tick env Idx SeqLine cnt line (st k) b k hL hA hS hE hD hN hk hbk
    (fun h0 => by subst h0; exact hdue b hbk) (hJ k hk)

/-- The servo entry after each processing of `shortMotion` is the one of the
next state of `motionStates`. -/
theorem motionStates_carry : ∀ k, k < 2 →
    (lineStep demoEnv (motionStates k) 0 1 0 shortMotion).map (fun s1 => s1.Servo[0]?) =
      some ((motionStates (k + 1)).Servo[0]?) := by
  decide

/-- Witness of C9: a motion from 10 to 50 degrees over 40 ms, 2 refreshes: the
second tick after the claim writes 50 and releases the servo. -/
theorem motion_positions_witness :
    ∃ s1 p, lineStep demoEnv (motionStates 2) 0 1 0 shortMotion = some s1 ∧
      servoWrites 0 (newEvents (motionStates 2) s1) = [p] ∧ p = 50 ∧
      s1.Servo[0]? = some { RefreshNb := 0, SeqLineInProgress := NO_SEQ_LINE } := by
  obtain ⟨s1, p, h1, h2, _, _, h5, h6⟩ := motion_positions demoEnv 0 1 0 shortMotion motionStates
    (by decide) (by decide) (by decide) (by decide) (by decide) (by decide)
    (fun k _ => ⟨demoSequence 1 0, rfl⟩) rfl (fun b hb => by cases hb; decide)
    (fun k s1 hk h => by
      have hc := motionStates_carry k hk
      rw [h] at hc
      exact (Option.some.inj hc).symm)
    2 (by decide)
  exact ⟨s1, p, h1, h2, h5 rfl, h6⟩

/-- Counterexample to C9 as stated: with a duration of 1310720 ms, `N = 65536`
does not fit the 16-bit counter, which is loaded with 0: the tick that claims
the servo writes 0, and the first following tick writes the end angle 255 and
releases the servo, whereas `E - ((N-1)*(E-S)) / N` is 1. -/
theorem motion_positions_counterexample :
    longMotion.MotionDurationMs / 20 = 65536 ∧
    motionDue (motionStates 0) (demoSequence 1 0) longMotion = true ∧
    lineStep demoEnv (motionStates 0) 0 1 0 longMotion =
      some (motionClaim (motionStates 0) 1 longMotion) ∧
    (motionClaim (motionStates 0) 1 longMotion).Servo[0]? =
      some { RefreshNb := 0, SeqLineInProgress := 1 } ∧
    servoWrites 0 (newEvents (motionStates 0) (motionClaim (motionStates 0) 1 longMotion)) = [0] ∧
    (lineStep demoEnv (motionClaim (motionStates 0) 1 longMotion) 0 1 0 longMotion).map
      (fun s2 => (servoWrites 0 (newEvents (motionClaim (motionStates 0) 1 longMotion) s2),
        s2.Servo[0]?)) =
      some ([255], some { RefreshNb := 0, SeqLineInProgress := NO_SEQ_LINE }) ∧
    (255 : Int) - Int.tdiv (((65536 - 1 : Nat) : Int) * ((255 : Int) - 0)) (65536 : Int) = 1 := by
  decide

/-- C16 (the code departs from the claim): the hold check and the tick gate use
the wrapped difference, but whether a line is due is decided by comparing
`NowMs` with the wrapped sum `StartChronoMs + offset`.  With the same wrapped
difference of 150 ms between the run start and now, a run started at 0 has its
short action line and its motion line due at 150, where a run started at
4294967196, 100 ms before the counter wraps, has neither due at 50: the short
action is not called and the servo is not claimed. -/
theorem line_due_wrap :
    u32 ((150 : Int) - 0) = 150 ∧ u32 ((50 : Int) - 4294967196) = 150 ∧
    shortActionDue (runningAt 0 150) { demoSequence 1 0 with StartChronoMs := 0 } demoActionLine
      = true ∧
    motionDue (runningAt 0 150) { demoSequence 1 0 with StartChronoMs := 0 } demoMotionLine
      = true ∧
    (lineStep demoEnv (runningAt 0 150) 0 0 0 demoActionLine).map
      (fun s1 => newEvents (runningAt 0 150) s1) = some [Event.lineAction 0 0 9] ∧
    (lineStep demoEnv (runningAt 0 150) 0 1 1 demoMotionLine).map
      (fun s1 => newEvents (runningAt 0 150) s1) = some [Event.servoWrite 0 0] ∧
    shortActionDue (runningAt 4294967196 50)
      { demoSequence 1 0 with StartChronoMs := 4294967196 } demoActionLine = false ∧
    motionDue (runningAt 4294967196 50)
      { demoSequence 1 0 with StartChronoMs := 4294967196 } demoMotionLine = false ∧
    lineStep demoEnv (runningAt 4294967196 50) 0 0 0 demoActionLine =
      some (runningAt 4294967196 50) ∧
    lineStep demoEnv (runningAt 4294967196 50) 0 1 1 demoMotionLine =
      some (runningAt 4294967196 50) := by
  decide

/-- A motion line whose servo has refreshes left and records the index of
another line as the line in progress stalls: processing the line returns the
state unchanged, so that `RefreshNb` and `SeqLineInProgress` of the servo are
the same and nothing is written to it. -/
theorem motion_stall (env : Env) (s : State) (Idx SeqLine ShortActionCnt : Nat)
    (line : SequenceSt_t) (sv : ServoSt_t) (b : CmdSequenceSt_t)
    (hm : u8 line.ServoIndex ≠ 255)
    (hsv : s.Servo[u8 line.ServoIndex]? = some sv) (hb : s.CmdSequence[Idx]? = some b)
    (h0 : sv.RefreshNb ≠ 0) (h1 : SeqLine ≠ sv.SeqLineInProgress) :
    ∃ s1, lineStep env s Idx SeqLine ShortActionCnt line = some s1 ∧ s1 = s ∧
      s1.Servo[u8 line.ServoIndex]? = some sv ∧
      servoWrites (u8 line.ServoIndex) (newEvents s s1) = [] := by
  refine ⟨s, ?_, rfl, hsv, ?_⟩
  · unfold lineStep
    rw [if_neg hm]
    exact motionLine_stall env s Idx SeqLine line sv b hsv hb h0 h1
  · simp [newEvents, servoWrites]

/-- The motion line 1 of `demoTable` stalls while servo 0 is driven by line 0 of
a sequence with 5 refreshes left. -/
theorem motion_stall_witness :
    ∃ s1, lineStep demoEnv
        { motionStates 0 with Servo := [{ RefreshNb := 5, SeqLineInProgress := 0 },
                                        { RefreshNb := 0, SeqLineInProgress := 0 }] }
        0 1 1 demoMotionLine = some s1 ∧
      s1 = { motionStates 0 with Servo := [{ RefreshNb := 5, SeqLineInProgress := 0 },
                                           { RefreshNb := 0, SeqLineInProgress := 0 }] } ∧
      s1.Servo[u8 demoMotionLine.ServoIndex]? = some { RefreshNb := 5, SeqLineInProgress := 0 } ∧
      servoWrites (u8 demoMotionLine.ServoIndex)
        (newEvents { motionStates 0 with Servo := [{ RefreshNb := 5, SeqLineInProgress := 0 },
                                           { RefreshNb := 0, SeqLineInProgress := 0 }] } s1) = [] :=
  motion_stall demoEnv _ 0 1 1 demoMotionLine { RefreshNb := 5, SeqLineInProgress := 0 }
    (demoSequence 1 0) (by decide) (by decide) (by decide) (by decide) (by decide)

/-- C12 (the code departs from the claim): the stall test compares line indices
only.  Two sequences launched at 1000 ms have their motion of servo 0 on line 1
of their tables (`demoTable`, `rivalTable`).  In the engine tick at 1020 ms line
1 of the first binding claims the idle servo and writes its start angle 0; line
1 of the second binding does not stall: it lowers `RefreshNb` from 25 to 24 and
writes its own position 86.  In the tick at 1040 ms both lines lower the count
and write a position (8, then 79).  When the motion of the second sequence is
line 0 of its table, the line stalls as claimed: the servo is written once per
tick by the first binding and its count goes down by one per tick. -/
theorem stall_same_index :
    (∀ n, n ≤ 3 → runCalls clashEnv 0 (clashSetup 300 2 ++ ticks n) blankState =
      some (clashState 300 2 n)) ∧
    (clashState 300 2 1).Servo[0]? = some { RefreshNb := 0, SeqLineInProgress := 255 } ∧
    (clashState 300 2 1).CmdSequence.map (fun b => (b.InProgress, b.TableOrShortAction)) =
      [(1, 100), (1, 300), (0, 0), (0, 0)] ∧
    servoWrites 0 (newEvents (clashState 300 2 1) (clashState 300 2 2)) = [0, 86] ∧
    (clashState 300 2 2).Servo[0]? = some { RefreshNb := 24, SeqLineInProgress := 1 } ∧
    servoWrites 0 (newEvents (clashState 300 2 2) (clashState 300 2 3)) = [8, 79] ∧
    (clashState 300 2 3).Servo[0]? = some { RefreshNb := 22, SeqLineInProgress := 1 } ∧
    (∀ n, n ≤ 3 → runCalls clashEnv 0 (clashSetup 400 1 ++ ticks n) blankState =
      some (clashState 400 1 n)) ∧
    (clashState 400 1 1).CmdSequence.map (fun b => (b.InProgress, b.TableOrShortAction)) =
      [(1, 100), (1, 400), (0, 0), (0, 0)] ∧
    servoWrites 0 (newEvents (clashState 400 1 1) (clashState 400 1 2)) = [0] ∧
    (clashState 400 1 2).Servo[0]? = some { RefreshNb := 25, SeqLineInProgress := 1 } ∧
    servoWrites 0 (newEvents (clashState 400 1 2) (clashState 400 1 3)) = [4] ∧
    (clashState 400 1 3).Servo[0]? = some { RefreshNb := 24, SeqLineInProgress := 1 } := by
  decide

/-! ## Registration with a full registry -/

/-- The slot search fills nothing when every slot it visits is occupied. -/
theorem declareFrom_full (fill : CmdSequenceSt_t → CmdSequenceSt_t) (s : State) :
    ∀ (n Idx : Nat),
      (∀ j, Idx ≤ j → j < Idx + n →
        ∃ b, s.CmdSequence[j]? = some b ∧ b.TableOrShortAction ≠ 0) →
      declareFrom fill s n Idx = some s := by
  intro n
  induction n with
  | zero => intro Idx _; rfl
  | succ n ih =>
    intro Idx h
    obtain ⟨b, hb, hne⟩ := h Idx (le_refl _) (by omega)
    rw [declareFrom, hb]
    simp only []
    rw [if_neg hne]
    exact ih (Idx + 1) (fun j h1 h2 => h j (by omega) (by omega))

theorem OnlyWrites_refl (s : State) : OnlyWrites s s :=
  ⟨rfl, [], by simp, by simp⟩

theorem OnlyWrites_trans {s s1 s2 : State} (h1 : OnlyWrites s s1) (h2 : OnlyWrites s1 s2) :
    OnlyWrites s s2 := by
  obtain ⟨r1, e1, he1, hq1⟩ := h1
  obtain ⟨r2, e2, he2, hq2⟩ := h2
  refine ⟨?_, e1 ++ e2, ?_, ?_⟩
  · rw [r2]
    conv => lhs; rw [r1]
  · rw [he2, he1, List.append_assoc]
  · intro e he
    rcases List.mem_append.mp he with h | h
    · exact hq1 e h
    · exact hq2 e h

/-- The second loop of `RcSeq_DeclareCommandAndSequence` only writes start
angles to servos. -/
theorem declareInitialWrites_onlyWrites (Table : List SequenceSt_t) :
    ∀ (n Idx : Nat) (s : State) (M : List Nat) (s1 : State),
      declareInitialWrites Table s M n Idx = some s1 → OnlyWrites s s1 := by
  intro n
  induction n with
  | zero =>
    intro Idx s M s1 h
    rw [declareInitialWrites] at h
    cases h
    exact OnlyWrites_refl s
  | succ n ih =>
    intro Idx s M s1 h
    rw [declareInitialWrites] at h
    split at h
    · exact absurd h (by simp)
    · split at h
      · split at h
        · split at h
          · exact OnlyWrites_trans ⟨rfl, [_], rfl, by simp⟩ (ih _ _ _ _ h)
          · exact ih _ _ _ _ h
        · exact absurd h (by simp)
      · exact ih _ _ _ _ h

/-- The second loop of `RcSeq_DeclareCommandAndSequence` has a result when the
table has the declared number of lines and its motion lines name servos inside
the arrays. -/
theorem declareInitialWrites_total (Table : List SequenceSt_t) (k : Nat)
    (hT : ∀ line ∈ Table, u8 line.ServoIndex ≠ 255 → u8 line.ServoIndex < k) :
    ∀ (n Idx : Nat) (s : State) (M : List Nat), Idx + n ≤ Table.length →
      k ≤ M.length → k ≤ s.Servo.length →
      ∃ s1, declareInitialWrites Table s M n Idx = some s1 := by
  intro n
  induction n with
  | zero => intro Idx s M _ _ _; exact ⟨s, rfl⟩
  | succ n ih =>
    intro Idx s M hlen hM hS
    have hlt : Idx < Table.length := by omega
    rw [declareInitialWrites, List.getElem?_eq_getElem hlt]
    simp only []
    by_cases hm : u8 (Table[Idx]).ServoIndex ≠ 255
    · rw [if_pos hm]
      have hk := hT _ (List.getElem_mem hlt) hm
      rw [List.getElem?_eq_getElem (show u8 (Table[Idx]).ServoIndex < M.length by omega),
        List.getElem?_eq_getElem (show u8 (Table[Idx]).ServoIndex < s.Servo.length by omega)]
      simp only []
      split
      · exact ih _ _ _ (by omega) (by rw [List.length_set]; exact hM) hS
      · exact ih _ _ _ (by omega) hM hS
    · rw [if_neg hm]
      exact ih _ _ _ (by omega) hM hS

/-- C14: with every slot of the registry occupied, `RcSeq_DeclareCommandAndShortAction`
returns the state unchanged, and `RcSeq_DeclareCommandAndSequence` has a result
(for a table with the declared number of lines whose motion lines name existing
servos) that differs from the state only by the start angles written to the
servos: the registry entries and `SeqNb` are unchanged.  A later
`ExecuteSequence` for the pair returns 0 and changes nothing when none of the
`SeqNb` bindings holds the pair. -/
theorem declare_dropped (env : Env) (s : State)
    (hfull : ∀ j, j < env.SEQUENCE_MAX_NB →
      ∃ b, s.CmdSequence[j]? = some b ∧ b.TableOrShortAction ≠ 0) :
    (∀ CmdIdx Pos ShortAction : Nat,
      RcSeq_DeclareCommandAndShortAction env s CmdIdx Pos ShortAction = some s) ∧
    (∀ CmdIdx Pos Table SequenceLength Control : Nat,
      (SequenceLength ≤ (env.Flash Table).length →
        (∀ line ∈ env.Flash Table,
          u8 line.ServoIndex ≠ 255 → u8 line.ServoIndex < env.SERVO_MAX_NB) →
        env.SERVO_MAX_NB ≤ s.Servo.length →
        ∃ s1, RcSeq_DeclareCommandAndSequence env s CmdIdx Pos Table SequenceLength Control
          = some s1) ∧
      ∀ s1, RcSeq_DeclareCommandAndSequence env s CmdIdx Pos Table SequenceLength Control
          = some s1 →
        OnlyWrites s s1 ∧ s1.CmdSequence = s.CmdSequence ∧ s1.SeqNb = s.SeqNb ∧
        (s.SeqNb ≤ s.CmdSequence.length →
          (∀ j b, j < s.SeqNb → s.CmdSequence[j]? = some b →
            ¬ (b.CmdIdx = (CmdIdx : Int) ∧ b.Pos = (Pos : Int))) →
          ExecuteSequence env s1 CmdIdx Pos = some (s1, 0))) ∧
    (∀ CmdIdx Pos : Nat, s.SeqNb ≤ s.CmdSequence.length →
      (∀ j b, j < s.SeqNb → s.CmdSequence[j]? = some b →
        ¬ (b.CmdIdx = (CmdIdx : Int) ∧ b.Pos = (Pos : Int))) →
      ExecuteSequence env s CmdIdx Pos = some (s, 0)) := by
  have hd : ∀ fill, declareFrom fill s env.SEQUENCE_MAX_NB 0 = some s :=
    fun fill => declareFrom_full fill s _ 0 (fun j _ h => hfull j (by omega))
  have hex : ∀ (s1 : State) (CmdIdx Pos : Nat), s1.CmdSequence = s.CmdSequence → s1.SeqNb = s.SeqNb →
      s.SeqNb ≤ s.CmdSequence.length →
      (∀ j b, j < s.SeqNb → s.CmdSequence[j]? = some b →
        ¬ (b.CmdIdx = (CmdIdx : Int) ∧ b.Pos = (Pos : Int))) →
      ExecuteSequence env s1 CmdIdx Pos = some (s1, 0) := by
    intro s1 CmdIdx Pos hc hn hlen hno
    unfold ExecuteSequence
    exact ExecuteSequenceFrom_none env s1 CmdIdx Pos _ 0 (by rw [hc, hn]; omega)
      (fun j b _ h2 h3 => hno j b (by rw [hn] at h2; omega) (by rw [← hc]; exact h3))
  refine ⟨fun CmdIdx Pos ShortAction => hd _, ?_, fun CmdIdx Pos => hex s CmdIdx Pos rfl rfl⟩
  intro CmdIdx Pos Table SequenceLength Control
  have hrun : RcSeq_DeclareCommandAndSequence env s CmdIdx Pos Table SequenceLength Control =
      declareInitialWrites (env.Flash Table) s (List.replicate env.SERVO_MAX_NB 4294967295)
        SequenceLength 0 := by
    unfold RcSeq_DeclareCommandAndSequence
    rw [hd]
  rw [hrun]
  refine ⟨fun hlen hT hS => ?_, fun s1 h => ?_⟩
  · exact declareInitialWrites_total _ env.SERVO_MAX_NB hT _ 0 s _ (by omega)
      (by rw [List.length_replicate]) hS
  · have hw := declareInitialWrites_onlyWrites _ _ _ _ _ _ h
    have hc : s1.CmdSequence = s.CmdSequence := by rw [hw.rest]
    have hn : s1.SeqNb = s.SeqNb := by rw [hw.rest]
    exact ⟨hw, hc, hn, fun hlen hno => hex s1 CmdIdx Pos hc hn hlen hno⟩

/-- In the full registry `fullState` the registration of a short action for
command 1, position 2 is dropped, and the trigger of that pair does nothing. -/
theorem declare_dropped_witness :
    (∀ j, j < demoEnv.SEQUENCE_MAX_NB →
      ∃ b, fullState.CmdSequence[j]? = some b ∧ b.TableOrShortAction ≠ 0) ∧
    RcSeq_DeclareCommandAndShortAction demoEnv fullState 1 2 77 = some fullState ∧
    ExecuteSequence demoEnv fullState 1 2 = some (fullState, 0) := by
  have hfull : ∀ j, j < demoEnv.SEQUENCE_MAX_NB →
      ∃ b, fullState.CmdSequence[j]? = some b ∧ b.TableOrShortAction ≠ 0 := by
    intro j hj
    have hj4 : j < 4 := hj
    interval_cases j
    · exact ⟨_, rfl, by decide⟩
    · exact ⟨_, rfl, by decide⟩
    · exact ⟨_, rfl, by decide⟩
    · exact ⟨_, rfl, by decide⟩
  exact ⟨hfull, (declare_dropped demoEnv fullState hfull).1 1 2 77,
    (declare_dropped demoEnv fullState hfull).2.2 1 2 (by decide) (by
      intro j b hj hb
      have hj4 : j < 4 := hj
      interval_cases j <;> (cases hb; decide))⟩

/-- C17 (counterexample): for the stick over [1000, 2000] us with 4 positions the
step is 62 us and the zones are [1000, 1186], [1248, 1434], [1566, 1752] and
[1814, 2000]; 1500 us lies between zones 1 and 2 and `GetPos` returns -1 for it.
Feeding a fresh pulse of 1500 us to 11 calls of `RcSeq_Refresh`, 20 ms apart
(from 1000 ms to 1200 ms), fires no trigger and calls no callback. -/
theorem stick_example_counterexample :
    (runCalls (tickEnv 3 2) 200 stickSetup blankState).bind
        (fun s => s.RcChannel[0]?.map (fun ch => (ch.StepUs,
          [keyWindow ch 0, keyWindow ch 1, keyWindow ch 2, keyWindow ch 3]))) =
      some (62, [some (1000, 1186), some (1248, 1434), some (1566, 1752), some (1814, 2000)]) ∧
    (runCalls (tickEnv 3 2) 200 stickSetup blankState).bind (fun s => GetPos 200 s 0 1500) =
      some (-1) ∧
    feedTimes (tickEnv 3 2) 1500 11 =
      [some 1000, some 1020, some 1040, some 1060, some 1080, some 1100, some 1120, some 1140,
       some 1160, some 1180, some 1200] ∧
    (runCalls (tickEnv 3 2) 200 (stickSetup ++ feed 1500 11) blankState).map
        (fun s => s.trace.filter
          (fun e => Event.isTrigger e || decide (e = Event.shortAction 55))) = some [] := by
  decide

/-- C17 (amended): for the stick over [1000, 2000] us with 4 positions,
`GetPos` returns 1, the zone next to the centre on the lower side, for every
width from 1248 to 1434 us, and -1 for every width from 1435 to 1565 us, 1500
among them.  Feeding a fresh pulse of a width `w` of zone 1 to 11 calls of
`RcSeq_Refresh`, 20 ms apart (from 1000 ms to 1200 ms), fires the trigger of
(channel 0, position 1) once, at the call made 160 ms after the first, and calls
the registered short action once. -/
theorem stick_example :
    ((List.range' 1248 187).all (fun w =>
      decide ((runCalls (tickEnv 4 3) 200 stickSetup blankState).bind
        (fun s => GetPos 200 s 0 w) = some 1))) = true ∧
    ((List.range' 1435 131).all (fun w =>
      decide ((runCalls (tickEnv 4 3) 200 stickSetup blankState).bind
        (fun s => GetPos 200 s 0 w) = some (-1)))) = true ∧
    ((List.range' 1248 187).all (fun w =>
      decide (feedTimes (tickEnv 4 3) w 11 =
        [some 1000, some 1020, some 1040, some 1060, some 1080, some 1100, some 1120, some 1140,
         some 1160, some 1180, some 1200] ∧
      (runCalls (tickEnv 4 3) 200 (stickSetup ++ feed w 11) blankState).map
        (fun s => s.trace.filter
          (fun e => Event.isTrigger e || decide (e = Event.shortAction 55))) =
        some [Event.trigger 0 1 1160, Event.shortAction 55]))) = true := by
  decide

/-- C18: the sequence `demoTable` (line 0 a short action at offset 0, line 1 a
motion of servo 0 from 0 to 90 degrees over 500 ms at offset 0) is registered,
launched at 1000 ms and `RcSeq_Refresh` is called every 20 ms.  The first engine
tick (1020 ms) calls the short action and claims the idle servo 0, writing 0;
during the next 24 engine ticks the binding stays in progress, the short action
is not called again and the servo counts down from 24 to 1; on the 25th
following engine tick (1520 ms) 90 is written, the servo is released and the run
is complete (`InProgress = 0`, `ShortActionMap = 0`); a further tick adds
nothing. -/
theorem sequence_example :
    seqObserve 0 =
      some { NowMs := 0,
             servo := (some { RefreshNb := 0, SeqLineInProgress := NO_SEQ_LINE }),
             InProgress := (some 1), ShortActionMap := (some 0), writes := [],
             actions := [] } ∧
    seqObserve 1 =
      some { NowMs := 1000,
             servo := (some { RefreshNb := 0, SeqLineInProgress := NO_SEQ_LINE }),
             InProgress := (some 1), ShortActionMap := (some 0), writes := [],
             actions := [] } ∧
    seqObserve 2 =
      some { NowMs := 1020,
             servo := (some { RefreshNb := 25, SeqLineInProgress := 1 }),
             InProgress := (some 1), ShortActionMap := (some 1), writes := [0],
             actions := [9] } ∧
    ((List.range 24).all (fun k : Nat => decide (seqObserve (3 + k) =
      some { NowMs := 1040 + 20 * k,
             servo := (some { RefreshNb := 24 - k, SeqLineInProgress := 1 }),
             InProgress := (some 1), ShortActionMap := (some 1), writes := demoAngles (k + 2),
             actions := [9] }))) = true ∧
    seqObserve 27 =
      some { NowMs := 1520,
             servo := (some { RefreshNb := 0, SeqLineInProgress := NO_SEQ_LINE }),
             InProgress := (some 0), ShortActionMap := (some 0), writes := demoAngles 26,
             actions := [9] } ∧
    (demoAngles 26).getLast? = some 90 ∧
    seqObserve 28 =
      some { NowMs := 1540,
             servo := (some { RefreshNb := 0, SeqLineInProgress := NO_SEQ_LINE }),
             InProgress := (some 0), ShortActionMap := (some 0), writes := demoAngles 26,
             actions := [9] } := by
  decide

/-! ## Launch by table -/

/-- The scan of `RcSeq_LaunchSequence` returns 0 and changes nothing when no
slot holds `Table`. -/
theorem LaunchSequenceFrom_absent (env : Env) (s : State) (Table : Nat) :
    ∀ (n Idx : Nat), Idx + n ≤ s.CmdSequence.length →
      (∀ j b, Idx ≤ j → j < Idx + n → s.CmdSequence[j]? = some b →
        b.TableOrShortAction ≠ Table) →
      LaunchSequenceFrom env s Table n Idx = some (s, 0) := by
  intro n
  induction n with
  | zero => intro Idx _ _; rfl
  | succ n ih =>
    intro Idx hlen hnone
    have hlt : Idx < s.CmdSequence.length := by omega
    rw [LaunchSequenceFrom, List.getElem?_eq_getElem hlt]
    simp only []
    rw [if_neg (hnone Idx _ (le_refl _) (by omega) (List.getElem?_eq_getElem hlt))]
    exact ih (Idx + 1) (by omega) (fun j b h3 h4 h5 => hnone j b (by omega) (by omega) h5)

/-- C15 (the code departs from the claim): after `RcSeq_Init` and the
registration of the short action 55 for command 0, position 0, the call
`RcSeq_LaunchSequence(NULL)`, a table that was never registered, returns 1 and
calls the callback 55: the scan over all `SEQUENCE_MAX_NB` slots matches the free
slot 1, whose table is `NULL`, and triggers the command and position found
there, (0, 0).  After the registration of the sequence `demoTable` for (0, 0)
the same call starts its run.  For the never registered table 300 the call
returns 0 and leaves the state unchanged. -/
theorem launch_null :
    (runCalls demoEnv 0 [Call.init, Call.declareShortAction 0 0 55] blankState).bind
        (fun s => (RcSeq_LaunchSequence demoEnv s 0).map (fun r => (r.2, newEvents s r.1))) =
      some (1, [Event.shortAction 55]) ∧
    (runCalls demoEnv 0 [Call.init, Call.declareServo 0 3, Call.declareSequence 0 0 100 2 0]
        blankState).bind
        (fun s => (RcSeq_LaunchSequence demoEnv s 0).map
          (fun r => (r.2, s.CmdSequence[0]?.map (fun b => b.InProgress),
            r.1.CmdSequence[0]?.map (fun b => b.InProgress)))) =
      some (1, some 0, some 1) ∧
    (runCalls demoEnv 0 [Call.init, Call.declareShortAction 0 0 55] blankState).bind
        (fun s => (RcSeq_LaunchSequence demoEnv s 300).map (fun r => decide (r = (s, 0)))) =
      some true := by
  decide

/-! ## The registry after registrations -/

/-- The slot search fills the first free slot. -/
theorem declareFrom_first (fill : CmdSequenceSt_t → CmdSequenceSt_t) (s : State) (i : Nat)
    (b : CmdSequenceSt_t) (hb : s.CmdSequence[i]? = some b) (hfree : b.TableOrShortAction = 0) :
    ∀ (n Idx : Nat), Idx ≤ i → i < Idx + n →
      (∀ j b1, Idx ≤ j → j < i → s.CmdSequence[j]? = some b1 → b1.TableOrShortAction ≠ 0) →
      declareFrom fill s n Idx =
        some { s with CmdSequence := s.CmdSequence.set i (fill b)
                      SeqNb := u8 ((s.SeqNb : Int) + 1) } := by
  intro n
  induction n with
  | zero => intro Idx h1 h2; omega
  | succ n ih =>
    intro Idx h1 h2 hocc
    rw [declareFrom]
    by_cases hEq : Idx = i
    · subst hEq
      rw [hb]
      simp only []
      rw [if_pos hfree]
    · have hlt : Idx < s.CmdSequence.length := by
        have := (List.getElem?_eq_some_iff.mp hb).1
        omega
      rw [List.getElem?_eq_getElem hlt]
      simp only []
      rw [if_neg (hocc Idx _ (le_refl _) (by omega) (List.getElem?_eq_getElem hlt))]
      exact ih (Idx + 1) (by omega) (by omega)
        (fun j b1 h3 h4 h5 => hocc j b1 (by omega) h4 h5)

/-- After `RcSeq_Init` the registry is empty. -/
theorem Registered_init (env : Env) (s0 : State)
    (hsize : s0.CmdSequence.length = env.SEQUENCE_MAX_NB) :
    Registered env [] (RcSeq_Init env s0) := by
  refine ⟨rfl, ?_, ?_, ?_⟩
  · simp [RcSeq_Init, emit, hsize]
  · intro i r h
    simp at h
  · intro i b _ h
    simp only [RcSeq_Init, emit, List.getElem?_map] at h
    cases hq : s0.CmdSequence[i]? with
    | none => rw [hq] at h; simp at h
    | some b0 =>
      rw [hq] at h
      simp only [Option.map_some', Option.some.injEq] at h
      rw [← h]

/-- The body of `ExecuteSequence` for the binding `i` leaves the other bindings
alone. -/
theorem executeBinding_others (env : Env) (s : State) (i : Nat) (b : CmdSequenceSt_t)
    (j : Nat) (hj : j ≠ i) :
    (executeBinding env s i b).1.CmdSequence[j]? = s.CmdSequence[j]? := by
  unfold executeBinding
  split
  · rfl
  · split
    · by_cases hc : b.Control ≠ 0
      · by_cases hg : u8 (env.Control s.trace b.Control env.RC_SEQ_START_CONDITION i) ≠ 0
        · simp only [hc, hg, ne_eq, not_false_eq_true, if_true]
          exact List.getElem?_set_ne (Ne.symm hj)
        · simp only [ne_eq, not_not] at hg
          simp only [hc, hg, ne_eq, not_false_eq_true, not_true_eq_false, if_true, if_false]
          rfl
      · simp only [ne_eq, not_not] at hc
        simp only [hc, ne_eq, not_true_eq_false, if_false, one_ne_zero, not_false_eq_true, if_true]
        exact List.getElem?_set_ne (Ne.symm hj)
    · rfl

/-- The predicate `Registered` reads only `SeqNb` and the registry. -/
theorem Registered_congr (env : Env) (regs : List Call) (s s1 : State)
    (hn : s1.SeqNb = s.SeqNb) (hc : s1.CmdSequence = s.CmdSequence)
    (h : Registered env regs s) : Registered env regs s1 :=
  ⟨by rw [hn]; exact h.count, by rw [hc]; exact h.size,
   by rw [hc]; exact h.held, by rw [hc]; exact h.free⟩

/-- Filling the first free slot with the data of the registration `r` extends
the registered list by `r`. -/
theorem Registered_fill (env : Env) (done : List Call) (s : State) (r : Call)
    (c p t : Nat) (b b1 : CmdSequenceSt_t) (hR : Registered env done s)
    (hmax : done.length < 255) (hr : Call.registers r = some (c, p, t)) (ht : t ≠ 0)
    (hb : s.CmdSequence[done.length]? = some b)
    (h1 : b1.CmdIdx = (c : Int)) (h2 : b1.Pos = (p : Int)) (h3 : b1.TableOrShortAction = t) :
    Registered env (done ++ [r])
      { s with CmdSequence := s.CmdSequence.set done.length b1
               SeqNb := u8 ((s.SeqNb : Int) + 1) } := by
  have hk : done.length < s.CmdSequence.length := (List.getElem?_eq_some_iff.mp hb).1
  refine ⟨?_, ?_, ?_, ?_⟩
  · show u8 ((s.SeqNb : Int) + 1) = (done ++ [r]).length
    rw [hR.count, List.length_append, List.length_singleton]
    have := u8_natCast (done.length + 1) (by omega)
    push_cast at this
    exact this
  · show (s.CmdSequence.set done.length b1).length = env.SEQUENCE_MAX_NB
    rw [List.length_set]
    exact hR.size
  · intro i r1 hi
    show ∃ (b : CmdSequenceSt_t) (c p t : Nat),
      (s.CmdSequence.set done.length b1)[i]? = some b ∧ _
    by_cases hlt : i < done.length
    · rw [List.getElem?_append_left hlt] at hi
      obtain ⟨b2, c2, p2, t2, q1, q2⟩ := hR.held i r1 hi
      exact ⟨b2, c2, p2, t2, by rw [List.getElem?_set_ne (by omega)]; exact q1, q2⟩
    · have hlen : i < (done ++ [r]).length := (List.getElem?_eq_some_iff.mp hi).1
      rw [List.length_append, List.length_singleton] at hlen
      have hEq : i = done.length := by omega
      subst hEq
      rw [List.getElem?_concat_length] at hi
      cases hi
      exact ⟨b1, c, p, t, List.getElem?_set_self hk, hr, h1, h2, h3, ht⟩
  · intro i b2 hi hq
    rw [List.length_append, List.length_singleton] at hi
    have hq1 : (s.CmdSequence.set done.length b1)[i]? = some b2 := hq
    rw [List.getElem?_set_ne (by omega)] at hq1
    exact hR.free i b2 (by omega) hq1

/-- A registration with a non-null pointer made while a slot is free extends
the registered list. -/
theorem Registered_step (env : Env) (fuel : Nat) (done : List Call) (s s1 : State) (r : Call)
    (c p t : Nat) (hR : Registered env done s) (hcap : done.length < env.SEQUENCE_MAX_NB)
    (hmax : env.SEQUENCE_MAX_NB ≤ 255) (hr : Call.registers r = some (c, p, t))
    (hc : c ≤ 127) (hp : p ≤ 127) (ht : t ≠ 0)
    (h : applyCall env fuel s r = some s1) : Registered env (done ++ [r]) s1 := by
  have hk : done.length < s.CmdSequence.length := by rw [hR.size]; exact hcap
  have hb := List.getElem?_eq_getElem hk
  have hfree := hR.free _ _ (le_refl _) hb
  have hd : ∀ fill, declareFrom fill s env.SEQUENCE_MAX_NB 0 =
      some { s with CmdSequence := s.CmdSequence.set done.length (fill (s.CmdSequence[done.length]))
                    SeqNb := u8 ((s.SeqNb : Int) + 1) } := by
    intro fill
    refine declareFrom_first fill s _ _ hb hfree _ 0 (Nat.zero_le _) (by omega) ?_
    intro j b1 _ hj hq
    have hjd := List.getElem?_eq_getElem hj
    obtain ⟨b2, c2, p2, t2, q1, _, _, _, q5, q6⟩ := hR.held j _ hjd
    rw [hq] at q1
    cases q1
    rw [q5]
    exact q6
  have hi8c : i8 (c : Int) = c := i8_of_range _ (by omega) (by omega)
  have hi8p : i8 (p : Int) = p := i8_of_range _ (by omega) (by omega)
  cases r with
  | declareSequence CmdIdx Pos Table SequenceLength Control =>
    simp only [Call.registers, Option.some.injEq, Prod.mk.injEq] at hr
    obtain ⟨e1, e2, e3⟩ := hr
    subst e1 e2 e3
    simp only [applyCall, RcSeq_DeclareCommandAndSequence] at h
    rw [hd] at h
    simp only [] at h
    have hw := declareInitialWrites_onlyWrites _ _ _ _ _ _ h
    have hfill := Registered_fill env done s
      (Call.declareSequence CmdIdx Pos Table SequenceLength Control) CmdIdx Pos Table _
      { s.CmdSequence[done.length] with
        CmdIdx := i8 CmdIdx, Pos := i8 Pos, TableOrShortAction := Table,
        SequenceLength := SequenceLength, Control := Control }
      hR (by omega) rfl ht hb hi8c hi8p rfl
    exact Registered_congr env _ _ s1 (by rw [hw.rest]) (by rw [hw.rest]) hfill
  | declareShortAction CmdIdx Pos ShortAction =>
    simp only [Call.registers, Option.some.injEq, Prod.mk.injEq] at hr
    obtain ⟨e1, e2, e3⟩ := hr
    subst e1 e2 e3
    simp only [applyCall, RcSeq_DeclareCommandAndShortAction] at h
    rw [hd] at h
    cases h
    exact Registered_fill env done s (Call.declareShortAction CmdIdx Pos ShortAction)
      CmdIdx Pos ShortAction _
      { s.CmdSequence[done.length] with
        CmdIdx := i8 CmdIdx, Pos := i8 Pos, TableOrShortAction := ShortAction,
        SequenceLength := 0 }
      hR (by omega) rfl ht hb hi8c hi8p rfl
  | _ => simp [Call.registers] at hr

/-- Registrations with non-null pointers, within capacity, are all held by the
registry, in order. -/
theorem Registered_run (env : Env) (fuel : Nat) (hmax : env.SEQUENCE_MAX_NB ≤ 255) :
    ∀ (rest done : List Call) (s s1 : State), Registered env done s →
      done.length + rest.length ≤ env.SEQUENCE_MAX_NB →
      (∀ r ∈ rest, ∃ c p t, Call.registers r = some (c, p, t) ∧ c ≤ 127 ∧ p ≤ 127 ∧ t ≠ 0) →
      runCalls env fuel rest s = some s1 → Registered env (done ++ rest) s1 := by
  intro rest
  induction rest with
  | nil =>
    intro done s s1 hR _ _ h
    rw [runCalls] at h
    cases h
    rw [List.append_nil]
    exact hR
  | cons r rest ih =>
    intro done s s1 hR hcap hregs h
    rw [runCalls] at h
    cases ha : applyCall env fuel s r with
    | none => rw [ha] at h; exact absurd h (by simp)
    | some s2 =>
      rw [ha] at h
      simp only [] at h
      obtain ⟨c, p, t, hr, hc, hp, ht⟩ := hregs r (List.mem_cons_self _ _)
      rw [List.length_cons] at hcap
      have h2 := Registered_step env fuel done s s2 r c p t hR (by omega) hmax hr hc hp ht ha
      have := ih (done ++ [r]) s2 s1 h2
        (by rw [List.length_append, List.length_singleton]; omega)
        (fun r1 h1 => hregs r1 (List.mem_cons_of_mem _ h1)) h
      rw [List.append_assoc] at this
      exact this

/-- C13 (amended): after `RcSeq_Init` and registrations within capacity, each
with a command and a position of at most 127 and a non-null table or callback,
`ExecuteSequence(CmdIdx, Pos)` runs its body on the binding registered first for
the pair, which is the slot with the index of that registration, and leaves
every other slot unchanged; when no registration was made for the pair it
returns 0 and changes nothing. -/
theorem first_registered_wins (env : Env) (fuel : Nat) (s0 s : State) (regs : List Call)
    (hsize : s0.CmdSequence.length = env.SEQUENCE_MAX_NB)
    (hcap : regs.length ≤ env.SEQUENCE_MAX_NB) (hmax : env.SEQUENCE_MAX_NB ≤ 255)
    (hregs : ∀ r ∈ regs,
      ∃ c p t, Call.registers r = some (c, p, t) ∧ c ≤ 127 ∧ p ≤ 127 ∧ t ≠ 0)
    (hrun : runCalls env fuel regs (RcSeq_Init env s0) = some s) (CmdIdx Pos : Nat) :
    (∀ (i : Nat) (r : Call) (t : Nat), regs[i]? = some r →
      Call.registers r = some (CmdIdx, Pos, t) →
      (∀ (j : Nat) (r1 : Call) (t1 : Nat), j < i → regs[j]? = some r1 →
        Call.registers r1 ≠ some (CmdIdx, Pos, t1)) →
      ∃ b, s.CmdSequence[i]? = some b ∧ b.TableOrShortAction = t ∧
        ExecuteSequence env s CmdIdx Pos = some (executeBinding env s i b) ∧
        ∀ j, j ≠ i → (executeBinding env s i b).1.CmdSequence[j]? = s.CmdSequence[j]?) ∧
    ((∀ r ∈ regs, ∀ (t : Nat), Call.registers r ≠ some (CmdIdx, Pos, t)) →
      ExecuteSequence env s CmdIdx Pos = some (s, 0)) := by
  have hR : Registered env regs s := by
    have := Registered_run env fuel hmax regs [] _ s (Registered_init env s0 hsize)
      (by simpa using hcap) hregs hrun
    simpa using this
  have hslot : ∀ (j : Nat) (b1 : CmdSequenceSt_t), j < regs.length →
      s.CmdSequence[j]? = some b1 → b1.CmdIdx = (CmdIdx : Int) ∧ b1.Pos = (Pos : Int) →
      ∃ r1 t1, regs[j]? = some r1 ∧ Call.registers r1 = some (CmdIdx, Pos, t1) := by
    intro j b1 hj hb1 hm
    obtain ⟨b2, c2, p2, t2, q1, q2, q3, q4, _, _⟩ := hR.held j _ (List.getElem?_eq_getElem hj)
    rw [hb1] at q1
    cases q1
    have e1 : c2 = CmdIdx := by have := hm.1; rw [q3] at this; exact_mod_cast this
    have e2 : p2 = Pos := by have := hm.2; rw [q4] at this; exact_mod_cast this
    subst e1 e2
    exact ⟨_, t2, List.getElem?_eq_getElem hj, q2⟩
  constructor
  · intro i r t hi hr hfirst
    have hlt : i < regs.length := (List.getElem?_eq_some_iff.mp hi).1
    obtain ⟨b, c, p, t2, q1, q2, q3, q4, q5, _⟩ := hR.held i r hi
    rw [hr] at q2
    simp only [Option.some.injEq, Prod.mk.injEq] at q2
    obtain ⟨e1, e2, e3⟩ := q2
    subst e1 e2 e3
    refine ⟨b, q1, q5, ?_, fun j hj => executeBinding_others env s i b j hj⟩
    unfold ExecuteSequence
    refine ExecuteSequenceFrom_first env s CmdIdx Pos i b q1 ⟨q3, q4⟩ _ 0 (Nat.zero_le _)
      (by rw [hR.count]; omega) ?_
    intro j b1 _ hj hb1 hm
    obtain ⟨r1, t1, g1, g2⟩ := hslot j b1 (by omega) hb1 hm
    exact hfirst j r1 t1 hj g1 g2
  · intro hnone
    unfold ExecuteSequence
    refine ExecuteSequenceFrom_none env s CmdIdx Pos _ 0 (by rw [hR.count, hR.size]; omega) ?_
    intro j b1 _ hj hb1 hm
    rw [hR.count] at hj
    obtain ⟨r1, t1, g1, g2⟩ := hslot j b1 (by omega) hb1 hm
    exact hnone r1 (List.getElem?_mem g1) t1 g2

/-- After the registrations `dupRegs`, the trigger of (command 0, position 1)
runs the short action 55 registered first, in slot 0, and leaves the sequence
registered later for the same pair alone; the trigger of (command 1, position
1), for which nothing is registered, returns 0 and changes nothing. -/
theorem first_registered_wins_witness :
    runCalls demoEnv 0 dupRegs (RcSeq_Init demoEnv blankState) = some dupState ∧
    (∃ b, dupState.CmdSequence[0]? = some b ∧ b.TableOrShortAction = 55 ∧
      ExecuteSequence demoEnv dupState 0 1 = some (executeBinding demoEnv dupState 0 b) ∧
      ∀ j, j ≠ 0 → (executeBinding demoEnv dupState 0 b).1.CmdSequence[j]? =
        dupState.CmdSequence[j]?) ∧
    ExecuteSequence demoEnv dupState 1 1 = some (dupState, 0) := by
  have hregs : ∀ r ∈ dupRegs,
      ∃ c p t, Call.registers r = some (c, p, t) ∧ c ≤ 127 ∧ p ≤ 127 ∧ t ≠ 0 := by
    intro r hr
    simp only [dupRegs, List.mem_cons, List.mem_singleton, List.not_mem_nil, or_false] at hr
    rcases hr with h | h | h <;> subst h <;>
      exact ⟨_, _, _, rfl, by decide, by decide, by decide⟩
  have hrun : runCalls demoEnv 0 dupRegs (RcSeq_Init demoEnv blankState) = some dupState := by
    decide
  refine ⟨hrun, ?_, ?_⟩
  · exact (first_registered_wins demoEnv 0 blankState dupState dupRegs rfl (by decide)
      (by decide) hregs hrun 0 1).1 0 (Call.declareShortAction 0 1 55) 55 rfl rfl
      (fun j r1 t1 hj => absurd hj (Nat.not_lt_zero j))
  · refine (first_registered_wins demoEnv 0 blankState dupState dupRegs rfl (by decide)
      (by decide) hregs hrun 1 1).2 ?_
    intro r hr t
    simp only [dupRegs, List.mem_cons, List.mem_singleton, List.not_mem_nil, or_false] at hr
    rcases hr with h | h | h <;> subst h <;> simp [Call.registers]

/-- C13 (counterexample): the command and the position of a binding are stored
in `int8_t` fields.  After `RcSeq_Init` and the registration of the short action
55 for (command 200, position 1), which is stored as (-56, 1), the call
`ExecuteSequence(200, 1)` returns 0 and calls nothing. -/
theorem first_registered_wins_counterexample :
    (runCalls demoEnv 0 [Call.init, Call.declareShortAction 200 1 55] blankState).bind
        (fun s => s.CmdSequence[0]?.map (fun b => (b.CmdIdx, b.Pos, b.TableOrShortAction))) =
      some (-56, 1, 55) ∧
    (runCalls demoEnv 0 [Call.init, Call.declareShortAction 200 1 55] blankState).bind
        (fun s => (ExecuteSequence demoEnv s 200 1).map (fun r => decide (r = (s, 0)))) =
      some true := by
  decide

/-! ## The library functions as series of elementary updates -/

theorem Updates_refl (env : Env) (eng : Bool) (s : State) : Updates env eng s s :=
  Relation.ReflTransGen.refl

theorem Updates_trans {env : Env} {eng : Bool} {s s1 s2 : State} (h1 : Updates env eng s s1)
    (h2 : Updates env eng s1 s2) : Updates env eng s s2 :=
  Relation.ReflTransGen.trans h1 h2

theorem Updates_single {env : Env} {eng : Bool} {s s1 : State} (h : Update env eng s s1) :
    Updates env eng s s1 :=
  Relation.ReflTransGen.single h

/-- A step that leaves the registry and the servo table alone. -/
theorem Updates_frame (env : Env) (eng : Bool) (s s1 : State) (hS : s1.Servo = s.Servo)
    (hC : s1.CmdSequence = s.CmdSequence) : Updates env eng s s1 :=
  Updates_single (Update.frame hS hC)

/-- The updates made outside the sequence management are updates of the whole
library. -/
theorem Updates_mono {env : Env} {s s1 : State} (h : Updates env false s s1) :
    Updates env true s s1 := by
  induction h with
  | refl => exact Updates_refl env true s
  | tail _ hstep ih =>
    refine Updates_trans ih (Updates_single ?_)
    cases hstep with
    | frame hS hC => exact Update.frame hS hC
    | reset hS hC => exact Update.reset hS hC
    | register i b b1 hb h1 h2 hS hC => exact Update.register i b b1 hb h1 h2 hS hC
    | start i b t hb h0 hS hC => exact Update.start i b t hb h0 hS hC
    | mark heng => exact absurd heng (by simp)
    | finish heng => exact absurd heng (by simp)
    | claim heng => exact absurd heng (by simp)
    | release heng => exact absurd heng (by simp)
    | count heng => exact absurd heng (by simp)

/-- The body of `ExecuteSequence` is one update. -/
theorem executeBinding_update (env : Env) (eng : Bool) (s : State) (i : Nat)
    (b : CmdSequenceSt_t) (hb : s.CmdSequence[i]? = some b) :
    Update env eng s (executeBinding env s i b).1 := by
  unfold executeBinding
  split
  · exact Update.frame rfl rfl
  · split
    · rename_i h0
      by_cases hc : b.Control ≠ 0
      · by_cases hg : u8 (env.Control s.trace b.Control env.RC_SEQ_START_CONDITION i) ≠ 0
        · simp only [hc, hg, ne_eq, not_false_eq_true, if_true]
          exact Update.start i b _ hb h0 rfl rfl
        · simp only [ne_eq, not_not] at hg
          simp only [hc, hg, ne_eq, not_false_eq_true, not_true_eq_false, if_true, if_false]
          exact Update.frame rfl rfl
      · simp only [ne_eq, not_not] at hc
        simp only [hc, ne_eq, not_true_eq_false, if_false, one_ne_zero, not_false_eq_true, if_true]
        exact Update.start i b (millis env s).1 hb h0 rfl (by simp only [hc]; rfl)
    · exact Update.frame rfl rfl

theorem ExecuteSequence_updates (env : Env) (eng : Bool) (s : State) (CmdIdx Pos : Nat)
    (r : State × Nat) (h : ExecuteSequence env s CmdIdx Pos = some r) :
    Updates env eng s r.1 := by
  rcases ExecuteSequenceFrom_cases env s CmdIdx Pos _ _ r h with h1 | ⟨i, b, hb, h1⟩
  · rw [h1]; exact Updates_refl env eng s
  · rw [h1]; exact Updates_single (executeBinding_update env eng s i b hb)

/-- The scan of `RcSeq_LaunchSequence` either finds no slot, or makes one call
of `ExecuteSequence`. -/
theorem LaunchSequenceFrom_cases (env : Env) (s : State) (Table : Nat) :
    ∀ (n Idx : Nat) (r : State × Nat), LaunchSequenceFrom env s Table n Idx = some r →
      r = (s, 0) ∨ ∃ c p, ExecuteSequence env s c p = some r := by
  intro n
  induction n with
  | zero => intro Idx r h; rw [LaunchSequenceFrom] at h; cases h; exact Or.inl rfl
  | succ n ih =>
    intro Idx r h
    rw [LaunchSequenceFrom] at h
    split at h
    · exact absurd h (by simp)
    · split at h
      · exact Or.inr ⟨_, _, h⟩
      · exact ih _ r h

theorem LaunchSequence_updates (env : Env) (eng : Bool) (s : State) (Table : Nat)
    (r : State × Nat) (h : RcSeq_LaunchSequence env s Table = some r) :
    Updates env eng s r.1 := by
  rcases LaunchSequenceFrom_cases env s Table _ _ r h with h1 | ⟨c, p, h1⟩
  · rw [h1]; exact Updates_refl env eng s
  · exact ExecuteSequence_updates env eng s c p r h1

theorem debounce_updates (env : Env) (eng : Bool) (s s1 : State) (ChIdx : Nat)
    (ch : RcCmdSt_t) (p : Int) (h : debounce env s ChIdx ch p = some s1) :
    Updates env eng s s1 := by
  rcases debounce_cases env s s1 ChIdx ch p h with
    ⟨_, h1⟩ | ⟨_, _, h1⟩ | ⟨_, _, _, h1⟩ | ⟨_, _, _, r, ch1, hr, _, h1⟩
  · rw [h1]; exact Updates_frame env eng _ _ rfl rfl
  · rw [h1]; exact Updates_frame env eng _ _ rfl rfl
  · rw [h1]; exact Updates_frame env eng _ _ rfl rfl
  · rw [h1]
    have q1 : Updates env eng s { s with
        clock := s.clock + 1
        trace := s.trace ++ [Event.trigger ChIdx (u8 p) (u32 (env.millis s.clock))] } :=
      Updates_frame env eng _ _ rfl rfl
    have q2 := ExecuteSequence_updates env eng _ ChIdx (u8 p) r hr
    have q3 : Updates env eng r.1
        { r.1 with RcChannel := r.1.RcChannel.set ChIdx (clearPos ch1) } :=
      Updates_frame env eng _ _ rfl rfl
    exact Updates_trans q1 (Updates_trans q2 q3)

theorem acquireChannel_updates (env : Env) (eng : Bool) (fuel : Nat) (s s1 : State)
    (ChIdx : Nat) (pulse : Option Nat) (h : acquireChannel env fuel s ChIdx pulse = some s1) :
    Updates env eng s s1 := by
  unfold acquireChannel at h
  split at h
  · exact absurd h (by simp)
  · split at h
    · cases h; exact Updates_refl env eng s
    · split at h
      · exact absurd h (by simp)
      · exact debounce_updates env eng s s1 ChIdx _ _ h

theorem acquireFrom_updates (env : Env) (eng : Bool) (fuel : Nat) (pulses : Nat → Option Nat) :
    ∀ (n ChIdx : Nat) (s s1 : State), acquireFrom env fuel pulses n ChIdx s = some s1 →
      Updates env eng s s1 := by
  intro n
  induction n with
  | zero => intro ChIdx s s1 h; rw [acquireFrom] at h; cases h; exact Updates_refl env eng s
  | succ n ih =>
    intro ChIdx s s1 h
    rw [acquireFrom] at h
    cases ha : acquireChannel env fuel s ChIdx (pulses ChIdx) with
    | none => rw [ha] at h; exact absurd h (by simp)
    | some s2 =>
      rw [ha] at h
      exact Updates_trans (acquireChannel_updates env eng fuel s s2 ChIdx _ ha) (ih _ _ _ h)

theorem Keeps_of_registry (Idx : Nat) (b : CmdSequenceSt_t) (s s1 : State)
    (hb : s.CmdSequence[Idx]? = some b) (hC : s1.CmdSequence = s.CmdSequence) :
    Keeps Idx b s1 :=
  ⟨b, by rw [hC]; exact hb, rfl, rfl⟩

/-- A short action line that fires marks its bit, or ends the run on the last
line. -/
theorem shortActionFire_updates (env : Env) (s : State) (Idx SeqLine : Nat)
    (b : CmdSequenceSt_t) (line : SequenceSt_t) (cnt : Nat)
    (hb : s.CmdSequence[Idx]? = some b) (hrun : b.InProgress ≠ 0) :
    Updates env true s (shortActionFire s Idx SeqLine b line cnt) ∧
    (SeqLine + 1 ≠ b.SequenceLength → Keeps Idx b (shortActionFire s Idx SeqLine b line cnt)) := by
  have hlt : Idx < s.CmdSequence.length := (List.getElem?_eq_some_iff.mp hb).1
  unfold shortActionFire
  by_cases hl : SeqLine + 1 = b.SequenceLength
  · rw [if_pos hl]
    exact ⟨Updates_single (Update.finish rfl Idx b hb rfl rfl), fun h => absurd hl h⟩
  · rw [if_neg hl]
    exact ⟨Updates_single (Update.mark rfl Idx b cnt hb hrun rfl rfl),
      fun _ => ⟨_, List.getElem?_set_self hlt, rfl, rfl⟩⟩

theorem motionEndOfSeq_update (env : Env) (s : State) (Idx : Nat) (b : CmdSequenceSt_t)
    (hb : s.CmdSequence[Idx]? = some b) : Update env true s (motionEndOfSeq env s Idx b) := by
  unfold motionEndOfSeq
  by_cases hc : b.Control ≠ 0
  · rw [if_pos hc]
    exact Update.finish rfl Idx b hb rfl rfl
  · rw [if_neg hc]
    exact Update.finish rfl Idx b hb rfl rfl

/-- The update of a motion releases the servo at count 0, and ends the run on
the last line, or stores the lower count. -/
theorem motionAdvance_updates (env : Env) (s : State) (Idx SeqLine : Nat)
    (line : SequenceSt_t) (sv : ServoSt_t) (b : CmdSequenceSt_t) (r Pos : Nat)
    (hsv : s.Servo[u8 line.ServoIndex]? = some sv) (hb : s.CmdSequence[Idx]? = some b)
    (hr : r ≠ 0 → r < sv.RefreshNb) :
    Updates env true s (motionAdvance env s Idx SeqLine line sv b r Pos) ∧
    (SeqLine + 1 ≠ b.SequenceLength →
      Keeps Idx b (motionAdvance env s Idx SeqLine line sv b r Pos)) := by
  unfold motionAdvance
  by_cases h0 : r = 0
  · rw [if_pos h0]
    subst h0
    have q1 : Update env true s
        { emit s (Event.servoWrite (u8 line.ServoIndex) Pos) with
          Servo := (s.Servo.set (u8 line.ServoIndex)
            { RefreshNb := 0, SeqLineInProgress := NO_SEQ_LINE }) } :=
      Update.release rfl (u8 line.ServoIndex) rfl rfl
    by_cases hl : SeqLine + 1 = b.SequenceLength
    · rw [if_pos hl]
      exact ⟨Updates_trans (Updates_single q1)
        (Updates_single (motionEndOfSeq_update env _ Idx b hb)), fun h => absurd hl h⟩
    · rw [if_neg hl]
      exact ⟨Updates_single q1, fun _ => Keeps_of_registry Idx b s _ hb rfl⟩
  · rw [if_neg h0]
    exact ⟨Updates_single (Update.count rfl (u8 line.ServoIndex) sv r hsv h0 (hr h0) rfl rfl),
      fun _ => Keeps_of_registry Idx b s _ hb rfl⟩

theorem motionLineOn_updates (env : Env) (s s1 : State) (Idx SeqLine : Nat)
    (line : SequenceSt_t) (sv : ServoSt_t) (b : CmdSequenceSt_t)
    (hsv : s.Servo[u8 line.ServoIndex]? = some sv) (hb : s.CmdSequence[Idx]? = some b)
    (hline : (env.Flash b.TableOrShortAction)[SeqLine]? = some line) (hSeq : SeqLine ≤ 127)
    (hm : u8 line.ServoIndex ≠ 255)
    (h : motionLineOn env s Idx SeqLine line sv b = some s1) :
    Updates env true s s1 ∧ (SeqLine + 1 ≠ b.SequenceLength → Keeps Idx b s1) := by
  unfold motionLineOn at h
  by_cases h0 : sv.RefreshNb ≠ 0 ∧ SeqLine ≠ sv.SeqLineInProgress
  · rw [if_pos h0] at h
    cases h
    exact ⟨Updates_refl env true s, fun _ => Keeps_of_registry Idx b s s hb rfl⟩
  · rw [if_neg h0] at h
    by_cases h1 : sv.RefreshNb = 0 ∧ sv.SeqLineInProgress = NO_SEQ_LINE
    · rw [if_pos h1] at h
      by_cases h2 : motionDue s b line = true
      · rw [if_pos h2] at h
        cases h
        exact ⟨Updates_single (Update.claim rfl Idx b SeqLine line hb hline hSeq hm rfl rfl),
          fun _ => Keeps_of_registry Idx b s _ hb rfl⟩
      · rw [if_neg h2] at h
        cases h
        exact ⟨Updates_refl env true s, fun _ => Keeps_of_registry Idx b s s hb rfl⟩
    · rw [if_neg h1] at h
      cases hp : motionPos (if sv.RefreshNb ≠ 0 then sv.RefreshNb - 1 else sv.RefreshNb)
          (u8 line.StartInDegrees) (u8 line.EndInDegrees) (u32 line.MotionDurationMs) with
      | none => rw [hp] at h; exact absurd h (by simp)
      | some Pos =>
        rw [hp] at h
        simp only [Option.some.injEq] at h
        rw [← h]
        refine motionAdvance_updates env s Idx SeqLine line sv b _ Pos hsv hb ?_
        intro hr
        by_cases hz : sv.RefreshNb ≠ 0
        · rw [if_pos hz]; omega
        · rw [if_neg hz] at hr; exact absurd hr hz

/-- One line of a running sequence is a series of updates, and before the last
line it leaves the progress flag and the length of its binding alone. -/
theorem lineStep_updates (env : Env) (s s1 : State) (Idx SeqLine cnt : Nat)
    (line : SequenceSt_t) (b : CmdSequenceSt_t) (hb : s.CmdSequence[Idx]? = some b)
    (hrun : b.InProgress ≠ 0)
    (hline : (env.Flash b.TableOrShortAction)[SeqLine]? = some line) (hSeq : SeqLine ≤ 127)
    (h : lineStep env s Idx SeqLine cnt line = some s1) :
    Updates env true s s1 ∧ (SeqLine + 1 ≠ b.SequenceLength → Keeps Idx b s1) := by
  unfold lineStep at h
  by_cases hc : u8 line.ServoIndex = 255
  · rw [if_pos hc] at h
    unfold shortActionLine at h
    rw [hb] at h
    simp only [] at h
    by_cases hd : shortActionDue s b line = true ∧ TST_BIT b.ShortActionMap cnt = 0
    · rw [if_pos hd] at h
      cases h
      exact shortActionFire_updates env s Idx SeqLine b line cnt hb hrun
    · rw [if_neg hd] at h
      cases h
      exact ⟨Updates_refl env true s, fun _ => Keeps_of_registry Idx b s s hb rfl⟩
  · rw [if_neg hc] at h
    unfold motionLine at h
    cases hsv : s.Servo[u8 line.ServoIndex]? with
    | none => rw [hsv] at h; exact absurd h (by simp)
    | some sv =>
      rw [hsv] at h
      simp only [] at h
      rw [hb] at h
      exact motionLineOn_updates env s s1 Idx SeqLine line sv b hsv hb hline hSeq hc h

/-- The lines of a running sequence, from any line on, are a series of updates. -/
theorem linesFrom_updates (env : Env) (Idx : Nat) :
    ∀ (n SeqLine cnt : Nat) (s s1 : State) (b : CmdSequenceSt_t),
      s.CmdSequence[Idx]? = some b → b.InProgress ≠ 0 → SeqLine + n = b.SequenceLength →
      linesFrom env Idx n SeqLine cnt s = some s1 → Updates env true s s1 := by
  intro n
  induction n with
  | zero =>
    intro SeqLine cnt s s1 b _ _ _ h
    obtain ⟨rfl, _⟩ := linesFrom_zero env Idx _ _ _ _ h
    exact Updates_refl env true s
  | succ n ih =>
    intro SeqLine cnt s s1 b hb hrun hlen h
    rw [linesFrom] at h
    by_cases h0 : SeqLine > 127
    · rw [if_pos h0] at h; exact absurd h (by simp)
    · rw [if_neg h0] at h
      rw [hb] at h
      simp only [] at h
      cases hl : (env.Flash b.TableOrShortAction)[SeqLine]? with
      | none => rw [hl] at h; exact absurd h (by simp)
      | some line =>
        rw [hl] at h
        simp only [] at h
        cases hs : lineStep env s Idx SeqLine cnt line with
        | none => rw [hs] at h; exact absurd h (by simp)
        | some s2 =>
          rw [hs] at h
          simp only [] at h
          obtain ⟨u1, k1⟩ := lineStep_updates env s s2 Idx SeqLine cnt line b hb hrun hl
            (by omega) hs
          cases n with
          | zero =>
            obtain ⟨rfl, _⟩ := linesFrom_zero env Idx _ _ _ _ h
            exact u1
          | succ m =>
            obtain ⟨b1, hb1, e1, e2⟩ := k1 (by omega)
            exact Updates_trans u1
              (ih _ _ s2 s1 b1 hb1 (by rw [e1]; exact hrun) (by rw [e2]; omega) h)

theorem engineFrom_updates (env : Env) :
    ∀ (n Idx : Nat) (s s1 : State), engineFrom env n Idx s = some s1 →
      Updates env true s s1 := by
  intro n
  induction n with
  | zero => intro Idx s s1 h; obtain ⟨rfl, _⟩ := engineFrom_zero env _ _ _ h; exact Updates_refl env true s
  | succ n ih =>
    intro Idx s s1 h
    rw [engineFrom] at h
    by_cases h0 : Idx > 127
    · rw [if_pos h0] at h; exact absurd h (by simp)
    · rw [if_neg h0] at h
      cases hb : s.CmdSequence[Idx]? with
      | none => rw [hb] at h; exact absurd h (by simp)
      | some b =>
        rw [hb] at h
        simp only [] at h
        by_cases h1 : b.InProgress = 0 ∨ b.SequenceLength = 0
        · rw [if_pos h1] at h
          exact ih _ _ _ h
        · rw [if_neg h1] at h
          cases hs : linesFrom env Idx b.SequenceLength 0 0 s with
          | none => rw [hs] at h; exact absurd h (by simp)
          | some s2 =>
            rw [hs] at h
            simp only [] at h
            exact Updates_trans
              (linesFrom_updates env Idx _ 0 0 s s2 b hb (fun e => h1 (Or.inl e)) (by omega) hs)
              (ih _ _ _ h)

theorem refreshStatics_updates (env : Env) (eng : Bool) (s : State) :
    Updates env eng s (refreshStatics env s) := by
  unfold refreshStatics
  by_cases h : s.staticsReady = true
  · rw [if_pos h]; exact Updates_refl env eng s
  · rw [if_neg h]
    exact Updates_frame env eng _ _ rfl rfl

theorem refreshEngine_updates (env : Env) (s s1 : State) (h : refreshEngine env s = some s1) :
    Updates env true s s1 := by
  unfold refreshEngine at h
  simp only [] at h
  have q0 : Updates env true s { (millis env s).2 with NowMs := (millis env s).1 } :=
    Updates_frame env true _ _ rfl rfl
  by_cases hg : u32 (((millis env s).1 : Int) - (millis env s).2.StartChronoInterPulseMs) ≥ 20
  · rw [if_pos hg] at h
    cases hs : engineFrom env (millis env s).2.SeqNb 0
        { (millis env s).2 with NowMs := (millis env s).1 } with
    | none => rw [hs] at h; exact absurd h (by simp)
    | some s2 =>
      rw [hs] at h
      simp only [Option.some.injEq] at h
      rw [← h]
      exact Updates_trans q0 (Updates_trans (engineFrom_updates env _ _ _ s2 hs)
        (Updates_frame env true _ _ rfl rfl))
  · rw [if_neg hg] at h
    cases h
    exact q0

/-- A call of `RcSeq_Refresh` is a series of updates. -/
theorem Refresh_updates (env : Env) (fuel : Nat) (pulses : Nat → Option Nat) (s s1 : State)
    (h : RcSeq_Refresh env fuel pulses s = some s1) : Updates env true s s1 := by
  unfold RcSeq_Refresh at h
  cases ha : acquireFrom env fuel pulses (refreshStatics env s).CmdSignalNb 0
      (refreshStatics env s) with
  | none => rw [ha] at h; exact absurd h (by simp)
  | some s2 =>
    rw [ha] at h
    simp only [] at h
    exact Updates_trans (refreshStatics_updates env true s)
      (Updates_trans (acquireFrom_updates env true fuel pulses _ _ _ s2 ha)
        (refreshEngine_updates env s2 s1 h))

/-! ## The calls as series of elementary updates -/

theorem declareFrom_updates (env : Env) (eng : Bool)
    (fill : CmdSequenceSt_t → CmdSequenceSt_t)
    (hfill : ∀ b, (fill b).InProgress = b.InProgress ∧ (fill b).ShortActionMap = b.ShortActionMap)
    (s s1 : State) :
    ∀ (n Idx : Nat), declareFrom fill s n Idx = some s1 → Updates env eng s s1 := by
  intro n
  induction n with
  | zero => intro Idx h; rw [declareFrom] at h; cases h; exact Updates_refl env eng s
  | succ n ih =>
    intro Idx h
    rw [declareFrom] at h
    cases hb : s.CmdSequence[Idx]? with
    | none => rw [hb] at h; exact absurd h (by simp)
    | some b =>
      rw [hb] at h
      simp only [] at h
      by_cases hf : b.TableOrShortAction = 0
      · rw [if_pos hf] at h
        cases h
        exact Updates_single
          (Update.register Idx b (fill b) hb (hfill b).1 (hfill b).2 rfl rfl)
      · rw [if_neg hf] at h
        exact ih _ h

theorem DeclareCommandAndSequence_updates (env : Env) (eng : Bool) (s s1 : State)
    (CmdIdx Pos Table SequenceLength Control : Nat)
    (h : RcSeq_DeclareCommandAndSequence env s CmdIdx Pos Table SequenceLength Control
      = some s1) : Updates env eng s s1 := by
  unfold RcSeq_DeclareCommandAndSequence at h
  split at h
  · exact absurd h (by simp)
  · rename_i s2 hd
    have hw := declareInitialWrites_onlyWrites _ _ _ _ _ _ h
    refine Updates_trans (declareFrom_updates env eng _ ?_ s s2 _ _ hd)
      (Updates_frame env eng s2 s1 (by rw [hw.rest]) (by rw [hw.rest]))
    exact fun b => ⟨rfl, rfl⟩

theorem DeclareServo_registry (env : Env) (s s1 : State) (Idx DigitalPin : Nat)
    (h : RcSeq_DeclareServo env s Idx DigitalPin = some s1) :
    s1.CmdSequence = s.CmdSequence := by
  unfold RcSeq_DeclareServo at h
  split at h
  · split at h
    · exact absurd h (by simp)
    · simp only [Option.some.injEq] at h
      rw [← h]
      split <;> rfl
  · cases h; rfl

/-- A call other than `RcSeq_DeclareServo` and `RcSeq_Refresh` is a series of
updates made outside the sequence management. -/
theorem applyCall_updates_setup (env : Env) (fuel : Nat) (s s1 : State) (c : Call)
    (h1 : Call.isRefresh c = false) (h2 : Call.isDeclareServo c = false)
    (h : applyCall env fuel s c = some s1) : Updates env false s s1 := by
  cases c with
  | init =>
    simp only [applyCall, Option.some.injEq] at h
    rw [← h]
    exact Updates_single (Update.reset rfl rfl)
  | declareSignal Idx DigitalPin =>
    simp only [applyCall, RcSeq_DeclareSignal] at h
    split at h
    · split at h
      · exact absurd h (by simp)
      · cases h; exact Updates_frame env false _ _ rfl rfl
    · cases h; exact Updates_refl env false s
  | declareChannel ChIdx Type_ PulseMinUs PulseMaxUs KeyMap PosNb =>
    simp only [applyCall, RcSeq_DeclareKeyboardOrStickOrCustom] at h
    split at h
    · exact absurd h (by simp)
    · split at h
      · exact absurd h (by simp)
      · cases h; exact Updates_frame env false _ _ rfl rfl
  | declareServo Idx DigitalPin => exact absurd h2 (by simp [Call.isDeclareServo])
  | servoWrite Idx Angle =>
    simp only [applyCall, RcSeq_ServoWrite] at h
    split at h
    · split at h
      · exact absurd h (by simp)
      · cases h; exact Updates_frame env false _ _ rfl rfl
    · cases h; exact Updates_refl env false s
  | declareSequence CmdIdx Pos Table SequenceLength Control =>
    exact DeclareCommandAndSequence_updates env false s s1 _ _ _ _ _ h
  | declareShortAction CmdIdx Pos ShortAction =>
    simp only [applyCall, RcSeq_DeclareCommandAndShortAction] at h
    refine declareFrom_updates env false _ ?_ s s1 _ _ h
    exact fun b => ⟨rfl, rfl⟩
  | trigger CmdIdx Pos =>
    simp only [applyCall] at h
    cases hr : ExecuteSequence env s (u8 CmdIdx) (u8 Pos) with
    | none => rw [hr] at h; exact absurd h (by simp)
    | some r =>
      rw [hr] at h
      simp only [Option.map_some', Option.some.injEq] at h
      rw [← h]
      exact ExecuteSequence_updates env false s _ _ r hr
  | launch Table =>
    simp only [applyCall] at h
    cases hr : RcSeq_LaunchSequence env s Table with
    | none => rw [hr] at h; exact absurd h (by simp)
    | some r =>
      rw [hr] at h
      simp only [Option.map_some', Option.some.injEq] at h
      rw [← h]
      exact LaunchSequence_updates env false s _ r hr
  | refresh pulses => exact absurd h1 (by simp [Call.isRefresh])

/-- A call other than `RcSeq_DeclareServo` is a series of updates. -/
theorem applyCall_updates (env : Env) (fuel : Nat) (s s1 : State) (c : Call)
    (h2 : Call.isDeclareServo c = false)
    (h : applyCall env fuel s c = some s1) : Updates env true s s1 := by
  by_cases h1 : Call.isRefresh c = true
  · cases c with
    | refresh pulses => exact Refresh_updates env fuel pulses s s1 h
    | _ => simp [Call.isRefresh] at h1
  · exact Updates_mono (applyCall_updates_setup env fuel s s1 c (by simpa using h1) h2 h)

/-! ## The map of performed short actions -/

theorem MapInv_update (env : Env) (eng : Bool) (s s1 : State) (h : Update env eng s s1)
    (hI : MapInv s) : MapInv s1 := by
  intro j bj hj h0
  cases h with
  | frame hS hC => rw [hC] at hj; exact hI j bj hj h0
  | reset hS hC =>
    rw [hC, List.getElem?_map] at hj
    cases hq : s.CmdSequence[j]? with
    | none => rw [hq] at hj; simp at hj
    | some b0 =>
      rw [hq] at hj
      simp only [Option.map_some', Option.some.injEq] at hj
      rw [← hj]
  | register i b b1 hb h1 h2 hS hC =>
    rw [hC] at hj
    by_cases hEq : i = j
    · subst hEq
      rw [List.getElem?_set_self (List.getElem?_eq_some_iff.mp hb).1] at hj
      cases hj
      rw [h2]
      exact hI i b hb (by rw [← h1]; exact h0)
    · rw [List.getElem?_set_ne hEq] at hj
      exact hI j bj hj h0
  | start i b t hb hz hS hC =>
    rw [hC] at hj
    by_cases hEq : i = j
    · subst hEq
      rw [List.getElem?_set_self (List.getElem?_eq_some_iff.mp hb).1] at hj
      cases hj
      exact absurd h0 one_ne_zero
    · rw [List.getElem?_set_ne hEq] at hj
      exact hI j bj hj h0
  | mark heng i b cnt hb hrun hS hC =>
    rw [hC] at hj
    by_cases hEq : i = j
    · subst hEq
      rw [List.getElem?_set_self (List.getElem?_eq_some_iff.mp hb).1] at hj
      cases hj
      exact absurd h0 hrun
    · rw [List.getElem?_set_ne hEq] at hj
      exact hI j bj hj h0
  | finish heng i b hb hS hC =>
    rw [hC] at hj
    by_cases hEq : i = j
    · subst hEq
      rw [List.getElem?_set_self (List.getElem?_eq_some_iff.mp hb).1] at hj
      cases hj
      rfl
    · rw [List.getElem?_set_ne hEq] at hj
      exact hI j bj hj h0
  | claim heng i b SeqLine line hb hline hSeq hm hS hC => rw [hC] at hj; exact hI j bj hj h0
  | release heng a hS hC => rw [hC] at hj; exact hI j bj hj h0
  | count heng a sv r hsv hr hlt hS hC => rw [hC] at hj; exact hI j bj hj h0

theorem MapInv_updates (env : Env) (eng : Bool) (s s1 : State) (h : Updates env eng s s1)
    (hI : MapInv s) : MapInv s1 := by
  induction h with
  | refl => exact hI
  | tail _ hstep ih => exact MapInv_update env eng _ _ hstep ih

theorem MapInv_applyCall (env : Env) (fuel : Nat) (s s1 : State) (c : Call)
    (h : applyCall env fuel s c = some s1) (hI : MapInv s) : MapInv s1 := by
  by_cases h2 : Call.isDeclareServo c = true
  · cases c with
    | declareServo Idx DigitalPin =>
      intro j bj hj h0
      rw [DeclareServo_registry env s s1 Idx DigitalPin h] at hj
      exact hI j bj hj h0
    | _ => simp [Call.isDeclareServo] at h2
  · exact MapInv_updates env true s s1
      (applyCall_updates env fuel s s1 c (by simpa using h2) h) hI

theorem MapInv_run (env : Env) (fuel : Nat) :
    ∀ (calls : List Call) (s s1 : State), runCalls env fuel calls s = some s1 → MapInv s →
      MapInv s1 := by
  intro calls
  induction calls with
  | nil => intro s s1 h hI; rw [runCalls] at h; cases h; exact hI
  | cons c cs ih =>
    intro s s1 h hI
    rw [runCalls] at h
    cases ha : applyCall env fuel s c with
    | none => rw [ha] at h; exact absurd h (by simp)
    | some s2 =>
      rw [ha] at h
      exact ih s2 s1 h (MapInv_applyCall env fuel s s2 c ha hI)

theorem MapInv_init (env : Env) (s : State) : MapInv (RcSeq_Init env s) := by
  intro j bj hj _
  simp only [RcSeq_Init, emit, List.getElem?_map] at hj
  cases hq : s.CmdSequence[j]? with
  | none => rw [hq] at hj; simp at hj
  | some b0 =>
    rw [hq] at hj
    simp only [Option.map_some', Option.some.injEq] at hj
    rw [← hj]

/-- The body of `ExecuteSequence` either leaves the registry alone or starts the
run of its binding, which was not in progress, without touching the map. -/
theorem executeBinding_started (env : Env) (s : State) (i : Nat) (b : CmdSequenceSt_t) :
    (executeBinding env s i b).1.CmdSequence = s.CmdSequence ∨
    (b.InProgress = 0 ∧ ∃ t, (executeBinding env s i b).1.CmdSequence =
      s.CmdSequence.set i { b with InProgress := 1, StartChronoMs := t }) := by
  unfold executeBinding
  split
  · exact Or.inl rfl
  · split
    · rename_i h0
      by_cases hc : b.Control ≠ 0
      · by_cases hg : u8 (env.Control s.trace b.Control env.RC_SEQ_START_CONDITION i) ≠ 0
        · simp only [hc, hg, ne_eq, not_false_eq_true, if_true]
          exact Or.inr ⟨h0, _, rfl⟩
        · simp only [ne_eq, not_not] at hg
          simp only [hc, hg, ne_eq, not_false_eq_true, not_true_eq_false, if_true, if_false]
          exact Or.inl rfl
      · simp only [ne_eq, not_not] at hc
        simp only [hc, ne_eq, not_true_eq_false, if_false, one_ne_zero, not_false_eq_true, if_true]
        exact Or.inr ⟨h0, (millis env s).1, rfl⟩
    · exact Or.inl rfl

/-- C20: in every state reached by `RcSeq_Init` followed by any calls of the
library, a binding that is not in progress has `ShortActionMap = 0`; when
`ExecuteSequence` starts the run of a binding (`InProgress` from 0 to 1) its
`ShortActionMap` is 0 after the call; and when a call of `RcSeq_Refresh` ends the
run of a binding (`InProgress` from non-zero to 0) its `ShortActionMap` is 0
after the call. -/
theorem map_cleared (env : Env) (fuel : Nat) (s0 s : State) (calls : List Call)
    (hrun : runCalls env fuel (Call.init :: calls) s0 = some s) :
    (∀ (i : Nat) (b : CmdSequenceSt_t), s.CmdSequence[i]? = some b → b.InProgress = 0 →
      b.ShortActionMap = 0) ∧
    (∀ (CmdIdx Pos : Nat) (r : State × Nat) (i : Nat) (b b1 : CmdSequenceSt_t),
      ExecuteSequence env s CmdIdx Pos = some r → s.CmdSequence[i]? = some b →
      r.1.CmdSequence[i]? = some b1 → b.InProgress = 0 → b1.InProgress ≠ 0 →
      b1.InProgress = 1 ∧ b1.ShortActionMap = 0) ∧
    (∀ (pulses : Nat → Option Nat) (s1 : State) (i : Nat) (b b1 : CmdSequenceSt_t),
      RcSeq_Refresh env fuel pulses s = some s1 → s.CmdSequence[i]? = some b →
      s1.CmdSequence[i]? = some b1 → b.InProgress ≠ 0 → b1.InProgress = 0 →
      b1.ShortActionMap = 0) := by
  have hI : MapInv s := by
    rw [runCalls] at hrun
    exact MapInv_run env fuel calls _ s hrun (MapInv_init env s0)
  refine ⟨hI, ?_, ?_⟩
  · intro CmdIdx Pos r i b b1 hr hb hb1 h0 h1
    rcases ExecuteSequenceFrom_cases env s CmdIdx Pos _ _ r hr with e | ⟨j, bj, hbj, e⟩
    · rw [e, hb] at hb1
      cases hb1
      exact absurd h0 h1
    · rw [e] at hb1
      rcases executeBinding_started env s j bj with hC | ⟨_, t, hC⟩
      · rw [hC, hb] at hb1
        cases hb1
        exact absurd h0 h1
      · rw [hC] at hb1
        by_cases hEq : j = i
        · subst hEq
          rw [List.getElem?_set_self (List.getElem?_eq_some_iff.mp hbj).1] at hb1
          cases hb1
          rw [hb] at hbj
          cases hbj
          exact ⟨rfl, hI j b hb h0⟩
        · rw [List.getElem?_set_ne hEq, hb] at hb1
          cases hb1
          exact absurd h0 h1
  · intro pulses s1 i b b1 hr _ hb1 _ h0
    exact MapInv_updates env true s s1 (Refresh_updates env fuel pulses s s1 hr) hI i b1 hb1 h0

/-- The run of `demoTable` starts in `armedState` and ends in `endedState`, both
with `ShortActionMap = 0`; one tick before the end the bit of the short action
is set. -/
theorem map_cleared_witness :
    runCalls (tickEnv 4 2) 0 (Call.init :: armCalls) blankState = some armedState ∧
    ExecuteSequence (tickEnv 4 2) armedState 0 1 = some startedRun ∧
    armedState.CmdSequence[0]?.map (fun b => b.InProgress) = some 0 ∧
    (∃ b1, startedRun.1.CmdSequence[0]? = some b1 ∧
      b1.InProgress = 1 ∧ b1.ShortActionMap = 0) ∧
    runCalls (tickEnv 4 2) 0 (Call.init :: (seqSetup.tail ++ ticks 26)) blankState
      = some endingState ∧
    RcSeq_Refresh (tickEnv 4 2) 0 (fun _ => none) endingState = some endedState ∧
    endingState.CmdSequence[0]?.map (fun b => (b.InProgress, b.ShortActionMap)) = some (1, 1) ∧
    (∃ b1, endedState.CmdSequence[0]? = some b1 ∧
      b1.InProgress = 0 ∧ b1.ShortActionMap = 0) := by
  have h1 : runCalls (tickEnv 4 2) 0 (Call.init :: armCalls) blankState = some armedState := by
    decide
  have h2 : ExecuteSequence (tickEnv 4 2) armedState 0 1 = some startedRun := by decide
  have h3 : runCalls (tickEnv 4 2) 0 (Call.init :: (seqSetup.tail ++ ticks 26)) blankState
      = some endingState := by decide
  have h4 : RcSeq_Refresh (tickEnv 4 2) 0 (fun _ => none) endingState = some endedState := by
    decide
  refine ⟨h1, h2, by decide, ?_, h3, h4, by decide, ?_⟩
  · refine ⟨startedRun.1.CmdSequence[0], rfl, ?_⟩
    exact (map_cleared (tickEnv 4 2) 0 blankState armedState armCalls h1).2.1 0 1 startedRun 0
      armedState.CmdSequence[0] _ h2 rfl rfl (by decide) (by decide)
  · refine ⟨endedState.CmdSequence[0], rfl, by decide, ?_⟩
    exact (map_cleared (tickEnv 4 2) 0 blankState endingState (seqSetup.tail ++ ticks 26)
      h3).2.2 (fun _ => none) endedState 0 endingState.CmdSequence[0] _ h4 rfl rfl
      (by decide) (by decide)

/-! ## Rest or active invariant of the servos -/

/-- Under `TablesOk` the number of refreshes loaded by a claim is not 0. -/
theorem refreshNb_ne_zero (D : Nat) (h1 : 20 ≤ D) (h2 : D / 20 ≤ 65535) :
    u16 (REFRESH_NB (u32 D)) ≠ 0 := by
  have hD : D < 4294967296 := by omega
  have e1 : u32 (D : Int) = D := by unfold u32; omega
  rw [e1]
  unfold REFRESH_NB REFRESH_INTERVAL_MS u16
  have : 1 ≤ D / 20 := by omega
  omega

theorem set_lookup {α : Type} (l : List α) (i j : Nat) (x y : α)
    (h : (l.set i x)[j]? = some y) : (i = j ∧ y = x) ∨ (i ≠ j ∧ l[j]? = some y) := by
  rw [List.getElem?_set] at h
  by_cases hEq : i = j
  · rw [if_pos hEq] at h
    split at h
    · cases h; exact Or.inl ⟨hEq, rfl⟩
    · exact absurd h (by simp)
  · rw [if_neg hEq] at h
    exact Or.inr ⟨hEq, h⟩

theorem ServoInv_update (env : Env) (eng : Bool) (D : Nat → Prop) (htab : TablesOk env)
    (s s1 : State) (h : Update env eng s s1) (hI : ServoInv D s) : ServoInv D s1 := by
  intro a sv ha
  cases h with
  | frame hS hC => rw [hS] at ha; exact hI a sv ha
  | reset hS hC => rw [hS] at ha; exact hI a sv ha
  | register i b b1 hb h1 h2 hS hC => rw [hS] at ha; exact hI a sv ha
  | start i b t hb hz hS hC => rw [hS] at ha; exact hI a sv ha
  | mark heng i b cnt hb hrun hS hC => rw [hS] at ha; exact hI a sv ha
  | finish heng i b hb hS hC => rw [hS] at ha; exact hI a sv ha
  | claim heng i b SeqLine line hb hline hSeq hm hS hC =>
    rw [hS] at ha
    rcases set_lookup _ _ _ _ _ ha with ⟨_, e⟩ | ⟨_, e⟩
    · subst e
      have ht := htab _ line (List.getElem?_mem hline) hm
      have hn := refreshNb_ne_zero line.MotionDurationMs ht.1 ht.2
      refine ⟨fun _ => ?_, fun _ h0 => absurd h0 hn⟩
      show u8 (SeqLine : Int) ≠ NO_SEQ_LINE
      rw [u8_natCast SeqLine (by omega)]
      unfold NO_SEQ_LINE
      omega
    · exact hI a sv e
  | release heng a1 hS hC =>
    rw [hS] at ha
    rcases set_lookup _ _ _ _ _ ha with ⟨_, e⟩ | ⟨_, e⟩
    · subst e
      exact ⟨fun h0 => absurd rfl h0, fun _ _ => rfl⟩
    · exact hI a sv e
  | count heng a1 sv1 r hsv hr hlt hS hC =>
    rw [hS] at ha
    rcases set_lookup _ _ _ _ _ ha with ⟨_, e⟩ | ⟨_, e⟩
    · subst e
      exact ⟨fun _ => (hI a1 sv1 hsv).1 (by omega), fun _ h0 => absurd h0 hr⟩
    · exact hI a sv e

theorem ServoInv_updates (env : Env) (eng : Bool) (D : Nat → Prop) (htab : TablesOk env)
    (s s1 : State) (h : Updates env eng s s1) (hI : ServoInv D s) : ServoInv D s1 := by
  induction h with
  | refl => exact hI
  | tail _ hstep ih => exact ServoInv_update env eng D htab _ _ hstep ih

/-- The calls other than `RcSeq_DeclareServo` keep the invariant of the servos. -/
theorem ServoInv_run (env : Env) (fuel : Nat) (D : Nat → Prop) (htab : TablesOk env) :
    ∀ (calls : List Call) (s s1 : State), (∀ c ∈ calls, Call.isDeclareServo c = false) →
      runCalls env fuel calls s = some s1 → ServoInv D s → ServoInv D s1 := by
  intro calls
  induction calls with
  | nil => intro s s1 _ h hI; rw [runCalls] at h; cases h; exact hI
  | cons c cs ih =>
    intro s s1 hc h hI
    rw [runCalls] at h
    cases ha : applyCall env fuel s c with
    | none => rw [ha] at h; exact absurd h (by simp)
    | some s2 =>
      rw [ha] at h
      exact ih s2 s1 (fun c1 h1 => hc c1 (List.mem_cons_of_mem _ h1)) h
        (ServoInv_updates env true D htab s s2
          (applyCall_updates env fuel s s2 c (hc c (List.mem_cons_self _ _)) ha) hI)

/-- The updates made outside the sequence management leave the servo table
alone. -/
theorem Updates_setup_servo (env : Env) (s s1 : State) (h : Updates env false s s1) :
    s1.Servo = s.Servo := by
  induction h with
  | refl => rfl
  | tail _ hstep ih =>
    rw [← ih]
    cases hstep with
    | frame hS hC => exact hS
    | reset hS hC => exact hS
    | register i b b1 hb h1 h2 hS hC => exact hS
    | start i b t hb h0 hS hC => exact hS
    | mark heng => exact absurd heng (by simp)
    | finish heng => exact absurd heng (by simp)
    | claim heng => exact absurd heng (by simp)
    | release heng => exact absurd heng (by simp)
    | count heng => exact absurd heng (by simp)

/-- One call made before the first `RcSeq_Refresh` keeps the invariant of the
setup. -/
theorem SetupInv_step (env : Env) (fuel : Nat) (done : List Call) (s s1 : State) (c : Call)
    (hc : Call.isRefresh c = false) (h : applyCall env fuel s c = some s1)
    (hI : SetupInv env done s) : SetupInv env (done ++ [c]) s1 := by
  by_cases h2 : Call.isDeclareServo c = true
  · cases c with
    | declareServo Idx DigitalPin =>
      simp only [applyCall, RcSeq_DeclareServo] at h
      by_cases hlt : Idx < env.SERVO_MAX_NB
      · rw [if_pos hlt] at h
        cases hsv : s.Servo[Idx]? with
        | none => rw [hsv] at h; exact absurd h (by simp)
        | some sv0 =>
          rw [hsv] at h
          simp only [Option.some.injEq] at h
          have hS : s1.Servo = s.Servo.set Idx { sv0 with SeqLineInProgress := NO_SEQ_LINE } := by
            rw [← h]
            split <;> rfl
          intro a sv ha
          rw [hS] at ha
          rcases set_lookup _ _ _ _ _ ha with ⟨_, e⟩ | ⟨hne, e⟩
          · subst e
            exact ⟨(hI Idx sv0 hsv).1, fun _ _ => rfl⟩
          · refine ⟨(hI a sv e).1, fun hd ha1 => (hI a sv e).2 ?_ ha1⟩
            obtain ⟨pin, hp⟩ := hd
            rcases List.mem_append.mp hp with hp1 | hp1
            · exact ⟨pin, hp1⟩
            · simp only [List.mem_singleton, Call.declareServo.injEq] at hp1
              exact absurd hp1.1.symm hne
      · rw [if_neg hlt] at h
        cases h
        intro a sv ha
        refine ⟨(hI a sv ha).1, fun hd ha1 => (hI a sv ha).2 ?_ ha1⟩
        obtain ⟨pin, hp⟩ := hd
        rcases List.mem_append.mp hp with hp1 | hp1
        · exact ⟨pin, hp1⟩
        · simp only [List.mem_singleton, Call.declareServo.injEq] at hp1
          rw [hp1.1] at ha1
          exact absurd ha1 hlt
    | _ => simp [Call.isDeclareServo] at h2
  · have hS := Updates_setup_servo env s s1
      (applyCall_updates_setup env fuel s s1 c hc (by simpa using h2) h)
    intro a sv ha
    rw [hS] at ha
    refine ⟨(hI a sv ha).1, fun hd ha1 => (hI a sv ha).2 ?_ ha1⟩
    obtain ⟨pin, hp⟩ := hd
    rcases List.mem_append.mp hp with hp1 | hp1
    · exact ⟨pin, hp1⟩
    · simp only [List.mem_singleton] at hp1
      rw [← hp1] at h2
      exact absurd rfl h2

theorem SetupInv_run (env : Env) (fuel : Nat) :
    ∀ (rest done : List Call) (s s1 : State), (∀ c ∈ rest, Call.isRefresh c = false) →
      runCalls env fuel rest s = some s1 → SetupInv env done s →
      SetupInv env (done ++ rest) s1 := by
  intro rest
  induction rest with
  | nil =>
    intro done s s1 _ h hI
    rw [runCalls] at h
    cases h
    rw [List.append_nil]
    exact hI
  | cons c cs ih =>
    intro done s s1 hc h hI
    rw [runCalls] at h
    cases ha : applyCall env fuel s c with
    | none => rw [ha] at h; exact absurd h (by simp)
    | some s2 =>
      rw [ha] at h
      have h2 := SetupInv_step env fuel done s s2 c (hc c (List.mem_cons_self _ _)) ha hI
      have := ih (done ++ [c]) s2 s1 (fun c1 h1 => hc c1 (List.mem_cons_of_mem _ h1)) h h2
      rw [List.append_assoc] at this
      exact this

theorem runCalls_append (env : Env) (fuel : Nat) :
    ∀ (a b : List Call) (s : State),
      runCalls env fuel (a ++ b) s = (runCalls env fuel a s).bind (runCalls env fuel b) := by
  intro a
  induction a with
  | nil => intro b s; rfl
  | cons c cs ih =>
    intro b s
    rw [List.cons_append, runCalls, runCalls]
    cases applyCall env fuel s c with
    | none => rfl
    | some s2 => exact ih b s2

/-- C19 (amended): start from a state in which no servo has refreshes left (the
servo table is zeroed at boot), make calls other than `RcSeq_Refresh` (the
setup, with the declarations of the servos), then calls other than
`RcSeq_DeclareServo` (triggers and `RcSeq_Refresh` among them).  If every motion
line of every table lasts at least 20 ms and at most 65535 refresh intervals,
then each servo declared in the setup has `RefreshNb = 0` if and only if
`SeqLineInProgress = NO_SEQ_LINE`. -/
theorem servo_rest_active (env : Env) (fuel : Nat) (s0 s : State) (setup ops : List Call)
    (htab : ∀ (addr : Nat) (line : SequenceSt_t), line ∈ env.Flash addr →
      u8 line.ServoIndex ≠ 255 →
      20 ≤ line.MotionDurationMs ∧ line.MotionDurationMs / 20 ≤ 65535)
    (hboot : ∀ sv ∈ s0.Servo, sv.RefreshNb = 0)
    (hsetup : ∀ c ∈ setup, Call.isRefresh c = false)
    (hops : ∀ c ∈ ops, Call.isDeclareServo c = false)
    (hrun : runCalls env fuel (setup ++ ops) s0 = some s)
    (a pin : Nat) (sv : ServoSt_t) (hdecl : Call.declareServo a pin ∈ setup)
    (ha : a < env.SERVO_MAX_NB) (hsv : s.Servo[a]? = some sv) :
    sv.RefreshNb = 0 ↔ sv.SeqLineInProgress = NO_SEQ_LINE := by
  rw [runCalls_append] at hrun
  cases hm : runCalls env fuel setup s0 with
  | none => rw [hm] at hrun; exact absurd hrun (by simp)
  | some sm =>
    rw [hm] at hrun
    simp only [Option.some_bind] at hrun
    have h0 : SetupInv env [] s0 := by
      intro a1 sv1 h1
      exact ⟨hboot sv1 (List.getElem?_mem h1), fun hd => by simp at hd⟩
    have h1 := SetupInv_run env fuel setup [] s0 sm hsetup hm h0
    rw [List.nil_append] at h1
    have h2 : ServoInv (fun a1 => (∃ pin, Call.declareServo a1 pin ∈ setup) ∧
        a1 < env.SERVO_MAX_NB) sm := by
      intro a1 sv1 hs1
      exact ⟨fun hne => absurd (h1 a1 sv1 hs1).1 hne, fun hd _ => (h1 a1 sv1 hs1).2 hd.1 hd.2⟩
    have h3 := ServoInv_run env fuel _ htab ops sm s hops hrun h2 a sv hsv
    constructor
    · exact h3.2 ⟨⟨pin, hdecl⟩, ha⟩
    · intro hl
      by_contra hne
      exact h3.1 hne hl

/-- In `okEnv`, after the setup of the sequence example, its launch and 5 calls
of `RcSeq_Refresh`, servo 0 has 22 refreshes left and line 1 in progress. -/
theorem servo_rest_active_witness :
    runCalls okEnv 0 (seqSetup.take 3 ++ (Call.launch 100 :: ticks 5)) blankState
      = some midState ∧
    midState.Servo[0]? = some { RefreshNb := 22, SeqLineInProgress := 1 } ∧
    ((22 : Nat) = 0 ↔ (1 : Nat) = NO_SEQ_LINE) := by
  have htab : ∀ (addr : Nat) (line : SequenceSt_t), line ∈ okEnv.Flash addr →
      u8 line.ServoIndex ≠ 255 →
      20 ≤ line.MotionDurationMs ∧ line.MotionDurationMs / 20 ≤ 65535 := by
    intro addr line hl hm
    by_cases h : addr = 100
    · subst h
      have hl1 : line ∈ demoTable := hl
      simp only [demoTable, List.mem_cons, List.mem_singleton, List.not_mem_nil, or_false] at hl1
      rcases hl1 with e | e
      · subst e; exact absurd rfl hm
      · subst e; decide
    · have hl1 : line ∈ ([] : List SequenceSt_t) := by
        have : okEnv.Flash addr = [] := by simp [okEnv, h]
        rw [this] at hl
        exact hl
      simp at hl1
  have hrun : runCalls okEnv 0 (seqSetup.take 3 ++ (Call.launch 100 :: ticks 5)) blankState
      = some midState := by decide
  have hsv : midState.Servo[0]? = some { RefreshNb := 22, SeqLineInProgress := 1 } := by decide
  exact ⟨hrun, hsv, servo_rest_active okEnv 0 blankState midState (seqSetup.take 3)
    (Call.launch 100 :: ticks 5) htab (by decide) (by decide) (by decide) hrun 0 3
    { RefreshNb := 22, SeqLineInProgress := 1 }
    (List.mem_cons_of_mem _ (List.mem_cons_self _ _)) (by decide) hsv⟩

/-- C19 (counterexample): three reachable states in which the declared servo 0
breaks the equivalence.  A line of 10 ms, launched just before an engine tick,
and a line of 1310720 ms (65536 refresh intervals, stored in the 16-bit
`RefreshNb` as 0), claim the servo with `RefreshNb = 0` and the line 0 in
progress; and `RcSeq_DeclareServo` called again
during the motion of `demoTable` sets `NO_SEQ_LINE` while 25 refreshes are
left. -/
theorem servo_rest_active_counterexample :
    (runCalls briefEnv 0
        ([Call.init, Call.declareServo 0 3, Call.declareSequence 0 1 400 1 0] ++ ticks 2
          ++ [Call.launch 400] ++ ticks 1) blankState).map (fun s => s.Servo[0]?) =
      some (some { RefreshNb := 0, SeqLineInProgress := 0 }) ∧
    (runCalls (tickEnv 4 2) 0
        ([Call.init, Call.declareServo 0 3, Call.declareSequence 0 1 200 1 0, Call.launch 200]
          ++ ticks 2) blankState).map (fun s => s.Servo[0]?) =
      some (some { RefreshNb := 0, SeqLineInProgress := 0 }) ∧
    (runCalls (tickEnv 4 2) 0 (seqSetup ++ ticks 2 ++ [Call.declareServo 0 3])
        blankState).map (fun s => s.Servo[0]?) =
      some (some { RefreshNb := 25, SeqLineInProgress := NO_SEQ_LINE }) := by
  decide

/-! ## Short action lines -/

/-- The outcome of a line that calls no short action: the clock reading and the
size of the servo table are kept, the events added are no short action of a
line, and the binding either ends its run on its last line or is unchanged. -/
theorem outcome_quiet (s s2 : State) (Idx l cnt j : Nat) (line : SequenceSt_t)
    (b b2 : CmdSequenceSt_t) (evs : List Event)
    (hf : lineFires s b line cnt = false)
    (h1 : s2.NowMs = s.NowMs) (h2 : s2.Servo.length = s.Servo.length)
    (h3 : s2.trace = s.trace ++ evs) (h4 : lineActions Idx j evs = [])
    (h5 : s2.CmdSequence[Idx]? = some b2)
    (h6 : (b2.InProgress = 0 ∧ l + 1 = b.SequenceLength) ∨ b2 = b) :
    s2.NowMs = s.NowMs ∧ s2.Servo.length = s.Servo.length ∧
    (∃ evs, s2.trace = s.trace ++ evs ∧
      lineActions Idx j evs =
        if l = j ∧ lineFires s b line cnt = true then [line.ShortAction] else []) ∧
    (∃ b2, s2.CmdSequence[Idx]? = some b2 ∧
      ((b2.InProgress = 0 ∧ l + 1 = b.SequenceLength) ∨
       b2 = { b with ShortActionMap :=
                if lineFires s b line cnt = true then SET_BIT b.ShortActionMap cnt
                else b.ShortActionMap })) := by
  refine ⟨h1, h2, ⟨evs, h3, ?_⟩, b2, h5, ?_⟩
  · rw [h4, hf]
    simp
  · rcases h6 with h | h
    · exact Or.inl h
    · right
      rw [h, hf]
      simp

/-- The outcome of one line of a running sequence, seen from the short action
line `j` of its binding. -/
theorem lineStep_outcome (env : Env) (s s2 : State) (Idx l cnt j : Nat) (line : SequenceSt_t)
    (b : CmdSequenceSt_t) (hb : s.CmdSequence[Idx]? = some b)
    (h : lineStep env s Idx l cnt line = some s2) :
    s2.NowMs = s.NowMs ∧ s2.Servo.length = s.Servo.length ∧
    (∃ evs, s2.trace = s.trace ++ evs ∧
      lineActions Idx j evs =
        if l = j ∧ lineFires s b line cnt = true then [line.ShortAction] else []) ∧
    (∃ b2, s2.CmdSequence[Idx]? = some b2 ∧
      ((b2.InProgress = 0 ∧ l + 1 = b.SequenceLength) ∨
       b2 = { b with ShortActionMap :=
                if lineFires s b line cnt = true then SET_BIT b.ShortActionMap cnt
                else b.ShortActionMap })) := by
  have hlt : Idx < s.CmdSequence.length := (List.getElem?_eq_some_iff.mp hb).1
  unfold lineStep at h
  by_cases hc : u8 line.ServoIndex = 255
  · rw [if_pos hc] at h
    unfold shortActionLine at h
    rw [hb] at h
    simp only [] at h
    by_cases hd : shortActionDue s b line = true ∧ TST_BIT b.ShortActionMap cnt = 0
    · rw [if_pos hd] at h
      have hf : lineFires s b line cnt = true := by
        unfold lineFires
        exact decide_eq_true ⟨hc, hd⟩
      cases h
      refine ⟨rfl, rfl, ⟨[Event.lineAction Idx l line.ShortAction], rfl, ?_⟩, ?_⟩
      · rw [hf]
        by_cases hj : l = j
        · simp [lineActions, hj]
        · simp [lineActions, hj]
      · unfold shortActionFire
        by_cases hl : l + 1 = b.SequenceLength
        · rw [if_pos hl]
          exact ⟨_, List.getElem?_set_self hlt, Or.inl ⟨rfl, hl⟩⟩
        · rw [if_neg hl]
          refine ⟨_, List.getElem?_set_self hlt, Or.inr ?_⟩
          rw [hf]
          simp
    · rw [if_neg hd] at h
      cases h
      have hf : lineFires s b line cnt = false := by
        unfold lineFires
        exact decide_eq_false (fun q => hd q.2)
      exact outcome_quiet s s Idx l cnt j line b b [] hf rfl rfl (by simp) rfl hb (Or.inr rfl)
  · rw [if_neg hc] at h
    have hf : lineFires s b line cnt = false := by
      unfold lineFires
      exact decide_eq_false (fun q => hc q.1)
    unfold motionLine at h
    cases hsv : s.Servo[u8 line.ServoIndex]? with
    | none => rw [hsv] at h; exact absurd h (by simp)
    | some sv =>
      rw [hsv] at h
      simp only [] at h
      rw [hb] at h
      simp only [] at h
      unfold motionLineOn at h
      by_cases h0 : sv.RefreshNb ≠ 0 ∧ l ≠ sv.SeqLineInProgress
      · rw [if_pos h0] at h
        cases h
        exact outcome_quiet s s Idx l cnt j line b b [] hf rfl rfl (by simp) rfl hb (Or.inr rfl)
      · rw [if_neg h0] at h
        by_cases h1 : sv.RefreshNb = 0 ∧ sv.SeqLineInProgress = NO_SEQ_LINE
        · rw [if_pos h1] at h
          by_cases h2 : motionDue s b line = true
          · rw [if_pos h2] at h
            cases h
            exact outcome_quiet s _ Idx l cnt j line b b
              [Event.servoWrite (u8 line.ServoIndex) (u8 line.StartInDegrees)] hf rfl
              (List.length_set _ _ _) rfl rfl hb (Or.inr rfl)
          · rw [if_neg h2] at h
            cases h
            exact outcome_quiet s s Idx l cnt j line b b [] hf rfl rfl (by simp) rfl hb
              (Or.inr rfl)
        · rw [if_neg h1] at h
          cases hp : motionPos (if sv.RefreshNb ≠ 0 then sv.RefreshNb - 1 else sv.RefreshNb)
              (u8 line.StartInDegrees) (u8 line.EndInDegrees) (u32 line.MotionDurationMs) with
          | none => rw [hp] at h; exact absurd h (by simp)
          | some Pos =>
            rw [hp] at h
            simp only [Option.some.injEq] at h
            rw [← h]
            unfold motionAdvance
            by_cases hr : (if sv.RefreshNb ≠ 0 then sv.RefreshNb - 1 else sv.RefreshNb) = 0
            · rw [if_pos hr]
              by_cases hl : l + 1 = b.SequenceLength
              · rw [if_pos hl]
                unfold motionEndOfSeq
                by_cases hk : b.Control ≠ 0
                · rw [if_pos hk]
                  exact outcome_quiet s _ Idx l cnt j line b _
                    [Event.servoWrite (u8 line.ServoIndex) Pos,
                     Event.control b.Control env.RC_SEQ_END_OF_SEQ Idx] hf rfl
                    (List.length_set _ _ _) (by simp [emit]) rfl
                    (List.getElem?_set_self hlt) (Or.inl ⟨rfl, hl⟩)
                · rw [if_neg hk]
                  exact outcome_quiet s _ Idx l cnt j line b _
                    [Event.servoWrite (u8 line.ServoIndex) Pos] hf rfl
                    (List.length_set _ _ _) rfl rfl
                    (List.getElem?_set_self hlt) (Or.inl ⟨rfl, hl⟩)
              · rw [if_neg hl]
                exact outcome_quiet s _ Idx l cnt j line b b
                  [Event.servoWrite (u8 line.ServoIndex) Pos] hf rfl
                  (List.length_set _ _ _) rfl rfl hb (Or.inr rfl)
            · rw [if_neg hr]
              exact outcome_quiet s _ Idx l cnt j line b b
                [Event.servoWrite (u8 line.ServoIndex) Pos] hf rfl
                (List.length_set _ _ _) rfl rfl hb (Or.inr rfl)

/-- The truncating division by 20 gives 0 exactly between -20 and 20. -/
theorem tdiv_twenty (x : Int) : Int.tdiv x 20 = 0 ↔ (-20 < x ∧ x < 20) := by
  constructor
  · intro h
    have h1 := Int.natAbs_tdiv x 20
    rw [h] at h1
    have h2 : x.natAbs / 20 = 0 := h1.symm
    have h3 : x.natAbs < 20 := by omega
    omega
  · intro h
    rcases Int.le_total 0 x with h0 | h0
    · exact Int.tdiv_eq_zero_of_lt h0 h.2
    · have : Int.tdiv (-x) 20 = 0 := Int.tdiv_eq_zero_of_lt (by omega) (by omega)
      rw [Int.neg_tdiv] at this
      omega

/-- The divisor of the position update, `((int32_t)MotionDurationMs) / 20`, is
not 0 for a duration from 20 to 4294967276 ms: the update has a result. -/
theorem motionPos_isSome (r S E D : Nat) (hD : 20 ≤ D) (hD32 : D ≤ 4294967276) :
    ∃ p, motionPos r S E (u32 D) = some p := by
  have hu : u32 (D : Int) = D := u32_natCast _ (by omega)
  have h20 : ((REFRESH_INTERVAL_MS : Nat) : Int) = 20 := rfl
  have hne : ¬ Int.tdiv (i32 (D : Int)) 20 = 0 := by
    rw [tdiv_twenty]
    unfold i32
    omega
  unfold motionPos
  rw [hu, h20]
  split
  · rename_i h; exact absurd h hne
  · exact ⟨_, rfl⟩

/-- One line of a sequence has a result when its binding exists and, for a
motion line, its servo exists and its duration is at least 20 ms. -/
theorem lineStep_total (env : Env) (s : State) (Idx l cnt : Nat) (line : SequenceSt_t)
    (b : CmdSequenceSt_t) (hb : s.CmdSequence[Idx]? = some b)
    (hm : u8 line.ServoIndex ≠ 255 → u8 line.ServoIndex < s.Servo.length ∧
      20 ≤ line.MotionDurationMs ∧ line.MotionDurationMs ≤ 4294967276) :
    ∃ s2, lineStep env s Idx l cnt line = some s2 := by
  unfold lineStep
  by_cases hc : u8 line.ServoIndex = 255
  · rw [if_pos hc]
    unfold shortActionLine
    rw [hb]
    simp only []
    split
    · exact ⟨_, rfl⟩
    · exact ⟨_, rfl⟩
  · rw [if_neg hc]
    obtain ⟨hlt, hD, hD31⟩ := hm hc
    unfold motionLine
    rw [List.getElem?_eq_getElem hlt]
    simp only []
    rw [hb]
    simp only []
    unfold motionLineOn
    split
    · exact ⟨_, rfl⟩
    · split
      · split
        · exact ⟨_, rfl⟩
        · exact ⟨_, rfl⟩
      · obtain ⟨p, hp⟩ := motionPos_isSome
          (if (s.Servo[u8 line.ServoIndex]).RefreshNb ≠ 0
            then (s.Servo[u8 line.ServoIndex]).RefreshNb - 1
            else (s.Servo[u8 line.ServoIndex]).RefreshNb)
          (u8 line.StartInDegrees) (u8 line.EndInDegrees) line.MotionDurationMs hD hD31
        rw [hp]
        exact ⟨_, rfl⟩

/-- The line loop of a sequence of 128 lines or more has no result: after line
127 the `int8_t` counter wraps to -128 and the loop goes on at a negative index
of the table. -/
theorem linesFrom_wrap (env : Env) (Idx : Nat) :
    ∀ (n l cnt : Nat) (s : State), 128 ≤ l + n → linesFrom env Idx n l cnt s = none := by
  intro n
  induction n with
  | zero => intro l cnt s h; rw [linesFrom, if_pos (by omega)]
  | succ n ih =>
    intro l cnt s h
    rw [linesFrom]
    split
    · rfl
    · split
      · rfl
      · split
        · rfl
        · split
          · rfl
          · exact ih _ _ _ (by omega)

/-- The lines of a sequence, from any line on, have a result for a table that
has the declared number of lines, at most 127, and whose motion lines name
existing servos and last from 20 to 4294967276 ms. -/
theorem linesFrom_total (env : Env) (Idx : Nat) (T : List SequenceSt_t) (servos : Nat)
    (hwf : ∀ line ∈ T, u8 line.ServoIndex ≠ 255 →
      u8 line.ServoIndex < servos ∧ 20 ≤ line.MotionDurationMs ∧
        line.MotionDurationMs ≤ 4294967276) :
    ∀ (n l cnt : Nat) (s : State) (b : CmdSequenceSt_t),
      s.CmdSequence[Idx]? = some b → env.Flash b.TableOrShortAction = T →
      l + n = b.SequenceLength → b.SequenceLength ≤ 127 → b.SequenceLength ≤ T.length →
      servos ≤ s.Servo.length →
      ∃ s1, linesFrom env Idx n l cnt s = some s1 := by
  intro n
  induction n with
  | zero =>
    intro l cnt s b _ _ hlen hmax _ _
    rw [linesFrom, if_neg (by omega)]
    exact ⟨s, rfl⟩
  | succ n ih =>
    intro l cnt s b hb hT hlen hmax hlenT hS
    have hlt : l < T.length := by omega
    have hl := List.getElem?_eq_getElem hlt
    obtain ⟨s2, hs⟩ := lineStep_total env s Idx l cnt T[l] b hb (fun hm => by
      obtain ⟨h1, h2, h3⟩ := hwf _ (List.getElem_mem hlt) hm
      exact ⟨by omega, h2, h3⟩)
    obtain ⟨_, hSl, _, b2, hb2, hcase⟩ := lineStep_outcome env s s2 Idx l cnt 0 T[l] b hb hs
    rw [linesFrom, if_neg (by omega), hb]
    simp only []
    rw [hT, hl]
    simp only []
    rw [hs]
    simp only []
    rcases hcase with ⟨_, hlast⟩ | hb2eq
    · have hn : n = 0 := by omega
      subst hn
      rw [linesFrom, if_neg (by omega)]
      exact ⟨s2, rfl⟩
    · exact ih (l + 1) _ s2 b2 hb2 (by rw [hb2eq]; exact hT)
        (by rw [hb2eq]; show _ = b.SequenceLength; omega) (by rw [hb2eq]; exact hmax)
        (by rw [hb2eq]; exact hlenT) (by rw [hSl]; exact hS)

theorem Acquired_refl (s : State) : Acquired s s :=
  ⟨rfl, rfl, rfl, rfl, fun _ b hb => ⟨b, hb, rfl, rfl, fun _ => rfl⟩, [], by simp, by simp⟩

theorem Acquired_trans {s s1 s2 : State} (h1 : Acquired s s1) (h2 : Acquired s1 s2) :
    Acquired s s2 := by
  obtain ⟨a1, b1, c1, d1, f1, e1, he1, hq1⟩ := h1
  obtain ⟨a2, b2, c2, d2, f2, e2, he2, hq2⟩ := h2
  refine ⟨by rw [a2, a1], by rw [b2, b1], by rw [c2, c1], by rw [d2, d1], ?_, e1 ++ e2, ?_, ?_⟩
  · intro i b hb
    obtain ⟨x, hx, x1, x2, x3⟩ := f1 i b hb
    obtain ⟨y, hy, y1, y2, y3⟩ := f2 i x hx
    refine ⟨y, hy, by rw [y1, x1], by rw [y2, x2], fun hp => ?_⟩
    have hxb := x3 hp
    rw [y3 (by rw [hxb]; exact hp), hxb]
  · rw [he2, he1, List.append_assoc]
  · intro e he
    rcases List.mem_append.mp he with h | h
    · exact hq1 e h
    · exact hq2 e h

/-- A step that keeps the servo table, the registry, the number of bindings and
the timestamp of the last engine run, and adds the events `evs`. -/
theorem Acquired_of_fields (s s1 : State) (evs : List Event) (h1 : s1.Servo = s.Servo)
    (h2 : s1.CmdSequence = s.CmdSequence) (h3 : s1.SeqNb = s.SeqNb)
    (h4 : s1.StartChronoInterPulseMs = s.StartChronoInterPulseMs)
    (h5 : s1.trace = s.trace ++ evs) (h6 : ∀ e ∈ evs, Event.isEngine e = false) :
    Acquired s s1 :=
  ⟨h1, h4, h3, by rw [h2], fun i b hb => ⟨b, by rw [h2]; exact hb, rfl, rfl, fun _ => rfl⟩,
    evs, h5, h6⟩

/-- The start of the run of binding `i`, which was not in progress. -/
theorem Acquired_start (s s1 : State) (i t : Nat) (b : CmdSequenceSt_t) (evs : List Event)
    (hb : s.CmdSequence[i]? = some b) (h0 : b.InProgress = 0) (h1 : s1.Servo = s.Servo)
    (h2 : s1.CmdSequence = s.CmdSequence.set i { b with InProgress := 1, StartChronoMs := t })
    (h3 : s1.SeqNb = s.SeqNb)
    (h4 : s1.StartChronoInterPulseMs = s.StartChronoInterPulseMs)
    (h5 : s1.trace = s.trace ++ evs) (h6 : ∀ e ∈ evs, Event.isEngine e = false) :
    Acquired s s1 := by
  refine ⟨h1, h4, h3, by rw [h2, List.length_set], ?_, evs, h5, h6⟩
  intro j bj hj
  rw [h2]
  by_cases hEq : i = j
  · subst hEq
    rw [hb] at hj
    cases hj
    exact ⟨_, List.getElem?_set_self (List.getElem?_eq_some_iff.mp hb).1, rfl, rfl,
      fun hp => absurd h0 hp⟩
  · exact ⟨bj, by rw [List.getElem?_set_ne hEq]; exact hj, rfl, rfl, fun _ => rfl⟩

theorem executeBinding_acquired (env : Env) (s : State) (i : Nat) (b : CmdSequenceSt_t)
    (hb : s.CmdSequence[i]? = some b) : Acquired s (executeBinding env s i b).1 := by
  unfold executeBinding
  split
  · exact Acquired_of_fields s _ [Event.shortAction b.TableOrShortAction] rfl rfl rfl rfl rfl
      (by simp [Event.isEngine])
  · split
    · rename_i h0
      by_cases hc : b.Control ≠ 0
      · by_cases hg : u8 (env.Control s.trace b.Control env.RC_SEQ_START_CONDITION i) ≠ 0
        · simp only [hc, hg, ne_eq, not_false_eq_true, if_true]
          exact Acquired_start s _ i _ b
            [Event.control b.Control env.RC_SEQ_START_CONDITION i] hb h0 rfl rfl rfl rfl rfl
            (by simp [Event.isEngine])
        · simp only [ne_eq, not_not] at hg
          simp only [hc, hg, ne_eq, not_false_eq_true, not_true_eq_false, if_true, if_false]
          exact Acquired_of_fields s _ [Event.control b.Control env.RC_SEQ_START_CONDITION i]
            rfl rfl rfl rfl rfl (by simp [Event.isEngine])
      · simp only [ne_eq, not_not] at hc
        simp only [hc, ne_eq, not_true_eq_false, if_false, one_ne_zero, not_false_eq_true, if_true]
        exact Acquired_start s _ i (millis env s).1 b [] hb h0 rfl (by simp only [hc]; rfl) rfl
          rfl (by simp [millis]) (by simp)
    · exact Acquired_refl s

theorem ExecuteSequence_acquired (env : Env) (s : State) (CmdIdx Pos : Nat) (r : State × Nat)
    (h : ExecuteSequence env s CmdIdx Pos = some r) : Acquired s r.1 := by
  rcases ExecuteSequenceFrom_cases env s CmdIdx Pos _ _ r h with h1 | ⟨i, b, hb, h1⟩
  · rw [h1]; exact Acquired_refl s
  · rw [h1]; exact executeBinding_acquired env s i b hb

theorem debounce_acquired (env : Env) (s s1 : State) (ChIdx : Nat) (ch : RcCmdSt_t) (p : Int)
    (h : debounce env s ChIdx ch p = some s1) : Acquired s s1 := by
  rcases debounce_cases env s s1 ChIdx ch p h with
    ⟨_, h1⟩ | ⟨_, _, h1⟩ | ⟨_, _, _, h1⟩ | ⟨_, _, _, r, ch1, hr, _, h1⟩
  · rw [h1]; exact Acquired_of_fields s _ [] rfl rfl rfl rfl (by simp) (by simp)
  · rw [h1]; exact Acquired_of_fields s _ [] rfl rfl rfl rfl (by simp) (by simp)
  · rw [h1]; exact Acquired_of_fields s _ [] rfl rfl rfl rfl (by simp) (by simp)
  · rw [h1]
    have q1 : Acquired s { s with
        clock := s.clock + 1
        trace := s.trace ++ [Event.trigger ChIdx (u8 p) (u32 (env.millis s.clock))] } :=
      Acquired_of_fields s _ [Event.trigger ChIdx (u8 p) (u32 (env.millis s.clock))]
        rfl rfl rfl rfl rfl (by simp [Event.isEngine])
    have q2 := ExecuteSequence_acquired env _ ChIdx (u8 p) r hr
    have q3 : Acquired r.1 { r.1 with RcChannel := r.1.RcChannel.set ChIdx (clearPos ch1) } :=
      Acquired_of_fields r.1 _ [] rfl rfl rfl rfl (by simp) (by simp)
    exact Acquired_trans q1 (Acquired_trans q2 q3)

theorem acquireChannel_acquired (env : Env) (fuel : Nat) (s s1 : State)
    (ChIdx : Nat) (pulse : Option Nat) (h : acquireChannel env fuel s ChIdx pulse = some s1) :
    Acquired s s1 := by
  unfold acquireChannel at h
  split at h
  · exact absurd h (by simp)
  · split at h
    · cases h; exact Acquired_refl s
    · split at h
      · exact absurd h (by simp)
      · exact debounce_acquired env s s1 ChIdx _ _ h

theorem acquireFrom_acquired (env : Env) (fuel : Nat) (pulses : Nat → Option Nat) :
    ∀ (n ChIdx : Nat) (s s1 : State), acquireFrom env fuel pulses n ChIdx s = some s1 →
      Acquired s s1 := by
  intro n
  induction n with
  | zero => intro ChIdx s s1 h; rw [acquireFrom] at h; cases h; exact Acquired_refl s
  | succ n ih =>
    intro ChIdx s s1 h
    rw [acquireFrom] at h
    cases ha : acquireChannel env fuel s ChIdx (pulses ChIdx) with
    | none => rw [ha] at h; exact absurd h (by simp)
    | some s2 =>
      rw [ha] at h
      exact Acquired_trans (acquireChannel_acquired env fuel s s2 ChIdx _ ha) (ih _ _ _ h)

/-- The initialisation of the function-static variables keeps the servo table,
the registry and the trace. -/
theorem refreshStatics_frame (env : Env) (s : State) :
    (refreshStatics env s).Servo = s.Servo ∧
    (refreshStatics env s).CmdSequence = s.CmdSequence ∧
    (refreshStatics env s).SeqNb = s.SeqNb ∧
    (refreshStatics env s).RcChannel = s.RcChannel ∧
    (refreshStatics env s).trace = s.trace ∧
    (s.staticsReady = true → refreshStatics env s = s) := by
  unfold refreshStatics
  by_cases h : s.staticsReady = true
  · rw [if_pos h]
    exact ⟨rfl, rfl, rfl, rfl, rfl, fun _ => rfl⟩
  · rw [if_neg h]
    exact ⟨rfl, rfl, rfl, rfl, rfl, fun q => absurd q h⟩

theorem servoWrites_noEngine (a : Nat) (evs : List Event)
    (h : ∀ e ∈ evs, Event.isEngine e = false) : servoWrites a evs = [] := by
  induction evs with
  | nil => rfl
  | cons e es ih =>
    have he := h e (List.mem_cons_self _ _)
    have ht := ih (fun x hx => h x (List.mem_cons_of_mem _ hx))
    cases e with
    | servoWrite Idx Angle => simp [Event.isEngine] at he
    | _ => simpa [servoWrites] using ht

theorem lineActions_noEngine (i l : Nat) (evs : List Event)
    (h : ∀ e ∈ evs, Event.isEngine e = false) : lineActions i l evs = [] := by
  induction evs with
  | nil => rfl
  | cons e es ih =>
    have he := h e (List.mem_cons_self _ _)
    have ht := ih (fun x hx => h x (List.mem_cons_of_mem _ hx))
    cases e with
    | lineAction i1 l1 fn => simp [Event.isEngine] at he
    | _ => simpa [lineActions] using ht

/-- C21: in a call of `RcSeq_Refresh` whose command acquisition leaves the state
`s1`, the engine is gated by the wrapped difference between the clock reading
made at the gate and `StartChronoInterPulseMs`, the reading recorded at the end
of the previous engine run (at the initialisation of the statics before the
first one).  Below 20 ms the call has a result in which the servo table is
unchanged, no position is written, no short action line is called, the forced
refresh is not made, every binding in progress is unchanged and the recorded
reading is kept; the engine, whose run ends with the forced refresh, runs only
when the difference is at least 20 ms, and then it does run. -/
theorem engine_gate (env : Env) (fuel : Nat) (pulses : Nat → Option Nat) (s s1 : State)
    (hacq : acquireFrom env fuel pulses (refreshStatics env s).CmdSignalNb 0
      (refreshStatics env s) = some s1) :
    (u32 ((u32 (env.millis s1.clock) : Int) -
        (refreshStatics env s).StartChronoInterPulseMs) < 20 →
      ∃ s2, RcSeq_Refresh env fuel pulses s = some s2 ∧
        s2.NowMs = u32 (env.millis s1.clock) ∧ s2.Servo = s.Servo ∧
        s2.StartChronoInterPulseMs = (refreshStatics env s).StartChronoInterPulseMs ∧
        (∀ e ∈ newEvents s s2, Event.isEngine e = false) ∧
        (∀ a, servoWrites a (newEvents s s2) = []) ∧
        (∀ i l, lineActions i l (newEvents s s2) = []) ∧
        (∀ (i : Nat) (b : CmdSequenceSt_t), s.CmdSequence[i]? = some b → b.InProgress ≠ 0 →
          s2.CmdSequence[i]? = some b)) ∧
    (20 ≤ u32 ((u32 (env.millis s1.clock) : Int) -
        (refreshStatics env s).StartChronoInterPulseMs) →
      ∀ s2, RcSeq_Refresh env fuel pulses s = some s2 →
        Event.servoRefresh ∈ newEvents s s2) := by
  have hA := acquireFrom_acquired env fuel pulses _ _ _ s1 hacq
  obtain ⟨f1, f2, _, _, f5, _⟩ := refreshStatics_frame env s
  obtain ⟨evs, hevs, hq⟩ := hA.trace
  rw [f5] at hevs
  constructor
  · intro hgate
    have hg : ¬ u32 ((({ (millis env s1).2 with NowMs := (millis env s1).1 } : State).NowMs
        : Int) - ({ (millis env s1).2 with NowMs := (millis env s1).1 } :
          State).StartChronoInterPulseMs) ≥ 20 := by
      show ¬ u32 ((u32 (env.millis s1.clock) : Int) - s1.StartChronoInterPulseMs) ≥ 20
      rw [hA.chrono]
      omega
    have hev : newEvents s { (millis env s1).2 with NowMs := (millis env s1).1 } = evs :=
      newEvents_append s _ evs hevs
    refine ⟨{ (millis env s1).2 with NowMs := (millis env s1).1 }, ?_, rfl, ?_, hA.chrono,
      ?_, ?_, ?_, ?_⟩
    · unfold RcSeq_Refresh
      rw [hacq]
      simp only []
      unfold refreshEngine
      simp only []
      rw [if_neg hg]
    · show s1.Servo = s.Servo
      rw [hA.servo, f1]
    · rw [hev]; exact hq
    · intro a
      rw [hev]
      exact servoWrites_noEngine a evs hq
    · intro i l
      rw [hev]
      exact lineActions_noEngine i l evs hq
    · intro i b hb hp
      rw [← f2] at hb
      obtain ⟨b1, hb1, _, _, h4⟩ := hA.shape i b hb
      rw [h4 hp] at hb1
      exact hb1
  · intro hgate s2 h
    have hg : u32 ((({ (millis env s1).2 with NowMs := (millis env s1).1 } : State).NowMs
        : Int) - ({ (millis env s1).2 with NowMs := (millis env s1).1 } :
          State).StartChronoInterPulseMs) ≥ 20 := by
      show u32 ((u32 (env.millis s1.clock) : Int) - s1.StartChronoInterPulseMs) ≥ 20
      rw [hA.chrono]
      exact hgate
    unfold RcSeq_Refresh at h
    rw [hacq] at h
    simp only [] at h
    unfold refreshEngine at h
    simp only [] at h
    rw [if_pos hg] at h
    cases hs : engineFrom env (millis env s1).2.SeqNb 0
        { (millis env s1).2 with NowMs := (millis env s1).1 } with
    | none => rw [hs] at h; exact absurd h (by simp)
    | some s3 =>
      rw [hs] at h
      simp only [Option.some.injEq] at h
      obtain ⟨_, _, _, e3, he3, _⟩ := engineFrom_quiet env _ _ _ s3 hs
      have ht : s2.trace = s.trace ++ (evs ++ e3 ++ [Event.servoRefresh]) := by
        rw [← h]
        show s3.trace ++ [Event.servoRefresh] = _
        rw [he3]
        show (s1.trace ++ e3) ++ [Event.servoRefresh] = _
        rw [hevs]
        simp
      rw [newEvents_append s s2 _ ht]
      simp

/-- In `recentTick` a call made at 1000 ms, 10 ms after the last engine run,
with a fresh pulse on channel 0, has a result that leaves the servo table alone
and adds no event of the sequence management. -/
theorem engine_gate_witness :
    acquireFrom stillEnv 200 pulse1300 (refreshStatics stillEnv recentTick).CmdSignalNb 0
      (refreshStatics stillEnv recentTick) = some acquiredTick ∧
    u32 ((u32 (stillEnv.millis acquiredTick.clock) : Int) -
      (refreshStatics stillEnv recentTick).StartChronoInterPulseMs) = 10 ∧
    ∃ s2, RcSeq_Refresh stillEnv 200 pulse1300 recentTick = some s2 ∧
      s2.NowMs = u32 (stillEnv.millis acquiredTick.clock) ∧ s2.Servo = recentTick.Servo ∧
      s2.StartChronoInterPulseMs = (refreshStatics stillEnv recentTick).StartChronoInterPulseMs ∧
      (∀ e ∈ newEvents recentTick s2, Event.isEngine e = false) ∧
      (∀ a, servoWrites a (newEvents recentTick s2) = []) ∧
      (∀ i l, lineActions i l (newEvents recentTick s2) = []) ∧
      (∀ (i : Nat) (b : CmdSequenceSt_t), recentTick.CmdSequence[i]? = some b →
        b.InProgress ≠ 0 → s2.CmdSequence[i]? = some b) := by
  have h1 : acquireFrom stillEnv 200 pulse1300 (refreshStatics stillEnv recentTick).CmdSignalNb 0
      (refreshStatics stillEnv recentTick) = some acquiredTick := by decide
  exact ⟨h1, by decide,
    (engine_gate stillEnv 200 pulse1300 recentTick acquiredTick h1).1 (by decide)⟩

/-! ## The command acquisition and the 20 ms gate -/

/-- The command acquisition changes nothing when no channel has a fresh pulse. -/
theorem acquireFrom_idle (env : Env) (fuel : Nat) (pulses : Nat → Option Nat)
    (hp : ∀ c, pulses c = none) :
    ∀ (n ChIdx : Nat) (s s1 : State), acquireFrom env fuel pulses n ChIdx s = some s1 →
      s1 = s := by
  intro n
  induction n with
  | zero => intro ChIdx s s1 h; rw [acquireFrom] at h; cases h; rfl
  | succ n ih =>
    intro ChIdx s s1 h
    rw [acquireFrom] at h
    cases ha : acquireChannel env fuel s ChIdx (pulses ChIdx) with
    | none => rw [ha] at h; exact absurd h (by simp)
    | some s2 =>
      rw [ha] at h
      simp only [] at h
      have h2 : s2 = s := by
        unfold acquireChannel at ha
        rw [hp ChIdx] at ha
        split at ha
        · exact absurd ha (by simp)
        · simp only [Option.some.injEq] at ha
          exact ha.symm
      rw [h2] at h
      exact ih _ _ _ h

/-- A call of `RcSeq_Refresh` is its command acquisition followed by its
sequence management; the events of the first are none of the sequence
management, the events of the second are no trigger, and the second leaves the
channels alone. -/
theorem Refresh_split (env : Env) (fuel : Nat) (pulses : Nat → Option Nat) (s s2 : State)
    (h : RcSeq_Refresh env fuel pulses s = some s2) :
    ∃ s1 e1 e2, acquireFrom env fuel pulses (refreshStatics env s).CmdSignalNb 0
        (refreshStatics env s) = some s1 ∧
      refreshEngine env s1 = some s2 ∧ s2.RcChannel = s1.RcChannel ∧
      s1.trace = s.trace ++ e1 ∧ s2.trace = s1.trace ++ e2 ∧
      (∀ e ∈ e1, Event.isEngine e = false) ∧ (∀ e ∈ e2, Event.isTrigger e = false) := by
  unfold RcSeq_Refresh at h
  cases hacq : acquireFrom env fuel pulses (refreshStatics env s).CmdSignalNb 0
      (refreshStatics env s) with
  | none => rw [hacq] at h; exact absurd h (by simp)
  | some s1 =>
    rw [hacq] at h
    simp only [] at h
    obtain ⟨e1, he1, hq1⟩ := (acquireFrom_acquired env fuel pulses _ _ _ s1 hacq).trace
    rw [(refreshStatics_frame env s).2.2.2.2.1] at he1
    obtain ⟨hch, _, _, e2, he2, hq2⟩ := refreshEngine_quiet env s1 s2 h
    exact ⟨s1, e1, e2, rfl, h, hch, he1, he2, hq1, hq2⟩

/-- C22 (amended): the command acquisition of `RcSeq_Refresh` is not gated: every
call has the channels and the triggers that its acquisition step, made before
the 20 ms gate, leaves, whatever the time since the previous tick; a call
changes no channel and fires no trigger when no channel has a fresh pulse. -/
theorem acquisition_ungated (env : Env) (fuel : Nat) (pulses : Nat → Option Nat)
    (s s2 : State) (h : RcSeq_Refresh env fuel pulses s = some s2) :
    ∃ s1, acquireFrom env fuel pulses (refreshStatics env s).CmdSignalNb 0
        (refreshStatics env s) = some s1 ∧
      s2.RcChannel = s1.RcChannel ∧
      (newEvents s s2).filter Event.isTrigger = (newEvents s s1).filter Event.isTrigger ∧
      ((∀ c, pulses c = none) →
        s2.RcChannel = s.RcChannel ∧ (newEvents s s2).filter Event.isTrigger = []) := by
  obtain ⟨s1, e1, e2, hacq, _, hch, he1, he2, _, hq2⟩ := Refresh_split env fuel pulses s s2 h
  have ht1 : newEvents s s1 = e1 := newEvents_append s s1 e1 he1
  have ht2 : newEvents s s2 = e1 ++ e2 :=
    newEvents_append s s2 (e1 ++ e2) (by rw [he2, he1, List.append_assoc])
  have hf : (newEvents s s2).filter Event.isTrigger = (newEvents s s1).filter Event.isTrigger := by
    rw [ht1, ht2, List.filter_append, filter_isTrigger_quiet e2 hq2, List.append_nil]
  refine ⟨s1, hacq, hch, hf, fun hp => ?_⟩
  have hs1 := acquireFrom_idle env fuel pulses hp _ _ _ s1 hacq
  obtain ⟨_, _, _, f4, f5, _⟩ := refreshStatics_frame env s
  constructor
  · rw [hch, hs1, f4]
  · rw [hf, hs1]
    unfold newEvents
    rw [f5]
    simp

/-- The call in `recentTick` has the channel record and the trigger of its
acquisition step. -/
theorem acquisition_ungated_witness :
    RcSeq_Refresh stillEnv 200 pulse1300 recentTick = some gatedTick ∧
    ∃ s1, acquireFrom stillEnv 200 pulse1300 (refreshStatics stillEnv recentTick).CmdSignalNb 0
        (refreshStatics stillEnv recentTick) = some s1 ∧
      gatedTick.RcChannel = s1.RcChannel ∧
      (newEvents recentTick gatedTick).filter Event.isTrigger =
        (newEvents recentTick s1).filter Event.isTrigger ∧
      ((∀ c, pulse1300 c = none) →
        gatedTick.RcChannel = recentTick.RcChannel ∧
          (newEvents recentTick gatedTick).filter Event.isTrigger = []) := by
  have h : RcSeq_Refresh stillEnv 200 pulse1300 recentTick = some gatedTick := by decide
  exact ⟨h, acquisition_ungated stillEnv 200 pulse1300 recentTick gatedTick h⟩

/-- C22 (counterexample): after `stickSetup`, channel 0 is fed 1300 us
(position 1) in a call at 1000 ms and in a call at 1140 ms, which runs the
engine and records 1140 ms as the time of the tick.  A third call at 1150 ms,
10 ms after that tick, does not run the engine, but with a fresh pulse of
1300 us it fires the trigger of (channel 0, position 1), which calls the short
action 55, and clears the held position; with a fresh pulse of 1900 us
(position 3) it changes the held position to 3 and the hold timestamp to 1150. -/
theorem acquisition_ungated_counterexample :
    runCalls burstEnv 200 (stickSetup ++ feed 1300 2) blankState = some burstState ∧
    burstState.NowMs = 1140 ∧ burstState.StartChronoInterPulseMs = 1140 ∧
    burstState.RcChannel[0]?.map (fun ch => ch.Pos) = some { Idx := 1, StartChronoMs := 1000 } ∧
    (RcSeq_Refresh burstEnv 200 pulse1300 burstState).map
        (fun s2 => (s2.NowMs, s2.StartChronoInterPulseMs, newEvents burstState s2)) =
      some (1150, 1140, [Event.trigger 0 1 1150, Event.shortAction 55]) ∧
    (RcSeq_Refresh burstEnv 200 pulse1300 burstState).map
        (fun s2 => s2.RcChannel[0]?.map (fun ch => ch.Pos)) =
      some (some { Idx := -1, StartChronoMs := 1000 }) ∧
    (RcSeq_Refresh burstEnv 200 (fun c => if c = 0 then some 1900 else none) burstState).map
        (fun s2 => (s2.StartChronoInterPulseMs, s2.RcChannel[0]?.map (fun ch => ch.Pos),
          newEvents burstState s2)) =
      some (1140, some { Idx := 3, StartChronoMs := 1150 }, []) := by
  decide

theorem ShapeKept_refl (s : State) : ShapeKept s s :=
  ⟨rfl, rfl, fun _ b hb => ⟨b, hb, rfl, rfl⟩⟩

theorem ShapeKept_trans {s s1 s2 : State} (h1 : ShapeKept s s1) (h2 : ShapeKept s1 s2) :
    ShapeKept s s2 := by
  refine ⟨by rw [h2.servos, h1.servos], by rw [h2.size, h1.size], ?_⟩
  intro i b hb
  obtain ⟨x, hx, x1, x2⟩ := h1.shape i b hb
  obtain ⟨y, hy, y1, y2⟩ := h2.shape i x hx
  exact ⟨y, hy, by rw [y1, x1], by rw [y2, x2]⟩

/-- A step that replaces the binding `Idx` by a record with the same table and
length, or leaves the registry alone. -/
theorem ShapeKept_of_set (s s1 : State) (Idx : Nat) (b b2 : CmdSequenceSt_t)
    (hb : s.CmdSequence[Idx]? = some b) (hS : s1.Servo.length = s.Servo.length)
    (hC : s1.CmdSequence = s.CmdSequence ∨ s1.CmdSequence = s.CmdSequence.set Idx b2)
    (h1 : b2.TableOrShortAction = b.TableOrShortAction)
    (h2 : b2.SequenceLength = b.SequenceLength) : ShapeKept s s1 := by
  rcases hC with hC | hC
  · exact ⟨hS, by rw [hC], fun i x hx => ⟨x, by rw [hC]; exact hx, rfl, rfl⟩⟩
  · refine ⟨hS, by rw [hC, List.length_set], ?_⟩
    intro i x hx
    rw [hC]
    by_cases hEq : Idx = i
    · subst hEq
      rw [hb] at hx
      cases hx
      exact ⟨b2, List.getElem?_set_self (List.getElem?_eq_some_iff.mp hb).1, h1, h2⟩
    · exact ⟨x, by rw [List.getElem?_set_ne hEq]; exact hx, rfl, rfl⟩

/-- One line of a sequence keeps the sizes of the tables and the table and the
length of every binding. -/
theorem lineStep_shape (env : Env) (s s2 : State) (Idx l cnt : Nat) (line : SequenceSt_t)
    (b : CmdSequenceSt_t) (hb : s.CmdSequence[Idx]? = some b)
    (h : lineStep env s Idx l cnt line = some s2) : ShapeKept s s2 := by
  unfold lineStep at h
  by_cases hc : u8 line.ServoIndex = 255
  · rw [if_pos hc] at h
    unfold shortActionLine at h
    rw [hb] at h
    simp only [] at h
    by_cases hd : shortActionDue s b line = true ∧ TST_BIT b.ShortActionMap cnt = 0
    · rw [if_pos hd] at h
      cases h
      unfold shortActionFire
      by_cases hl : l + 1 = b.SequenceLength
      · rw [if_pos hl]
        exact ShapeKept_of_set s _ Idx b _ hb rfl (Or.inr rfl) rfl rfl
      · rw [if_neg hl]
        exact ShapeKept_of_set s _ Idx b _ hb rfl (Or.inr rfl) rfl rfl
    · rw [if_neg hd] at h
      cases h
      exact ShapeKept_refl s
  · rw [if_neg hc] at h
    unfold motionLine at h
    cases hsv : s.Servo[u8 line.ServoIndex]? with
    | none => rw [hsv] at h; exact absurd h (by simp)
    | some sv =>
      rw [hsv] at h
      simp only [] at h
      rw [hb] at h
      simp only [] at h
      unfold motionLineOn at h
      by_cases h0 : sv.RefreshNb ≠ 0 ∧ l ≠ sv.SeqLineInProgress
      · rw [if_pos h0] at h
        cases h
        exact ShapeKept_refl s
      · rw [if_neg h0] at h
        by_cases h1 : sv.RefreshNb = 0 ∧ sv.SeqLineInProgress = NO_SEQ_LINE
        · rw [if_pos h1] at h
          by_cases h2 : motionDue s b line = true
          · rw [if_pos h2] at h
            cases h
            exact ShapeKept_of_set s _ Idx b b hb (List.length_set _ _ _) (Or.inl rfl) rfl rfl
          · rw [if_neg h2] at h
            cases h
            exact ShapeKept_refl s
        · rw [if_neg h1] at h
          cases hp : motionPos (if sv.RefreshNb ≠ 0 then sv.RefreshNb - 1 else sv.RefreshNb)
              (u8 line.StartInDegrees) (u8 line.EndInDegrees) (u32 line.MotionDurationMs) with
          | none => rw [hp] at h; exact absurd h (by simp)
          | some Pos =>
            rw [hp] at h
            simp only [Option.some.injEq] at h
            rw [← h]
            unfold motionAdvance
            by_cases hr : (if sv.RefreshNb ≠ 0 then sv.RefreshNb - 1 else sv.RefreshNb) = 0
            · rw [if_pos hr]
              by_cases hl : l + 1 = b.SequenceLength
              · rw [if_pos hl]
                unfold motionEndOfSeq
                by_cases hk : b.Control ≠ 0
                · rw [if_pos hk]
                  exact ShapeKept_of_set s _ Idx b _ hb (List.length_set _ _ _) (Or.inr rfl)
                    rfl rfl
                · rw [if_neg hk]
                  exact ShapeKept_of_set s _ Idx b _ hb (List.length_set _ _ _) (Or.inr rfl)
                    rfl rfl
              · rw [if_neg hl]
                exact ShapeKept_of_set s _ Idx b b hb (List.length_set _ _ _) (Or.inl rfl)
                  rfl rfl
            · rw [if_neg hr]
              exact ShapeKept_of_set s _ Idx b b hb (List.length_set _ _ _) (Or.inl rfl) rfl rfl

theorem linesFrom_shape (env : Env) (Idx : Nat) :
    ∀ (n l cnt : Nat) (s s1 : State), linesFrom env Idx n l cnt s = some s1 →
      ShapeKept s s1 := by
  intro n
  induction n with
  | zero => intro l cnt s s1 h; obtain ⟨rfl, _⟩ := linesFrom_zero env Idx _ _ _ _ h; exact ShapeKept_refl s
  | succ n ih =>
    intro l cnt s s1 h
    rw [linesFrom] at h
    by_cases h0 : l > 127
    · rw [if_pos h0] at h; exact absurd h (by simp)
    · rw [if_neg h0] at h
      cases hb : s.CmdSequence[Idx]? with
      | none => rw [hb] at h; exact absurd h (by simp)
      | some b =>
        rw [hb] at h
        simp only [] at h
        cases hl : (env.Flash b.TableOrShortAction)[l]? with
        | none => rw [hl] at h; exact absurd h (by simp)
        | some line =>
          rw [hl] at h
          simp only [] at h
          cases hs : lineStep env s Idx l cnt line with
          | none => rw [hs] at h; exact absurd h (by simp)
          | some s2 =>
            rw [hs] at h
            exact ShapeKept_trans (lineStep_shape env s s2 Idx l cnt line b hb hs) (ih _ _ _ _ h)

/-- The loop over 128 bindings or more has no result: after binding 127 the
`int8_t` counter wraps to -128 and the loop goes on at a negative index of
`CmdSequence`. -/
theorem engineFrom_wrap (env : Env) :
    ∀ (n Idx : Nat) (s : State), 128 ≤ Idx + n → engineFrom env n Idx s = none := by
  intro n
  induction n with
  | zero => intro Idx s h; rw [engineFrom, if_pos (by omega)]
  | succ n ih =>
    intro Idx s h
    rw [engineFrom]
    split
    · rfl
    · split
      · rfl
      · split
        · exact ih _ _ (by omega)
        · split
          · rfl
          · exact ih _ _ (by omega)

/-- The loop over the bindings has a result when it stays inside the registry,
its counter stays at most 127, and every sequence binding is well formed. -/
theorem engineFrom_total (env : Env) (servos : Nat) :
    ∀ (n Idx : Nat) (s : State), Idx + n ≤ 127 → Idx + n ≤ s.CmdSequence.length →
      servos ≤ s.Servo.length →
      (∀ (i : Nat) (b : CmdSequenceSt_t), s.CmdSequence[i]? = some b → BindingOk env servos b) →
      ∃ s1, engineFrom env n Idx s = some s1 := by
  intro n
  induction n with
  | zero =>
    intro Idx s hmax _ _ _
    rw [engineFrom, if_neg (by omega)]
    exact ⟨s, rfl⟩
  | succ n ih =>
    intro Idx s hmax hlen hS hok
    have hlt : Idx < s.CmdSequence.length := by omega
    have hb := List.getElem?_eq_getElem hlt
    rw [engineFrom, if_neg (by omega), hb]
    simp only []
    by_cases h1 : (s.CmdSequence[Idx]).InProgress = 0 ∨ (s.CmdSequence[Idx]).SequenceLength = 0
    · rw [if_pos h1]
      exact ih (Idx + 1) s (by omega) (by omega) hS hok
    · rw [if_neg h1]
      obtain ⟨g1, g2, g3⟩ := hok Idx _ hb (fun e => h1 (Or.inr e))
      obtain ⟨s1, hs⟩ := linesFrom_total env Idx _ servos g3 (s.CmdSequence[Idx]).SequenceLength
        0 0 s _ hb rfl (by omega) g1 g2 hS
      rw [hs]
      simp only []
      have hk := linesFrom_shape env Idx _ _ _ s s1 hs
      refine ih (Idx + 1) s1 (by omega) (by rw [hk.size]; omega) (by rw [hk.servos]; exact hS) ?_
      intro i b1 hb1
      have hi : i < s.CmdSequence.length := by
        rw [← hk.size]
        exact (List.getElem?_eq_some_iff.mp hb1).1
      obtain ⟨b2, hb2, e1, e2⟩ := hk.shape i _ (List.getElem?_eq_getElem hi)
      rw [hb1] at hb2
      cases hb2
      have hg := hok i _ (List.getElem?_eq_getElem hi)
      unfold BindingOk at hg ⊢
      rw [e1, e2]
      exact hg

/-- C24 (amended): let the registry stay inside its bounds (at most 127 bindings,
all inside the array) and let every sequence binding be well formed: at most 127
lines, all inside its table, whose motion lines name existing servos and have a
duration from 20 to 4294967276 ms.  Then a call of `RcSeq_Refresh` whose command
acquisition has a result has a result: no position update divides by zero.  For
such a duration the divisor `((int32_t)MotionDurationMs) / 20` of the position
update is not 0 and the update has a value, whatever the number of refreshes
left. -/
theorem division_safe (env : Env) (fuel : Nat) (pulses : Nat → Option Nat) (s s1 : State)
    (servos : Nat) (hmax : s.SeqNb ≤ 127) (hlen : s.SeqNb ≤ s.CmdSequence.length)
    (hsv : servos ≤ s.Servo.length)
    (hreg : ∀ (i : Nat) (b : CmdSequenceSt_t), s.CmdSequence[i]? = some b →
      BindingOk env servos b)
    (hacq : acquireFrom env fuel pulses (refreshStatics env s).CmdSignalNb 0
      (refreshStatics env s) = some s1) :
    (∃ s2, RcSeq_Refresh env fuel pulses s = some s2) ∧
    (∀ (line : SequenceSt_t) (r : Nat), 20 ≤ line.MotionDurationMs →
      line.MotionDurationMs ≤ 4294967276 →
      Int.tdiv (i32 (u32 line.MotionDurationMs)) 20 ≠ 0 ∧
      ∃ p, motionPos r (u8 line.StartInDegrees) (u8 line.EndInDegrees)
        (u32 line.MotionDurationMs) = some p) := by
  constructor
  · obtain ⟨f1, f2, f3, _, _, _⟩ := refreshStatics_frame env s
    have hA := acquireFrom_acquired env fuel pulses _ _ _ s1 hacq
    have hok : ∀ (i : Nat) (b : CmdSequenceSt_t), s1.CmdSequence[i]? = some b →
        BindingOk env servos b := by
      intro i b1 hb1
      have hi : i < (refreshStatics env s).CmdSequence.length := by
        rw [← hA.size]
        exact (List.getElem?_eq_some_iff.mp hb1).1
      obtain ⟨b2, hb2, e1, e2, _⟩ := hA.shape i _ (List.getElem?_eq_getElem hi)
      rw [hb1] at hb2
      cases hb2
      have hg := hreg i _ (by rw [← f2]; exact List.getElem?_eq_getElem hi)
      unfold BindingOk at hg ⊢
      rw [e1, e2]
      exact hg
    unfold RcSeq_Refresh
    rw [hacq]
    simp only []
    unfold refreshEngine
    simp only []
    split
    · obtain ⟨s3, hs3⟩ := engineFrom_total env servos (millis env s1).2.SeqNb 0
        { (millis env s1).2 with NowMs := (millis env s1).1 }
        (by
          show 0 + s1.SeqNb ≤ 127
          rw [hA.seqNb, f3]
          omega)
        (by
          show 0 + s1.SeqNb ≤ s1.CmdSequence.length
          rw [hA.seqNb, f3, hA.size, f2]
          omega)
        (by
          show servos ≤ s1.Servo.length
          rw [hA.servo, f1]
          exact hsv)
        hok
      rw [hs3]
      exact ⟨_, rfl⟩
    · exact ⟨_, rfl⟩
  · intro line r hD hD32
    refine ⟨?_, motionPos_isSome r _ _ line.MotionDurationMs hD hD32⟩
    rw [u32_natCast _ (by omega), Ne, tdiv_twenty]
    unfold i32
    omega

/-- In `okEnv`, whose only table `demoTable` has a motion of 500 ms, the call of
`RcSeq_Refresh` during the motion of the sequence example has a result. -/
theorem division_safe_witness :
    midState.SeqNb ≤ 127 ∧ midState.SeqNb ≤ midState.CmdSequence.length ∧
    2 ≤ midState.Servo.length ∧
    (∀ b ∈ midState.CmdSequence, BindingOk okEnv 2 b) ∧
    (∃ s2, RcSeq_Refresh okEnv 0 (fun _ => none) midState = some s2) := by
  have hreg : ∀ b ∈ midState.CmdSequence, BindingOk okEnv 2 b := by
    unfold BindingOk
    decide
  exact ⟨by decide, by decide, by decide, hreg,
    (division_safe okEnv 0 (fun _ => none) midState (refreshStatics okEnv midState) 2
      (by decide) (by decide) (by decide) (fun i b hb => hreg b (List.getElem?_mem hb)) rfl).1⟩

/-- C24 (counterexample): the duration 4294967295 ms is at least 20, but the
position update divides by `((int32_t)MotionDurationMs) / 20`, which is
`-1 / 20 = 0`.  After the launch of the table of `foreverEnv` at 0 ms the second
call of `RcSeq_Refresh`, at 20 ms, claims servo 0 with `RefreshNb = 52428`, and
the third call, which evaluates the position update, has no result. -/
theorem division_safe_counterexample :
    20 ≤ foreverMotion.MotionDurationMs ∧
    i32 (u32 foreverMotion.MotionDurationMs) = -1 ∧
    Int.tdiv (i32 (u32 foreverMotion.MotionDurationMs)) 20 = 0 ∧
    motionPos 52427 0 90 (u32 foreverMotion.MotionDurationMs) = none ∧
    (runCalls foreverEnv 0 (foreverSetup ++ ticks 2) blankState).map (fun s => s.Servo[0]?) =
      some (some { RefreshNb := 52428, SeqLineInProgress := 0 }) ∧
    (runCalls foreverEnv 0 (foreverSetup ++ ticks 3) blankState).isNone = true := by
  decide

end RcSeq
